import Mathlib

/-!
# Constraint-propagation Sudoku solver (`sudoku.c`)

A shallow embedding of the solver's global state (`q`, `notdone`), of the digit
codec, of the assignment primitive `set`, of the six rule passes and of the
driver loop, followed by theorems about them.

Conventions of the embedding

* `int` values are unbounded integers (`Int`); array indices and loop counters,
  which the program keeps non-negative, are natural numbers.
* `q[i][j][k]` is `Grid.q i j k`; a C store `q[i][j][k] = v` is `upd`.
* A `for` loop over a fixed range is a left fold over the list of the values
  taken by the loop variable, in the order of the loop.
* `char` values are integers (character codes).
-/

namespace Sudoku

/-- Side of a sub-grid: `#define STEP 3`. -/
def STEP : Nat := 3

/-- Side of the grid and number of digits: `#define MAX (STEP*STEP)`. -/
def MAX : Nat := STEP * STEP

/-- The global variables `int q[MAX][MAX][MAX+1]` and `int notdone`.
`q i j 0` is the digit assigned to cell `(i,j)` (0 when unassigned) and, for
`1 ≤ k ≤ MAX`, `q i j k` is non-zero when digit `k` is still possible there. -/
structure Grid where
  q : Nat → Nat → Nat → Int
  notdone : Int

/-- The store `q[x][y][n] = v`. -/
def upd (q : Nat → Nat → Nat → Int) (x y n : Nat) (v : Int) : Nat → Nat → Nat → Int :=
  fun i j k => if i = x ∧ j = y ∧ k = n then v else q i j k

/-- The store `a[k] = v` on a local array. -/
def updA {α : Type} (a : Nat → α) (k : Nat) (v : α) : Nat → α :=
  fun k' => if k' = k then v else a k'

/-- Values of a loop variable running `for (i=0; i<MAX; i++)`. -/
def indices : List Nat := List.range MAX

/-- Values of a loop variable running `for (k=1; k<=MAX; k++)`. -/
def digits : List Nat := List.range' 1 MAX

/-- Values of a loop variable running `for (i1=0; i1<MAX; i1+=STEP)`. -/
def blockStarts : List Nat := (List.range STEP).map (fun b => b * STEP)

/-- Values of a loop variable running `for (i2=0; i2<STEP; i2++)`. -/
def offsets : List Nat := List.range STEP

/-! ## Digit codec -/

/-- Narrowing of an `int` to a (signed, 8-bit) `char`. -/
def wrapChar (v : Int) : Int := (v + 128) % 256 - 128

/-- `char num2char(int n)`: `c = n > 9 ? 'A' - 10 : '0'; c += n;`. -/
def num2char (n : Int) : Int :=
  let c : Int := if n > 9 then 65 - 10 else 48
  wrapChar (c + n)

/-- `int char2num(char c)`. -/
def char2num (c : Int) : Int :=
  let n : Int :=
    if 49 ≤ c ∧ c ≤ 57 then c - 48
    else if 65 ≤ c ∧ c ≤ 90 then c - 65 + 10
    else if 97 ≤ c ∧ c ≤ 122 then c - 97 + 10
    else 0
  if n > (MAX : Int) then 0 else n

/-! ## The assignment primitive -/

/-- `set(x, y, n)`: when `n` is possible for the cell and the cell is not yet
assigned, clear `n` along row `x`, column `y` and the sub-grid of `(x,y)`, then
mark the cell as holding `n` and decrement `notdone`. -/
def set (s : Grid) (x y n : Nat) : Grid :=
  if s.q x y n ≠ 0 ∧ s.q x y 0 = 0 then
    let q1 := indices.foldl (fun q i => upd (upd q x i n 0) i y n 0) s.q
    let mx := x - x % STEP
    let my := y - y % STEP
    let q2 := (List.range' mx STEP).foldl
      (fun q i => (List.range' my STEP).foldl (fun q j => upd q i j n 0) q) q1
    let q3 := upd q2 x y n 1
    let q4 := upd q3 x y 0 (n : Int)
    { q := q4, notdone := s.notdone - 1 }
  else s

/-! ## The rule passes -/

/-- The local arrays `count[MAX+1]` and `pos[MAX+1]` of a rule pass. For the
sub-grid hidden-single rule the two arrays `posi`, `posj` are kept as one array
of pairs. -/
structure Tally (α : Type) where
  count : Nat → Nat
  pos : Nat → α

/-- Inner loop of the hidden-single scans over one unassigned cell:
`for k: if (q[i][j][k]) { count[k]++; pos[k] = v; }`. -/
def tallyCell {α : Type} (q : Nat → Nat → Nat → Int) (i j : Nat) (v : α) (t : Tally α) :
    Tally α :=
  digits.foldl (fun t k =>
    if q i j k ≠ 0 then { count := updA t.count k (t.count k + 1), pos := updA t.pos k v }
    else t) t

/-- Inner loop of the pointing scans over one unassigned cell:
`for k: if (q[i][j][k] && pos[k] != v) { count[k]++; pos[k] = v; }`. -/
def tallyLine (q : Nat → Nat → Nat → Int) (i j : Nat) (v : Nat) (t : Tally Int) :
    Tally Int :=
  digits.foldl (fun t k =>
    if q i j k ≠ 0 ∧ t.pos k ≠ (v : Int) then
      { count := updA t.count k (t.count k + 1), pos := updA t.pos k (v : Int) }
    else t) t

/-- Candidate count of one cell in `rule_only_digit_in_cell`:
`for (c=0, k=1; k<=MAX; k++) if (q[i][j][k]) { c++; n=k; }`, returning `(c, n)`.
The C variable `n` is not reset between cells; it is read only when `c == 1`,
in which case this loop has written it, so the scan starts it at 0. -/
def countCell (q : Nat → Nat → Nat → Int) (i j : Nat) : Nat × Nat :=
  digits.foldl (fun cn k => if q i j k ≠ 0 then (cn.1 + 1, k) else cn) (0, 0)

/-- RULE 1, naked single: `rule_only_digit_in_cell`. -/
def rule_only_digit_in_cell (s : Grid) : Grid :=
  indices.foldl (fun s i =>
    indices.foldl (fun s j =>
      if s.q i j 0 = 0 then
        let cn := countCell s.q i j
        if cn.1 = 1 then set s i j cn.2 else s
      else s) s) s

/-- The counting loop of `rule_only_place_in_row` for row `i`. The array `pos`
is uninitialised in C and read only where `count[k] == 1`, after the scan has
written it; the embedding starts it at 0. -/
def rowTally (q : Nat → Nat → Nat → Int) (i : Nat) : Tally Nat :=
  indices.foldl (fun t j => if q i j 0 = 0 then tallyCell q i j j t else t)
    { count := fun _ => 0, pos := fun _ => 0 }

/-- RULE 2, hidden single in a row: `rule_only_place_in_row`. -/
def rule_only_place_in_row (s : Grid) : Grid :=
  indices.foldl (fun s i =>
    let t := rowTally s.q i
    digits.foldl (fun s k => if t.count k = 1 then set s i (t.pos k) k else s) s) s

/-- The counting loop of `rule_only_place_in_column` for column `j`. -/
def columnTally (q : Nat → Nat → Nat → Int) (j : Nat) : Tally Nat :=
  indices.foldl (fun t i => if q i j 0 = 0 then tallyCell q i j i t else t)
    { count := fun _ => 0, pos := fun _ => 0 }

/-- RULE 3, hidden single in a column: `rule_only_place_in_column`. -/
def rule_only_place_in_column (s : Grid) : Grid :=
  indices.foldl (fun s j =>
    let t := columnTally s.q j
    digits.foldl (fun s k => if t.count k = 1 then set s (t.pos k) j k else s) s) s

/-- The scan of `rule_only_in_one_row_in_group` over the sub-grid at `(i1,j1)`:
`count[k]` and `pos[k]` start at 0 and -1. -/
def rowGroupTally (q : Nat → Nat → Nat → Int) (i1 j1 : Nat) : Tally Int :=
  offsets.foldl (fun t i2 =>
    offsets.foldl (fun t j2 =>
      let i := i1 + i2
      let j := j1 + j2
      if q i j 0 = 0 then tallyLine q i j i t else t) t)
    { count := fun _ => 0, pos := fun _ => -1 }

/-- RULE 4, pointing pair/triple along a row: `rule_only_in_one_row_in_group`. -/
def rule_only_in_one_row_in_group (s : Grid) : Grid :=
  blockStarts.foldl (fun s i1 =>
    blockStarts.foldl (fun s j1 =>
      let t := rowGroupTally s.q i1 j1
      digits.foldl (fun s k =>
        if t.count k = 1 then
          let r := (t.pos k).toNat
          let q1 := (List.range j1).foldl (fun q j2 => upd q r j2 k 0) s.q
          let q2 := (List.range' (j1 + STEP) (MAX - (j1 + STEP))).foldl
            (fun q j2 => upd q r j2 k 0) q1
          { q := q2, notdone := s.notdone }
        else s) s) s) s

/-- The scan of `rule_only_in_one_column_in_group` over the sub-grid at
`(i1,j1)`. -/
def columnGroupTally (q : Nat → Nat → Nat → Int) (i1 j1 : Nat) : Tally Int :=
  offsets.foldl (fun t i2 =>
    offsets.foldl (fun t j2 =>
      let i := i1 + i2
      let j := j1 + j2
      if q i j 0 = 0 then tallyLine q i j j t else t) t)
    { count := fun _ => 0, pos := fun _ => -1 }

/-- RULE 5, pointing pair/triple along a column:
`rule_only_in_one_column_in_group`. -/
def rule_only_in_one_column_in_group (s : Grid) : Grid :=
  blockStarts.foldl (fun s i1 =>
    blockStarts.foldl (fun s j1 =>
      let t := columnGroupTally s.q i1 j1
      digits.foldl (fun s k =>
        if t.count k = 1 then
          let c := (t.pos k).toNat
          let q1 := (List.range i1).foldl (fun q i2 => upd q i2 c k 0) s.q
          let q2 := (List.range' (i1 + STEP) (MAX - (i1 + STEP))).foldl
            (fun q i2 => upd q i2 c k 0) q1
          { q := q2, notdone := s.notdone }
        else s) s) s) s

/-- The counting loop of `rule_only_in_one_sq_in_group` over the sub-grid at
`(i1,j1)`; `pos k` is the pair `(posi[k], posj[k])`. -/
def sqTally (q : Nat → Nat → Nat → Int) (i1 j1 : Nat) : Tally (Nat × Nat) :=
  offsets.foldl (fun t i2 =>
    offsets.foldl (fun t j2 =>
      let i := i1 + i2
      let j := j1 + j2
      if q i j 0 = 0 then tallyCell q i j (i, j) t else t) t)
    { count := fun _ => 0, pos := fun _ => (0, 0) }

/-- RULE 6, hidden single in a sub-grid: `rule_only_in_one_sq_in_group`. -/
def rule_only_in_one_sq_in_group (s : Grid) : Grid :=
  blockStarts.foldl (fun s i1 =>
    blockStarts.foldl (fun s j1 =>
      let t := sqTally s.q i1 j1
      digits.foldl (fun s k =>
        if t.count k = 1 then set s (t.pos k).1 (t.pos k).2 k else s) s) s) s

/-- `apply_rules`: the six passes in the order of the source. -/
def apply_rules (s : Grid) : Grid :=
  rule_only_digit_in_cell
    (rule_only_place_in_column
      (rule_only_place_in_row
        (rule_only_in_one_sq_in_group
          (rule_only_in_one_column_in_group
            (rule_only_in_one_row_in_group s)))))

/-! ## The driver -/

/-- The grid built by the initialisation loops of `main`: every cell unassigned,
every digit `1..MAX` possible, `notdone = MAX*MAX`. Entries outside the array
are given the value 0. -/
def initGrid : Grid :=
  { q := fun i j k => if i < MAX ∧ j < MAX ∧ 1 ≤ k ∧ k ≤ MAX then 1 else 0
    notdone := ((MAX * MAX : Nat) : Int) }

/-- The character test of `read_input`. -/
def accepted (c : Int) : Bool :=
  decide (c = 46 ∨ c = 32 ∨ (97 ≤ c ∧ c ≤ 122) ∨ (65 ≤ c ∧ c ≤ 90) ∨ (48 ≤ c ∧ c ≤ 57))

/-- The loop `while (i<j) { c = getchar(); ... }` of `read_input` on the input
characters `cs`. When the input ends before `j` accepted characters were seen,
`getchar` keeps returning `EOF`, which is not accepted, and the loop never
ends: the result is `none`. -/
def readLoop : List Int → Nat → Int → Grid → Option Grid
  | [], i, j, s => if (i : Int) < j then none else some s
  | c :: cs, i, j, s =>
    if (i : Int) < j then
      if accepted c then
        readLoop cs (i + 1) j (set s (i / MAX) (i % MAX) (char2num c).toNat)
      else readLoop cs i j s
    else some s

/-- `read_input`: `i=0; j=notdone;` then the loop. -/
def read_input (cs : List Int) (s : Grid) : Option Grid :=
  readLoop cs 0 s.notdone s

/-- The main solving loop, with a bound `fuel` on the number of iterations
(`none` when the bound is reached):
`while (notdone) { p = notdone; apply_rules(); if (p == notdone) { apply_rules(); break; } }`. -/
def solveLoop : Nat → Grid → Option Grid
  | 0, _ => none
  | fuel + 1, s =>
    if s.notdone ≠ 0 then
      let p := s.notdone
      let s1 := apply_rules s
      if p = s1.notdone then some (apply_rules s1)
      else solveLoop fuel s1
    else some s

/-- The state at the end of `main` on the input characters `cs`. -/
def solve (fuel : Nat) (cs : List Int) : Option Grid :=
  (read_input cs initGrid).bind (solveLoop fuel)

/-! ## Notions used by the specification -/

/-- Cell `(i,j)` lies in the sub-grid of `(x,y)`, whose top-left corner is
`(x - x%STEP, y - y%STEP)`. -/
def inBlock (x y i j : Nat) : Prop :=
  x - x % STEP ≤ i ∧ i < x - x % STEP + STEP ∧ y - y % STEP ≤ j ∧ j < y - y % STEP + STEP

instance instDecidableInBlock (x y i j : Nat) : Decidable (inBlock x y i j) := by
  unfold inBlock; exact inferInstance

/-- Cell `(i,j)` is swept by `set(x,y,_)`: it is in row `x`, in column `y` or in
the sub-grid of `(x,y)`. -/
def swept (x y i j : Nat) : Prop :=
  (i = x ∧ j < MAX) ∨ (j = y ∧ i < MAX) ∨ inBlock x y i j

instance instDecidableSwept (x y i j : Nat) : Decidable (swept x y i j) := by
  unfold swept; exact inferInstance

/-- The glyphs of the digits 1..9. -/
def digitGlyphs : List Char := ['1', '2', '3', '4', '5', '6', '7', '8', '9']

/-- The upper-case letters, standing for the digits 10..35. -/
def upperGlyphs : List Char :=
  ['A', 'B', 'C', 'D', 'E', 'F', 'G', 'H', 'I', 'J', 'K', 'L', 'M',
   'N', 'O', 'P', 'Q', 'R', 'S', 'T', 'U', 'V', 'W', 'X', 'Y', 'Z']

/-- The lower-case letters, standing for the digits 10..35. -/
def lowerGlyphs : List Char :=
  ['a', 'b', 'c', 'd', 'e', 'f', 'g', 'h', 'i', 'j', 'k', 'l', 'm',
   'n', 'o', 'p', 'q', 'r', 's', 't', 'u', 'v', 'w', 'x', 'y', 'z']

/-- Character codes of a list of glyphs. -/
def glyphCodes (gs : List Char) : List Int := gs.map (fun g => (g.toNat : Int))

/-- Position of the character code `c` in a list of glyphs, if it occurs. -/
def glyphIndex (gs : List Char) (c : Int) : Option Nat :=
  if (glyphCodes gs).indexOf c < gs.length then some ((glyphCodes gs).indexOf c) else none

/-- The decoding `d` of the specification: `'1'..'9'` give 1..9, a letter of
either case gives 10 plus its rank in the alphabet, anything else gives 0. -/
def decodeDigit (c : Int) : Int :=
  match glyphIndex digitGlyphs c with
  | some m => (m : Int) + 1
  | none =>
    match glyphIndex upperGlyphs c with
    | some m => (m : Int) + 10
    | none =>
      match glyphIndex lowerGlyphs c with
      | some m => (m : Int) + 10
      | none => 0

/-- The grid states the program can be in: the initial grid, closed under
in-range `set` calls (digit `0..MAX`) and under each of the six rule passes. -/
inductive Reachable : Grid → Prop
  | init : Reachable initGrid
  | assign (s : Grid) (x y n : Nat) : Reachable s → x < MAX → y < MAX → n ≤ MAX →
      Reachable (set s x y n)
  | digit_in_cell (s : Grid) : Reachable s → Reachable (rule_only_digit_in_cell s)
  | place_in_row (s : Grid) : Reachable s → Reachable (rule_only_place_in_row s)
  | place_in_column (s : Grid) : Reachable s → Reachable (rule_only_place_in_column s)
  | one_row_in_group (s : Grid) : Reachable s → Reachable (rule_only_in_one_row_in_group s)
  | one_column_in_group (s : Grid) :
      Reachable s → Reachable (rule_only_in_one_column_in_group s)
  | one_sq_in_group (s : Grid) : Reachable s → Reachable (rule_only_in_one_sq_in_group s)

/-- The cells of the grid, row by row. -/
def cells : List (Nat × Nat) := List.product indices indices

/-- Number of cells whose assigned field `q[i][j][0]` is 0. -/
def unassigned (s : Grid) : Nat := cells.countP (fun c => decide (s.q c.1 c.2 0 = 0))

/-- Distinct cells `(i,j)` and `(i2,j2)` that share a row, a column or a
sub-grid. -/
def peers (i j i2 j2 : Nat) : Prop :=
  (i2 ≠ i ∨ j2 ≠ j) ∧ (i2 = i ∨ j2 = j ∨ inBlock i j i2 j2)

instance instDecidablePeers (i j i2 j2 : Nat) : Decidable (peers i j i2 j2) := by
  unfold peers; exact inferInstance

/-- Every assigned cell holds a digit `n` in `1..MAX` that is still flagged in
the cell itself and is flagged in no other cell of its row, column or
sub-grid. -/
def Exclusive (s : Grid) : Prop :=
  ∀ i < MAX, ∀ j < MAX, s.q i j 0 ≠ 0 →
    ∃ n : Nat, 1 ≤ n ∧ n ≤ MAX ∧ s.q i j 0 = (n : Int) ∧ s.q i j n ≠ 0 ∧
      ∀ i2 < MAX, ∀ j2 < MAX, peers i j i2 j2 → s.q i2 j2 n = 0

/-- A complete valid grid: each row, each column and each sub-grid contains
each digit `1..MAX` exactly once. -/
def ValidSolution (S : Nat → Nat → Nat) : Prop :=
  (∀ i < MAX, ∀ d < MAX + 1, 1 ≤ d →
    ∃ j, j < MAX ∧ (S i j = d ∧ ∀ j2 < MAX, S i j2 = d → j2 = j)) ∧
  (∀ j < MAX, ∀ d < MAX + 1, 1 ≤ d →
    ∃ i, i < MAX ∧ (S i j = d ∧ ∀ i2 < MAX, S i2 j = d → i2 = i)) ∧
  (∀ bi < STEP, ∀ bj < STEP, ∀ d < MAX + 1, 1 ≤ d →
    ∃ a, a < STEP ∧ ∃ b, b < STEP ∧ (S (STEP * bi + a) (STEP * bj + b) = d ∧
      ∀ a2 < STEP, ∀ b2 < STEP, S (STEP * bi + a2) (STEP * bj + b2) = d → a2 = a ∧ b2 = b))

/-- The grid state `g` is compatible with the complete grid `S`: every assigned
cell of `g` holds the digit of `S`, and the digit of `S` is still a candidate in
every cell. -/
def Compatible (g : Grid) (S : Nat → Nat → Nat) : Prop :=
  ∀ i < MAX, ∀ j < MAX, (g.q i j 0 ≠ 0 → g.q i j 0 = (S i j : Int)) ∧ g.q i j (S i j) ≠ 0

/-- Every cell is assigned a digit in `1..MAX`, and two distinct cells sharing a
row, a column or a sub-grid hold different digits. -/
def Solved (s : Grid) : Prop :=
  (∀ i < MAX, ∀ j < MAX, 1 ≤ s.q i j 0 ∧ s.q i j 0 ≤ (MAX : Int)) ∧
  (∀ i < MAX, ∀ j < MAX, ∀ i2 < MAX, ∀ j2 < MAX, peers i j i2 j2 → s.q i j 0 ≠ s.q i2 j2 0)

/-- A property of grid states kept by every in-range `set` call. -/
def SetClosed (P : Grid → Prop) : Prop :=
  ∀ s x y n, x < MAX → y < MAX → n ≤ MAX → P s → P (set s x y n)

/-- Digit `k` is a candidate of the unassigned cell `(i,j)`. -/
def candidateAt (q : Nat → Nat → Nat → Int) (i j k : Nat) : Prop :=
  q i j 0 = 0 ∧ q i j k ≠ 0

instance instDecidableCandidateAt (q : Nat → Nat → Nat → Int) (i j k : Nat) :
    Decidable (candidateAt q i j k) := by
  unfold candidateAt; exact inferInstance

/-- A hidden-single counting loop over a list of cells `(i, j, v)`, where `v` is
what the loop stores in `pos` for the cell. -/
def hiddenScan {α : Type} (q : Nat → Nat → Nat → Int) (cs : List (Nat × Nat × α))
    (t : Tally α) : Tally α :=
  cs.foldl (fun t c => if q c.1 c.2.1 0 = 0 then tallyCell q c.1 c.2.1 c.2.2 t else t) t

/-- A pointing counting loop over a list of cells `(i, j, v)`, where `v` is the
row or column the loop stores in `pos` for the cell. -/
def lineScan (q : Nat → Nat → Nat → Int) (cs : List (Nat × Nat × Nat)) (t : Tally Int) :
    Tally Int :=
  cs.foldl (fun t c => if q c.1 c.2.1 0 = 0 then tallyLine q c.1 c.2.1 c.2.2 t else t) t

/-- The cells of the sub-grid at `(i1,j1)` in scan order, each with the value
`f i j`. -/
def blockCells {α : Type} (i1 j1 : Nat) (f : Nat → Nat → α) : List (Nat × Nat × α) :=
  [(i1 + 0, j1 + 0, f (i1 + 0) (j1 + 0)), (i1 + 0, j1 + 1, f (i1 + 0) (j1 + 1)),
   (i1 + 0, j1 + 2, f (i1 + 0) (j1 + 2)), (i1 + 1, j1 + 0, f (i1 + 1) (j1 + 0)),
   (i1 + 1, j1 + 1, f (i1 + 1) (j1 + 1)), (i1 + 1, j1 + 2, f (i1 + 1) (j1 + 2)),
   (i1 + 2, j1 + 0, f (i1 + 2) (j1 + 0)), (i1 + 2, j1 + 1, f (i1 + 2) (j1 + 1)),
   (i1 + 2, j1 + 2, f (i1 + 2) (j1 + 2))]

/-- In the sub-grid at `(i1,j1)`, digit `k` is a candidate of at least one
unassigned cell and all such cells lie in row `r`. -/
def rowConfined (q : Nat → Nat → Nat → Int) (i1 j1 k r : Nat) : Prop :=
  (∃ a b, i1 ≤ a ∧ a < i1 + STEP ∧ j1 ≤ b ∧ b < j1 + STEP ∧ candidateAt q a b k) ∧
  ∀ a b, i1 ≤ a → a < i1 + STEP → j1 ≤ b → b < j1 + STEP → candidateAt q a b k → a = r

/-- In the sub-grid at `(i1,j1)`, digit `k` is a candidate of at least one
unassigned cell and all such cells lie in column `c`. -/
def columnConfined (q : Nat → Nat → Nat → Int) (i1 j1 k c : Nat) : Prop :=
  (∃ a b, i1 ≤ a ∧ a < i1 + STEP ∧ j1 ≤ b ∧ b < j1 + STEP ∧ candidateAt q a b k) ∧
  ∀ a b, i1 ≤ a → a < i1 + STEP → j1 ≤ b → b < j1 + STEP → candidateAt q a b k → b = c

/-- What the pointing rule along rows does at the sub-grid `(i1,j1)`, from state
`s` to state `s2`: `notdone` is kept, and an entry of `q` changes only by being
cleared, for a digit `k` confined to row `i` of the sub-grid, at a cell of
row `i` outside the sub-grid. -/
def RowPruned (s : Grid) (i1 j1 : Nat) (s2 : Grid) : Prop :=
  s2.notdone = s.notdone ∧
  ∀ i j k, s2.q i j k = s.q i j k ∨
    (s2.q i j k = 0 ∧ k ∈ digits ∧ j < MAX ∧ (j < j1 ∨ j1 + STEP ≤ j) ∧
      rowConfined s.q i1 j1 k i)

/-- What the pointing rule along columns does at the sub-grid `(i1,j1)`. -/
def ColumnPruned (s : Grid) (i1 j1 : Nat) (s2 : Grid) : Prop :=
  s2.notdone = s.notdone ∧
  ∀ i j k, s2.q i j k = s.q i j k ∨
    (s2.q i j k = 0 ∧ k ∈ digits ∧ i < MAX ∧ (i < i1 ∨ i1 + STEP ≤ i) ∧
      columnConfined s.q i1 j1 k j)

set_option synthInstance.maxSize 2048 in
set_option synthInstance.maxHeartbeats 400000 in
instance instDecidableValidSolution (S : Nat → Nat → Nat) : Decidable (ValidSolution S) := by
  unfold ValidSolution; exact inferInstance

instance instDecidableCompatible (g : Grid) (S : Nat → Nat → Nat) :
    Decidable (Compatible g S) := by
  unfold Compatible; exact inferInstance

/-! ## Concrete grids used as examples -/

/-- The claim "the candidate set of cell `(i,j)` is exactly `{assigned}`". -/
def CandidatesExact (s : Grid) (i j : Nat) : Prop :=
  ∀ k, 1 ≤ k → k ≤ MAX → (s.q i j k ≠ 0 ↔ s.q i j 0 = (k : Int))

/-- The 81 characters of a complete valid grid, row by row. -/
def fullInput : List Int :=
  ("534678912672195348198342567859761423426853791713924856961537284287419635345286179".toList).map
    (fun c => (c.toNat : Int))

/-- The complete grid that `fullInput` spells: the digit of cell `(i,j)` is the
decoding of character `9*i + j`. -/
def fullSolution : Nat → Nat → Nat :=
  fun i j => (char2num (fullInput.getD (MAX * i + j) 0)).toNat

/-- The state after `read_input` has consumed `fullInput`. -/
def fullGrid : Grid := (read_input fullInput initGrid).getD initGrid

/-- The bit mask of a list of cells: bit `MAX*i + j` stands for cell `(i,j)`. -/
def cellMask (cs : List (Nat × Nat)) : Nat :=
  cs.foldl (fun m c => m ||| 1 <<< (MAX * c.1 + c.2)) 0

/-- The grid state in which no cell is assigned, the cells of the mask `m` have
the two candidates 1 and 2, and the other cells have no candidate. -/
def pairGrid (m : Nat) : Grid :=
  { q := fun i j k =>
      if (k = 1 ∨ k = 2) ∧ i < MAX ∧ j < MAX ∧ Nat.testBit m (MAX * i + j) = true then 1 else 0
    notdone := 81 }

/-- Fourteen cells, spread over eight of the nine sub-grids. -/
def prunedCells : List (Nat × Nat) :=
  [(7, 8), (8, 8), (4, 6), (4, 7), (3, 4), (3, 0), (5, 1), (5, 2), (0, 3), (0, 6), (1, 7),
   (7, 0), (7, 2), (8, 1)]

/-- A state in which no cell is assigned and seventeen cells have the
candidates 1 and 2; in the sub-grid at `(6,6)` they are the cells `(7,8)` and
`(8,8)`, both in column 8. -/
def laggingGrid : Grid := pairGrid (cellMask ((5, 8) :: (4, 3) :: (1, 4) :: prunedCells))

/-- The body of the assigning loop of `rule_only_in_one_sq_in_group` for digit
`k`, after the counting loop gave `t`. -/
def sqDigitStep (t : Tally (Nat × Nat)) (s : Grid) (k : Nat) : Grid :=
  if t.count k = 1 then set s (t.pos k).1 (t.pos k).2 k else s

/-! ## Further notions used by the specification -/

/-- From state `s` to state `s2` no candidate flag has come back and no
assigned field was overwritten: a flag that was 0 is still 0, and an assigned
field is as before, or it was 0 and now holds a digit `1..MAX` that was a
candidate of the cell. -/
def Advances (s s2 : Grid) : Prop :=
  (∀ i j k, k ≠ 0 → s.q i j k = 0 → s2.q i j k = 0) ∧
  (∀ i j, s2.q i j 0 = s.q i j 0 ∨
    (s.q i j 0 = 0 ∧ ∃ n : Nat, 1 ≤ n ∧ n ≤ MAX ∧ s2.q i j 0 = (n : Int) ∧ s.q i j n ≠ 0))

/-- The body of the two outer loops of `rule_only_in_one_column_in_group`: the
scan of the sub-grid at `(i1,j1)` followed by the clearing loop over the
digits. -/
def one_column_in_group_block (s : Grid) (i1 j1 : Nat) : Grid :=
  let t := columnGroupTally s.q i1 j1
  digits.foldl (fun s k =>
    if t.count k = 1 then
      let c := (t.pos k).toNat
      let q1 := (List.range i1).foldl (fun q i2 => upd q i2 c k 0) s.q
      let q2 := (List.range' (i1 + STEP) (MAX - (i1 + STEP))).foldl
        (fun q i2 => upd q i2 c k 0) q1
      { q := q2, notdone := s.notdone }
    else s) s

/-- The values `v` of the cells `(i, j, v)` of a scan that are unassigned and
have `k` as a candidate, in scan order. -/
def lineValues (q : Nat → Nat → Nat → Int) (k : Nat) (cs : List (Nat × Nat × Nat)) : List Nat :=
  (cs.filter (fun c => decide (candidateAt q c.1 c.2.1 k))).map (fun c => c.2.2)

/-- Number of distinct columns of the sub-grid at `(i1,j1)` that contain an
unassigned cell with candidate `k`. -/
def distinctColumns (q : Nat → Nat → Nat → Int) (i1 j1 k : Nat) : Nat :=
  (lineValues q k (blockCells i1 j1 (fun _ j => j))).dedup.length

/-- The calls `set(i/MAX, i%MAX, char2num(c))` of `read_input` for the accepted
characters `cs`, the first of them being character number `i`. -/
def seedFrom : List Int → Nat → Grid → Grid
  | [], _, s => s
  | c :: cs, i, s => seedFrom cs (i + 1) (set s (i / MAX) (i % MAX) (char2num c).toNat)

/-- The state after seeding the initial grid with `set(r, c, G r c)` for the
first `m` cells in row-major order. -/
def seedGrid (G : Nat → Nat → Nat) (m : Nat) : Grid :=
  (List.range m).foldl (fun s c => set s (c / MAX) (c % MAX) (G (c / MAX) (c % MAX))) initGrid

/-- The number of executions of the body of the main loop, with the bound
`fuel` of `solveLoop`. -/
def solveIterations : Nat → Grid → Option Nat
  | 0, _ => none
  | fuel + 1, s =>
    if s.notdone ≠ 0 then
      let p := s.notdone
      let s1 := apply_rules s
      if p = s1.notdone then some 1
      else (solveIterations fuel s1).map (fun n => n + 1)
    else some 0

/-- The bit mask of a list of candidate flags `(i, j, k)`: bit
`10 * (MAX*i + j) + k` stands for `q[i][j][k]`. -/
def flagMask (fs : List (Nat × Nat × Nat)) : Nat :=
  fs.foldl (fun m f => m ||| 1 <<< (10 * (MAX * f.1 + f.2.1) + f.2.2)) 0

/-- The code of a list of assignments `(i, j, n)`: the four bits from
`4 * (MAX*i + j)` hold the digit of cell `(i,j)`. -/
def fieldCode (fs : List (Nat × Nat × Nat)) : Nat :=
  fs.foldl (fun m f => m ||| f.2.2 <<< (4 * (MAX * f.1 + f.2.1))) 0

/-- The grid state with the assigned digits of the code `a`, the candidate
flags of the mask `c`, set to 1, and `notdone = nd`. -/
def flatGrid (a c : Nat) (nd : Int) : Grid :=
  { q := fun i j k =>
      if i < MAX ∧ j < MAX then
        if k = 0 then (((a >>> (4 * (MAX * i + j))) % 16 : Nat) : Int)
        else if k ≤ MAX ∧ Nat.testBit c (10 * (MAX * i + j) + k) = true then 1 else 0
      else 0
    notdone := nd }

/-- The checks that identify the state `r`, reached from `flatGrid a c nd`, as
`flatGrid a2 c2 nd2`: `r` has that `notdone`, the flags of `c2` are flags of
`c`, `r` agrees with `flatGrid a2 c2 nd2` on the flags of `c` and on the
assigned field of the unassigned cells that have a flag in `c`, and the other
assigned fields are the same in the two codes. -/
def FlatStep (r : Grid) (a c : Nat) (nd : Int) (a2 c2 : Nat) (nd2 : Int) : Prop :=
  r.notdone = nd2 ∧ ∀ i < MAX, ∀ j < MAX,
    (∀ k < MAX + 1, 1 ≤ k →
      (Nat.testBit c2 (10 * (MAX * i + j) + k) = true →
        Nat.testBit c (10 * (MAX * i + j) + k) = true) ∧
      (Nat.testBit c (10 * (MAX * i + j) + k) = true →
        r.q i j k = (flatGrid a2 c2 nd2).q i j k)) ∧
    (if (flatGrid a c nd).q i j 0 = 0 ∧
        ∃ k < MAX + 1, 1 ≤ k ∧ Nat.testBit c (10 * (MAX * i + j) + k) = true
      then r.q i j 0 = (flatGrid a2 c2 nd2).q i j 0
      else (flatGrid a2 c2 nd2).q i j 0 = (flatGrid a c nd).q i j 0)

set_option synthInstance.maxSize 2048 in
set_option synthInstance.maxHeartbeats 400000 in
instance instDecidableFlatStep (r : Grid) (a c : Nat) (nd : Int) (a2 c2 : Nat) (nd2 : Int) :
    Decidable (FlatStep r a c nd a2 c2 nd2) := by
  unfold FlatStep; exact inferInstance

/-- The 81 characters of a puzzle with 43 clues, row by row. -/
def stallInput : List Int :=
  (".....654.6..45....954312876.918..65..2856....465.93.878..6.5....49....65576.4...8".toList).map
    (fun c => (c.toNat : Int))

/-- The flag mask of the initial grid: every flag of every cell. -/
def initMask : Nat := 2 ^ 810 - 1

/-- The flags of digit `n` in the cells swept by `set(x,y,n)`, as a flag mask. -/
def sweepMask (x y n : Nat) : Nat :=
  cells.foldl (fun m c =>
    if swept x y c.1 c.2 then m ||| 1 <<< (10 * (MAX * c.1 + c.2) + n) else m) 0

/-- What `set(x,y,n)` does to a field code `a`, a flag mask `c` and `notdone`. -/
def flatSet (st : Nat × Nat × Int) (x y n : Nat) : Nat × Nat × Int :=
  if n ≠ 0 ∧ Nat.testBit st.2.1 (10 * (MAX * x + y) + n) = true ∧
      (st.1 >>> (4 * (MAX * x + y))) % 16 = 0 then
    (st.1 ||| n <<< (4 * (MAX * x + y)),
      (st.2.1 ^^^ (st.2.1 &&& sweepMask x y n)) ||| 1 <<< (10 * (MAX * x + y) + n),
      st.2.2 - 1)
  else st

/-- The field code `a2` and the flag mask `c2` describe `a` and `c` after a
successful `set(x,y,n)`: the field of `(x,y)` is `n`, its flag of `n` is set,
the flag of `n` is cleared in the other swept cells, and nothing else differs. -/
def SetCheck (a c x y n a2 c2 : Nat) : Prop :=
  (∀ i < MAX, ∀ j < MAX,
    (a2 >>> (4 * (MAX * i + j))) % 16
      = if i = x ∧ j = y then n else (a >>> (4 * (MAX * i + j))) % 16) ∧
  (∀ i < MAX, ∀ j < MAX, ∀ k < MAX + 1, 1 ≤ k →
    Nat.testBit c2 (10 * (MAX * i + j) + k)
      = if i = x ∧ j = y ∧ k = n then true
        else if k = n ∧ swept x y i j then false
        else Nat.testBit c (10 * (MAX * i + j) + k))

set_option synthInstance.maxSize 2048 in
set_option synthInstance.maxHeartbeats 400000 in
instance instDecidableSetCheck (a c x y n a2 c2 : Nat) : Decidable (SetCheck a c x y n a2 c2) := by
  unfold SetCheck; exact inferInstance

/-- The grid state of a triple of codes. -/
def flatOf (st : Nat × Nat × Int) : Grid := flatGrid st.1 st.2.1 st.2.2

/-- The codes after the seeding calls of `seedFrom cs i`, started from the
codes `st`. -/
def flatSeedFrom : List Int → Nat → Nat × Nat × Int → Nat × Nat × Int
  | [], _, st => st
  | c :: cs, i, st => flatSeedFrom cs (i + 1) (flatSet st (i / MAX) (i % MAX) (char2num c).toNat)

/-- Every character of `cs` is a blank or a digit whose `set` call, at its turn
in `seedFrom cs i`, finds its guard true and is described by `flatSet`. -/
def seedChecks : List Int → Nat → Nat × Nat × Int → Bool
  | [], _, _ => true
  | c :: cs, i, st =>
    (decide ((char2num c).toNat = 0) ||
      decide ((char2num c).toNat ≤ MAX ∧
        Nat.testBit st.2.1 (10 * (MAX * (i / MAX) + i % MAX) + (char2num c).toNat) = true ∧
        (st.1 >>> (4 * (MAX * (i / MAX) + i % MAX))) % 16 = 0 ∧
        SetCheck st.1 st.2.1 (i / MAX) (i % MAX) (char2num c).toNat
          (flatSet st (i / MAX) (i % MAX) (char2num c).toNat).1
          (flatSet st (i / MAX) (i % MAX) (char2num c).toNat).2.1)) &&
    seedChecks cs (i + 1) (flatSet st (i / MAX) (i % MAX) (char2num c).toNat)

/-- The flag mask `c` without the flags of the list `fs`. -/
def dropFlags (c : Nat) (fs : List (Nat × Nat × Nat)) : Nat :=
  c ^^^ (c &&& flagMask fs)

/-- The codes of the state that `read_input` builds from `stallInput`. -/
def stallCodes : Nat × Nat × Int := flatSeedFrom stallInput 0 (0, initMask, 81)

/-- The state that `read_input` builds from `stallInput`. -/
def stallGrid : Grid := flatOf stallCodes

/-- The flags that the row pointing pass clears on `stallGrid`. -/
def stallRow1 : List (Nat × Nat × Nat) :=
  [(6, 3, 9), (6, 5, 9), (8, 6, 9), (8, 7, 9), (8, 8, 9)]

/-- The flags that the column pointing pass clears next. -/
def stallColumn1 : List (Nat × Nat × Nat) :=
  [(0, 0, 3), (0, 0, 7), (1, 0, 3), (1, 0, 7), (6, 0, 3), (7, 0, 3), (8, 0, 3)]

/-- The flags that the row pointing pass of a second round clears. -/
def stallRow2 : List (Nat × Nat × Nat) :=
  [(6, 4, 3), (6, 6, 3), (6, 7, 3), (6, 8, 3), (7, 1, 3), (7, 2, 3), (7, 6, 3), (7, 7, 3),
   (7, 8, 3), (8, 1, 3), (8, 2, 3), (8, 4, 3)]

/-- The flags that the column pointing pass of a second round clears. -/
def stallColumn2 : List (Nat × Nat × Nat) :=
  [(3, 2, 7), (4, 2, 7)]

/-- The flags cleared by the pointing passes of two rounds on `stallGrid`. -/
def stallPointed : List (Nat × Nat × Nat) :=
  stallRow1 ++ stallColumn1 ++ stallRow2 ++ stallColumn2

/-- The flags cleared by the `set` calls of a second round on `stallGrid`. -/
def stallSwept : List (Nat × Nat × Nat) :=
  [(0, 5, 8), (1, 5, 8), (7, 4, 8), (0, 1, 8), (1, 4, 8)]

/-- The state `stallGrid` with the further assignments `as`, without the flags
of the list `fs`, and with `notdone = nd`. -/
def stallWith (as fs : List (Nat × Nat × Nat)) (nd : Int) : Grid :=
  flatGrid (stallCodes.1 ||| fieldCode as) (dropFlags stallCodes.2.1 fs) nd

/-- The state after one `apply_rules` pass on `stallGrid`: no cell more is
assigned. -/
def stallGrid1 : Grid := stallWith [] (stallRow1 ++ stallColumn1) 38

/-- The state after two `apply_rules` passes on `stallGrid`: the cells `(7,4)`,
`(7,5)` and `(0,4)` are assigned 3, 8 and 8. -/
def stallGrid2 : Grid :=
  stallWith [(7, 4, 3), (7, 5, 8), (0, 4, 8)] (stallPointed ++ stallSwept) 35

/-! ## Basic facts -/

set_option linter.unusedVariables false

theorem MAX_eq : MAX = 9 := rfl
theorem STEP_eq : STEP = 3 := rfl

theorem mem_indices {i : Nat} : i ∈ indices ↔ i < 9 := by
  simp [indices, MAX_eq]

theorem mem_digits {k : Nat} : k ∈ digits ↔ 1 ≤ k ∧ k ≤ 9 := by
  simp only [digits, MAX_eq, List.mem_range'_1]
  omega

theorem mem_offsets {i : Nat} : i ∈ offsets ↔ i < 3 := by
  simp [offsets, STEP_eq]

theorem mem_blockStarts {i : Nat} : i ∈ blockStarts ↔ i = 0 ∨ i = 3 ∨ i = 6 := by
  simp [blockStarts, STEP_eq, List.range, List.range.loop]

/-- Invariant rule for a left fold. -/
theorem foldl_preserves {α β : Type} (P : β → Prop) (f : β → α → β) (l : List α) (b : β)
    (hb : P b) (hf : ∀ b a, a ∈ l → P b → P (f b a)) : P (l.foldl f b) := by
  induction l generalizing b with
  | nil => exact hb
  | cons a l ih =>
    simp only [List.foldl_cons]
    apply ih
    · exact hf b a (List.mem_cons_self a l) hb
    · intro b' a' ha' hb'
      exact hf b' a' (List.mem_cons_of_mem a ha') hb'

theorem upd_apply (q : Nat → Nat → Nat → Int) (x y n : Nat) (v : Int) (i j k : Nat) :
    upd q x y n v i j k = if i = x ∧ j = y ∧ k = n then v else q i j k := rfl

/-- The row/column loop of `set`. -/
theorem foldl_line_apply (l : List Nat) (q : Nat → Nat → Nat → Int) (x y n i j k : Nat) :
    (l.foldl (fun q a => upd (upd q x a n 0) a y n 0) q) i j k
      = if k = n ∧ ((i = x ∧ j ∈ l) ∨ (j = y ∧ i ∈ l)) then 0 else q i j k := by
  induction l generalizing q with
  | nil => simp
  | cons a l ih =>
    simp only [List.foldl_cons, ih, upd_apply, List.mem_cons]
    split_ifs <;> first | rfl | (exfalso; tauto)

/-- The sub-grid loops of `set`. -/
theorem foldl_block_apply (l1 l2 : List Nat) (q : Nat → Nat → Nat → Int) (n i j k : Nat) :
    (l1.foldl (fun q a => l2.foldl (fun q b => upd q a b n 0) q) q) i j k
      = if k = n ∧ i ∈ l1 ∧ j ∈ l2 then 0 else q i j k := by
  have inner : ∀ (l2 : List Nat) (q : Nat → Nat → Nat → Int) (a : Nat),
      (l2.foldl (fun q b => upd q a b n 0) q) i j k
        = if k = n ∧ i = a ∧ j ∈ l2 then 0 else q i j k := by
    intro l2
    induction l2 with
    | nil => intro q a; simp
    | cons b l2 ih =>
      intro q a
      simp only [List.foldl_cons, ih, upd_apply, List.mem_cons]
      by_cases hk : k = n <;> by_cases hi : i = a <;> by_cases hj : j = b <;>
        by_cases hl : j ∈ l2 <;> simp [hk, hi, hj, hl]
  induction l1 generalizing q with
  | nil => simp
  | cons a l1 ih =>
    simp only [List.foldl_cons, ih, inner, List.mem_cons]
    by_cases hk : k = n <;> by_cases hi : i = a <;> by_cases hj : j ∈ l2 <;>
      by_cases hl : i ∈ l1 <;> simp [hk, hi, hj, hl]

theorem set_of_not_guard (s : Grid) (x y n : Nat) (h : ¬ (s.q x y n ≠ 0 ∧ s.q x y 0 = 0)) :
    set s x y n = s := by
  unfold set; rw [if_neg h]

theorem guard_ne_zero (s : Grid) (x y n : Nat) (h : s.q x y n ≠ 0 ∧ s.q x y 0 = 0) : n ≠ 0 := by
  rintro rfl; exact h.1 h.2

theorem set_notdone_of_guard (s : Grid) (x y n : Nat) (h : s.q x y n ≠ 0 ∧ s.q x y 0 = 0) :
    (set s x y n).notdone = s.notdone - 1 := by
  unfold set; rw [if_pos h]

theorem set_q_of_guard (s : Grid) (x y n : Nat) (h : s.q x y n ≠ 0 ∧ s.q x y 0 = 0)
    (i j k : Nat) :
    (set s x y n).q i j k =
      if i = x ∧ j = y ∧ k = 0 then (n : Int)
      else if i = x ∧ j = y ∧ k = n then 1
      else if k = n ∧ swept x y i j then 0
      else s.q i j k := by
  unfold set; rw [if_pos h]
  simp only [upd_apply, foldl_block_apply, foldl_line_apply, mem_indices, List.mem_range'_1,
    swept, inBlock, MAX_eq, STEP_eq]
  split_ifs <;> first | rfl | (exfalso; omega)

/-! ## Digit codec -/

theorem glyphIndex_none (gs : List Char) (c : Int) (h : c ∉ glyphCodes gs) :
    glyphIndex gs c = none := by
  unfold glyphIndex
  have hlen : (glyphCodes gs).indexOf c = (glyphCodes gs).length := List.indexOf_of_not_mem h
  rw [hlen]
  simp [glyphCodes]

theorem decodeDigit_outside (c : Int) (h : c < 49 ∨ 122 < c) : decodeDigit c = 0 := by
  have h1 : glyphIndex digitGlyphs c = none := by
    apply glyphIndex_none; simp [glyphCodes, digitGlyphs]; omega
  have h2 : glyphIndex upperGlyphs c = none := by
    apply glyphIndex_none; simp [glyphCodes, upperGlyphs]; omega
  have h3 : glyphIndex lowerGlyphs c = none := by
    apply glyphIndex_none; simp [glyphCodes, lowerGlyphs]; omega
  simp [decodeDigit, h1, h2, h3]

theorem char2num_eq_decode (c : Int) :
    char2num c = if decodeDigit c ≤ (MAX : Int) then decodeDigit c else 0 := by
  by_cases hout : c < 49 ∨ 122 < c
  · have ha : ¬ (49 ≤ c ∧ c ≤ 57) := by omega
    have hb : ¬ (65 ≤ c ∧ c ≤ 90) := by omega
    have hc : ¬ (97 ≤ c ∧ c ≤ 122) := by omega
    simp [char2num, decodeDigit_outside c hout, ha, hb, hc]
  · have h49 : 49 ≤ c := by omega
    have h122 : c ≤ 122 := by omega
    interval_cases c <;> decide

theorem char2num_range (c : Int) : 0 ≤ char2num c ∧ char2num c ≤ (MAX : Int) := by
  simp only [char2num, MAX_eq, gt_iff_lt]
  split_ifs <;> constructor <;> omega

/-- The decoding of the specification, value by value: the digits, the two
cases of each letter, and every other character. -/
theorem decodeDigit_table :
    (∀ m : Nat, m < 9 → decodeDigit (49 + (m : Int)) = 1 + (m : Int)) ∧
    (∀ m : Nat, m < 26 → decodeDigit (65 + (m : Int)) = 10 + (m : Int) ∧
      decodeDigit (97 + (m : Int)) = 10 + (m : Int)) ∧
    (∀ c : Int, ¬ (49 ≤ c ∧ c ≤ 57) → ¬ (65 ≤ c ∧ c ≤ 90) → ¬ (97 ≤ c ∧ c ≤ 122) →
      decodeDigit c = 0) := by
  refine ⟨?_, ?_, ?_⟩
  · intro m hm
    interval_cases m <;> decide
  · intro m hm
    interval_cases m <;> decide
  · intro c h1 h2 h3
    by_cases hout : c < 49 ∨ 122 < c
    · exact decodeDigit_outside c hout
    · have h49 : 49 ≤ c := by omega
      have h122 : c ≤ 122 := by omega
      revert h1 h2 h3
      interval_cases c <;> decide

/-- Claim C9. Codec round trip: for every digit `n` with `1 ≤ n ≤ MAX`,
decoding the character that `num2char` prints for `n` gives `n` back. -/
theorem char2num_num2char (n : Int) (h1 : 1 ≤ n) (h9 : n ≤ (MAX : Int)) :
    char2num (num2char n) = n := by
  simp only [MAX_eq] at h9
  have h9' : n ≤ 9 := by exact_mod_cast h9
  have hw : wrapChar (48 + n) = 48 + n := by
    unfold wrapChar; omega
  have hn : ¬ n > 9 := by omega
  simp only [num2char, hn, if_false, hw, char2num, MAX_eq]
  have hr : (49 : Int) ≤ 48 + n ∧ 48 + n ≤ 57 := by omega
  simp only [hr, and_self, if_true]
  split_ifs with h
  · push_cast at h; omega
  · omega

/-- Witness for `char2num_num2char` at the digit 7. -/
theorem char2num_num2char_witness :
    (1 : Int) ≤ 7 ∧ (7 : Int) ≤ (MAX : Int) ∧ char2num (num2char 7) = 7 :=
  ⟨by decide, by decide, char2num_num2char 7 (by decide) (by decide)⟩

/-- Claim C10. Decoding definition and clamp: `char2num c` is the decoding
`decodeDigit c` of the specification when that is at most `MAX` and 0 otherwise
(where `'.'`, `' '` and `'0'` decode to 0), so the result lies in `[0, MAX]`. -/
theorem char2num_decode_clamp (c : Int) :
    char2num c = (if decodeDigit c ≤ (MAX : Int) then decodeDigit c else 0) ∧
    (0 ≤ char2num c ∧ char2num c ≤ (MAX : Int)) ∧
    (decodeDigit 46 = 0 ∧ decodeDigit 32 = 0 ∧ decodeDigit 48 = 0) :=
  ⟨char2num_eq_decode c, char2num_range c, by decide, by decide, by decide⟩

/-! ## The assignment primitive -/

theorem set_notdone_le (s : Grid) (x y n : Nat) : (set s x y n).notdone ≤ s.notdone := by
  by_cases h : s.q x y n ≠ 0 ∧ s.q x y 0 = 0
  · rw [set_notdone_of_guard s x y n h]; omega
  · rw [set_of_not_guard s x y n h]

/-- Claim C5. Postcondition of a successful assign: when `n` in `1..MAX` is a
candidate of the unassigned in-range cell `(x,y)`, after `set(x,y,n)` the digit
`n` is a candidate of no other cell of row `x`, of column `y` or of the
sub-grid of `(x,y)`, the cell holds `n` with `n` still flagged, and `notdone`
has dropped by exactly one. -/
theorem set_postcondition (s : Grid) (x y n : Nat) (hx : x < MAX) (hy : y < MAX)
    (hn1 : 1 ≤ n) (hn9 : n ≤ MAX) (hc : s.q x y n ≠ 0) (hu : s.q x y 0 = 0) :
    (∀ j, j < MAX → j ≠ y → (set s x y n).q x j n = 0) ∧
    (∀ i, i < MAX → i ≠ x → (set s x y n).q i y n = 0) ∧
    (∀ i j, inBlock x y i j → (i ≠ x ∨ j ≠ y) → (set s x y n).q i j n = 0) ∧
    (set s x y n).q x y 0 = (n : Int) ∧
    (set s x y n).q x y n ≠ 0 ∧
    (set s x y n).notdone = s.notdone - 1 := by
  have hg : s.q x y n ≠ 0 ∧ s.q x y 0 = 0 := ⟨hc, hu⟩
  have hn0 : n ≠ 0 := by omega
  refine ⟨?_, ?_, ?_, ?_, ?_, set_notdone_of_guard s x y n hg⟩
  · intro j hj hjy
    rw [set_q_of_guard s x y n hg]
    have hs : swept x y x j := Or.inl ⟨rfl, hj⟩
    simp [hn0, hjy, hs]
  · intro i hi hix
    rw [set_q_of_guard s x y n hg]
    have hs : swept x y i y := Or.inr (Or.inl ⟨rfl, hi⟩)
    simp [hn0, hix, hs]
  · intro i j hb hne
    rw [set_q_of_guard s x y n hg]
    have hs : swept x y i j := Or.inr (Or.inr hb)
    have h1 : ¬ (i = x ∧ j = y) := by tauto
    simp [h1, hs]
  · rw [set_q_of_guard s x y n hg]
    simp
  · rw [set_q_of_guard s x y n hg]
    simp [hn0]

/-- Witness for `set_postcondition`: digit 5 at cell `(0,0)` of the initial
grid. -/
theorem set_postcondition_witness :
    (0 < MAX ∧ 1 ≤ 5 ∧ 5 ≤ MAX ∧ initGrid.q 0 0 5 ≠ 0 ∧ initGrid.q 0 0 0 = 0) ∧
    ((∀ j, j < MAX → j ≠ 0 → (set initGrid 0 0 5).q 0 j 5 = 0) ∧
    (∀ i, i < MAX → i ≠ 0 → (set initGrid 0 0 5).q i 0 5 = 0) ∧
    (∀ i j, inBlock 0 0 i j → (i ≠ 0 ∨ j ≠ 0) → (set initGrid 0 0 5).q i j 5 = 0) ∧
    (set initGrid 0 0 5).q 0 0 0 = ((5 : Nat) : Int) ∧
    (set initGrid 0 0 5).q 0 0 5 ≠ 0 ∧
    (set initGrid 0 0 5).notdone = initGrid.notdone - 1) :=
  ⟨by decide, set_postcondition initGrid 0 0 5 (by decide) (by decide) (by decide) (by decide)
    (by decide) (by decide)⟩

/-- Claim C6. Guarded no-op of assign: for every grid state and every `(x,y,n)`
(in particular in-range `(x,y)` and `n` in `0..MAX`), when `n` is not a
candidate of the cell, or the cell is already assigned, or `n = 0`,
`set(x,y,n)` returns the state unchanged (every `q` entry and `notdone`); and
calling `set(x,y,n)` twice in a row gives the same state as calling it once. -/
theorem set_guarded_noop (s : Grid) (x y n : Nat) :
    ((s.q x y n = 0 ∨ s.q x y 0 ≠ 0 ∨ n = 0) → set s x y n = s) ∧
    set (set s x y n) x y n = set s x y n := by
  constructor
  · intro h
    apply set_of_not_guard
    rintro ⟨h1, h2⟩
    rcases h with h | h | h
    · exact h1 h
    · exact h h2
    · subst h; exact h1 h2
  · by_cases hg : s.q x y n ≠ 0 ∧ s.q x y 0 = 0
    · apply set_of_not_guard
      rintro ⟨_, h2⟩
      rw [set_q_of_guard s x y n hg] at h2
      have hn0 := guard_ne_zero s x y n hg
      simp at h2
      exact hn0 h2
    · rw [set_of_not_guard s x y n hg, set_of_not_guard s x y n hg]

/-! ## The assigning rule passes are sequences of in-range `set` calls -/

theorem updA_apply {α : Type} (a : Nat → α) (k : Nat) (v : α) (k2 : Nat) :
    updA a k v k2 = if k2 = k then v else a k2 := rfl

theorem tallyCell_pos {α : Type} (R : α → Prop) (q : Nat → Nat → Nat → Int) (i j : Nat)
    (v : α) (t : Tally α) (hv : R v) (ht : ∀ k, R (t.pos k)) :
    ∀ k, R ((tallyCell q i j v t).pos k) := by
  unfold tallyCell
  apply foldl_preserves (fun t : Tally α => ∀ k, R (t.pos k))
  · exact ht
  · intro t k _ h k2
    split_ifs
    · simp only [updA_apply]
      split_ifs
      · exact hv
      · exact h k2
    · exact h k2

theorem rowTally_pos_lt (q : Nat → Nat → Nat → Int) (i k : Nat) :
    (rowTally q i).pos k < MAX := by
  unfold rowTally
  revert k
  apply foldl_preserves (fun t : Tally Nat => ∀ k, t.pos k < MAX)
  · intro k; show 0 < MAX; decide
  · intro t j hj h
    split_ifs
    · exact tallyCell_pos (fun v => v < MAX) q i j j t (by rw [MAX_eq]; exact mem_indices.1 hj) h
    · exact h

theorem columnTally_pos_lt (q : Nat → Nat → Nat → Int) (j k : Nat) :
    (columnTally q j).pos k < MAX := by
  unfold columnTally
  revert k
  apply foldl_preserves (fun t : Tally Nat => ∀ k, t.pos k < MAX)
  · intro k; show 0 < MAX; decide
  · intro t i hi h
    split_ifs
    · exact tallyCell_pos (fun v => v < MAX) q i j i t (by rw [MAX_eq]; exact mem_indices.1 hi) h
    · exact h

theorem sqTally_pos_lt (q : Nat → Nat → Nat → Int) (i1 j1 k : Nat)
    (hi : i1 ∈ blockStarts) (hj : j1 ∈ blockStarts) :
    ((sqTally q i1 j1).pos k).1 < MAX ∧ ((sqTally q i1 j1).pos k).2 < MAX := by
  unfold sqTally
  revert k
  apply foldl_preserves (fun t : Tally (Nat × Nat) => ∀ k, (t.pos k).1 < MAX ∧ (t.pos k).2 < MAX)
  · intro k; show 0 < MAX ∧ 0 < MAX; decide
  · intro t i2 hi2 h
    apply foldl_preserves (fun t : Tally (Nat × Nat) => ∀ k, (t.pos k).1 < MAX ∧ (t.pos k).2 < MAX)
    · exact h
    · intro t j2 hj2 h
      simp only
      split_ifs
      · apply tallyCell_pos (fun v : Nat × Nat => v.1 < MAX ∧ v.2 < MAX) _ _ _ _ _ _ h
        have h1 := mem_blockStarts.1 hi
        have h2 := mem_blockStarts.1 hj
        have h3 := mem_offsets.1 hi2
        have h4 := mem_offsets.1 hj2
        simp only [MAX_eq]
        omega
      · exact h

theorem countCell_snd_le (q : Nat → Nat → Nat → Int) (i j : Nat) :
    (countCell q i j).2 ≤ MAX := by
  unfold countCell
  apply foldl_preserves (fun cn : Nat × Nat => cn.2 ≤ MAX)
  · decide
  · intro cn k hk h
    split_ifs
    · simp only [MAX_eq]; exact (mem_digits.1 hk).2
    · exact h

theorem digit_in_cell_closed (P : Grid → Prop) (hP : SetClosed P) (s : Grid) (h : P s) :
    P (rule_only_digit_in_cell s) := by
  unfold rule_only_digit_in_cell
  apply foldl_preserves P _ _ _ h
  intro s i hi h
  apply foldl_preserves P _ _ _ h
  intro s j hj h
  simp only
  split_ifs
  · exact hP s i j _ (by rw [MAX_eq]; exact mem_indices.1 hi)
      (by rw [MAX_eq]; exact mem_indices.1 hj) (countCell_snd_le _ _ _) h
  · exact h
  · exact h

theorem place_in_row_closed (P : Grid → Prop) (hP : SetClosed P) (s : Grid) (h : P s) :
    P (rule_only_place_in_row s) := by
  unfold rule_only_place_in_row
  apply foldl_preserves P _ _ _ h
  intro s i hi h
  simp only
  apply foldl_preserves P _ _ _ h
  intro s2 k hk h2
  split_ifs
  · exact hP s2 i _ k (by rw [MAX_eq]; exact mem_indices.1 hi) (rowTally_pos_lt _ _ _)
      (by rw [MAX_eq]; exact (mem_digits.1 hk).2) h2
  · exact h2

theorem place_in_column_closed (P : Grid → Prop) (hP : SetClosed P) (s : Grid) (h : P s) :
    P (rule_only_place_in_column s) := by
  unfold rule_only_place_in_column
  apply foldl_preserves P _ _ _ h
  intro s j hj h
  simp only
  apply foldl_preserves P _ _ _ h
  intro s2 k hk h2
  split_ifs
  · exact hP s2 _ j k (columnTally_pos_lt _ _ _) (by rw [MAX_eq]; exact mem_indices.1 hj)
      (by rw [MAX_eq]; exact (mem_digits.1 hk).2) h2
  · exact h2

theorem one_sq_in_group_closed (P : Grid → Prop) (hP : SetClosed P) (s : Grid) (h : P s) :
    P (rule_only_in_one_sq_in_group s) := by
  unfold rule_only_in_one_sq_in_group
  apply foldl_preserves P _ _ _ h
  intro s i1 hi1 h
  apply foldl_preserves P _ _ _ h
  intro s j1 hj1 h
  simp only
  apply foldl_preserves P _ _ _ h
  intro s2 k hk h2
  split_ifs
  · exact hP s2 _ _ k (sqTally_pos_lt _ _ _ _ hi1 hj1).1 (sqTally_pos_lt _ _ _ _ hi1 hj1).2
      (by rw [MAX_eq]; exact (mem_digits.1 hk).2) h2
  · exact h2

/-! ## The counting loops, digit by digit -/

theorem digits_nodup : digits.Nodup := by
  unfold digits; exact List.nodup_range' 1 MAX

theorem tallyCell_fold {α : Type} (q : Nat → Nat → Nat → Int) (i j : Nat) (v : α)
    (ks : List Nat) (hnd : ks.Nodup) (t : Tally α) (k : Nat) :
    ((ks.foldl (fun t k =>
        if q i j k ≠ 0 then { count := updA t.count k (t.count k + 1), pos := updA t.pos k v }
        else t) t).count k = if k ∈ ks ∧ q i j k ≠ 0 then t.count k + 1 else t.count k) ∧
    ((ks.foldl (fun t k =>
        if q i j k ≠ 0 then { count := updA t.count k (t.count k + 1), pos := updA t.pos k v }
        else t) t).pos k = if k ∈ ks ∧ q i j k ≠ 0 then v else t.pos k) := by
  induction ks generalizing t with
  | nil => simp
  | cons k0 ks ih =>
    have hnd2 := (List.nodup_cons.1 hnd)
    simp only [List.foldl_cons, List.mem_cons]
    have h := ih hnd2.2 (if q i j k0 ≠ 0 then
      { count := updA t.count k0 (t.count k0 + 1), pos := updA t.pos k0 v } else t)
    rw [h.1, h.2]
    by_cases hk : k = k0
    · subst hk
      have hn : k ∉ ks := hnd2.1
      by_cases hq : q i j k ≠ 0
      · simp [hn, hq, updA_apply]
      · simp [hn, hq]
    · by_cases hq0 : q i j k0 ≠ 0
      · simp [hk, hq0, updA_apply]
      · simp [hk, hq0]

theorem tallyCell_count {α : Type} (q : Nat → Nat → Nat → Int) (i j : Nat) (v : α)
    (t : Tally α) (k : Nat) :
    (tallyCell q i j v t).count k = if k ∈ digits ∧ q i j k ≠ 0 then t.count k + 1 else t.count k :=
  (tallyCell_fold q i j v digits digits_nodup t k).1

theorem tallyCell_pos_eq {α : Type} (q : Nat → Nat → Nat → Int) (i j : Nat) (v : α)
    (t : Tally α) (k : Nat) :
    (tallyCell q i j v t).pos k = if k ∈ digits ∧ q i j k ≠ 0 then v else t.pos k :=
  (tallyCell_fold q i j v digits digits_nodup t k).2

theorem tallyLine_fold (q : Nat → Nat → Nat → Int) (i j v : Nat)
    (ks : List Nat) (hnd : ks.Nodup) (t : Tally Int) (k : Nat) :
    ((ks.foldl (fun t k =>
        if q i j k ≠ 0 ∧ t.pos k ≠ (v : Int) then
          { count := updA t.count k (t.count k + 1), pos := updA t.pos k (v : Int) }
        else t) t).count k
      = if k ∈ ks ∧ q i j k ≠ 0 ∧ t.pos k ≠ (v : Int) then t.count k + 1 else t.count k) ∧
    ((ks.foldl (fun t k =>
        if q i j k ≠ 0 ∧ t.pos k ≠ (v : Int) then
          { count := updA t.count k (t.count k + 1), pos := updA t.pos k (v : Int) }
        else t) t).pos k
      = if k ∈ ks ∧ q i j k ≠ 0 ∧ t.pos k ≠ (v : Int) then (v : Int) else t.pos k) := by
  induction ks generalizing t with
  | nil => simp
  | cons k0 ks ih =>
    have hnd2 := (List.nodup_cons.1 hnd)
    simp only [List.foldl_cons, List.mem_cons]
    have h := ih hnd2.2 (if q i j k0 ≠ 0 ∧ t.pos k0 ≠ (v : Int) then
      { count := updA t.count k0 (t.count k0 + 1), pos := updA t.pos k0 (v : Int) } else t)
    rw [h.1, h.2]
    by_cases hk : k = k0
    · subst hk
      have hn : k ∉ ks := hnd2.1
      by_cases hq : q i j k ≠ 0 ∧ t.pos k ≠ (v : Int)
      · simp [hn, hq, updA_apply]
      · rw [if_neg hq]
        have e1 : ¬ (k ∈ ks ∧ q i j k ≠ 0 ∧ t.pos k ≠ (v : Int)) := fun h => hn h.1
        have e2 : ¬ ((True ∨ k ∈ ks) ∧ q i j k ≠ 0 ∧ t.pos k ≠ (v : Int)) := fun h => hq h.2
        simp only [if_neg e1, if_neg e2, and_self]
    · by_cases hq0 : q i j k0 ≠ 0 ∧ t.pos k0 ≠ (v : Int)
      · rw [if_pos hq0]
        simp [hk, updA_apply]
      · rw [if_neg hq0]
        simp [hk]

theorem tallyLine_count (q : Nat → Nat → Nat → Int) (i j v : Nat) (t : Tally Int) (k : Nat) :
    (tallyLine q i j v t).count k
      = if k ∈ digits ∧ q i j k ≠ 0 ∧ t.pos k ≠ (v : Int) then t.count k + 1 else t.count k :=
  (tallyLine_fold q i j v digits digits_nodup t k).1

theorem tallyLine_pos (q : Nat → Nat → Nat → Int) (i j v : Nat) (t : Tally Int) (k : Nat) :
    (tallyLine q i j v t).pos k
      = if k ∈ digits ∧ q i j k ≠ 0 ∧ t.pos k ≠ (v : Int) then (v : Int) else t.pos k :=
  (tallyLine_fold q i j v digits digits_nodup t k).2

/-! ## The scans of the rule passes -/

theorem rowTally_eq_scan (q : Nat → Nat → Nat → Int) (i : Nat) :
    rowTally q i = hiddenScan q (indices.map (fun j => (i, j, j)))
      { count := fun _ => 0, pos := fun _ => 0 } := by
  unfold rowTally hiddenScan
  rw [List.foldl_map]

theorem columnTally_eq_scan (q : Nat → Nat → Nat → Int) (j : Nat) :
    columnTally q j = hiddenScan q (indices.map (fun i => (i, j, i)))
      { count := fun _ => 0, pos := fun _ => 0 } := by
  unfold columnTally hiddenScan
  rw [List.foldl_map]

theorem sqTally_eq_scan (q : Nat → Nat → Nat → Int) (i1 j1 : Nat) :
    sqTally q i1 j1 = hiddenScan q (blockCells i1 j1 (fun i j => (i, j)))
      { count := fun _ => 0, pos := fun _ => (0, 0) } := by
  rfl

theorem rowGroupTally_eq_scan (q : Nat → Nat → Nat → Int) (i1 j1 : Nat) :
    rowGroupTally q i1 j1 = lineScan q (blockCells i1 j1 (fun i _ => i))
      { count := fun _ => 0, pos := fun _ => -1 } := by
  rfl

theorem columnGroupTally_eq_scan (q : Nat → Nat → Nat → Int) (i1 j1 : Nat) :
    columnGroupTally q i1 j1 = lineScan q (blockCells i1 j1 (fun _ j => j))
      { count := fun _ => 0, pos := fun _ => -1 } := by
  rfl

theorem mem_blockCells {α : Type} (i1 j1 : Nat) (f : Nat → Nat → α) (c : Nat × Nat × α) :
    c ∈ blockCells i1 j1 f ↔
      (i1 ≤ c.1 ∧ c.1 < i1 + 3 ∧ j1 ≤ c.2.1 ∧ c.2.1 < j1 + 3) ∧ c.2.2 = f c.1 c.2.1 := by
  obtain ⟨a, b, v⟩ := c
  simp only [blockCells, List.mem_cons, Prod.mk.injEq, List.mem_singleton, List.not_mem_nil,
    or_false]
  constructor
  · intro h
    rcases h with h | h | h | h | h | h | h | h | h <;>
      (obtain ⟨rfl, rfl, rfl⟩ := h; exact ⟨by omega, rfl⟩)
  · rintro ⟨⟨h1, h2, h3, h4⟩, h5⟩
    subst h5
    have ha : a = i1 + 0 ∨ a = i1 + 1 ∨ a = i1 + 2 := by omega
    have hb : b = j1 + 0 ∨ b = j1 + 1 ∨ b = j1 + 2 := by omega
    rcases ha with rfl | rfl | rfl <;> rcases hb with rfl | rfl | rfl <;> simp

theorem hiddenScan_cons {α : Type} (q : Nat → Nat → Nat → Int) (c : Nat × Nat × α)
    (cs : List (Nat × Nat × α)) (t : Tally α) :
    hiddenScan q (c :: cs) t
      = hiddenScan q cs (if q c.1 c.2.1 0 = 0 then tallyCell q c.1 c.2.1 c.2.2 t else t) := rfl

theorem hiddenStep_count {α : Type} (q : Nat → Nat → Nat → Int) (c : Nat × Nat × α)
    (t : Tally α) (k : Nat) (hk : k ∈ digits) :
    (if q c.1 c.2.1 0 = 0 then tallyCell q c.1 c.2.1 c.2.2 t else t).count k
      = if candidateAt q c.1 c.2.1 k then t.count k + 1 else t.count k := by
  unfold candidateAt
  by_cases h0 : q c.1 c.2.1 0 = 0
  · rw [if_pos h0, tallyCell_count]
    simp [hk, h0]
  · rw [if_neg h0]
    simp [h0]

theorem hiddenStep_pos {α : Type} (q : Nat → Nat → Nat → Int) (c : Nat × Nat × α)
    (t : Tally α) (k : Nat) (hk : k ∈ digits) :
    (if q c.1 c.2.1 0 = 0 then tallyCell q c.1 c.2.1 c.2.2 t else t).pos k
      = if candidateAt q c.1 c.2.1 k then c.2.2 else t.pos k := by
  unfold candidateAt
  by_cases h0 : q c.1 c.2.1 0 = 0
  · rw [if_pos h0, tallyCell_pos_eq]
    simp [hk, h0]
  · rw [if_neg h0]
    simp [h0]

theorem hiddenScan_count {α : Type} (q : Nat → Nat → Nat → Int) (cs : List (Nat × Nat × α))
    (t : Tally α) (k : Nat) (hk : k ∈ digits) :
    (hiddenScan q cs t).count k
      = t.count k + cs.countP (fun c => decide (candidateAt q c.1 c.2.1 k)) := by
  induction cs generalizing t with
  | nil => simp [hiddenScan]
  | cons c cs ih =>
    rw [hiddenScan_cons, ih, hiddenStep_count q c t k hk, List.countP_cons]
    by_cases h : candidateAt q c.1 c.2.1 k
    · simp [h]; omega
    · simp [h]

theorem hiddenScan_pos_of_none {α : Type} (q : Nat → Nat → Nat → Int)
    (cs : List (Nat × Nat × α)) (t : Tally α) (k : Nat) (hk : k ∈ digits)
    (h : ∀ c ∈ cs, ¬ candidateAt q c.1 c.2.1 k) :
    (hiddenScan q cs t).pos k = t.pos k := by
  induction cs generalizing t with
  | nil => rfl
  | cons c cs ih =>
    rw [hiddenScan_cons, ih _ (fun c2 hc2 => h c2 (List.mem_cons_of_mem c hc2)),
      hiddenStep_pos q c t k hk, if_neg (h c (List.mem_cons_self c cs))]

theorem hiddenScan_pos_of_some {α : Type} (q : Nat → Nat → Nat → Int)
    (cs : List (Nat × Nat × α)) (t : Tally α) (k : Nat) (hk : k ∈ digits)
    (h : ∃ c ∈ cs, candidateAt q c.1 c.2.1 k) :
    ∃ c ∈ cs, candidateAt q c.1 c.2.1 k ∧ (hiddenScan q cs t).pos k = c.2.2 := by
  induction cs generalizing t with
  | nil => simp at h
  | cons c cs ih =>
    rw [hiddenScan_cons]
    by_cases hrest : ∃ c2 ∈ cs, candidateAt q c2.1 c2.2.1 k
    · obtain ⟨c2, hc2, hcand, hpos⟩ := ih _ hrest
      exact ⟨c2, List.mem_cons_of_mem c hc2, hcand, hpos⟩
    · have hnone : ∀ c2 ∈ cs, ¬ candidateAt q c2.1 c2.2.1 k := by
        intro c2 hc2 hcand; exact hrest ⟨c2, hc2, hcand⟩
      obtain ⟨c1, hc1, hcand1⟩ := h
      have hc : candidateAt q c.1 c.2.1 k := by
        rcases List.mem_cons.1 hc1 with rfl | hin
        · exact hcand1
        · exact absurd hcand1 (hnone c1 hin)
      refine ⟨c, List.mem_cons_self c cs, hc, ?_⟩
      rw [hiddenScan_pos_of_none q cs _ k hk hnone, hiddenStep_pos q c t k hk, if_pos hc]

/-- When a hidden-single scan started from zero counts digit `k` once, `pos k`
is the value stored for the one cell of the scan that has `k` as a candidate. -/
theorem hiddenScan_one {α : Type} (q : Nat → Nat → Nat → Int) (cs : List (Nat × Nat × α))
    (t : Tally α) (k : Nat) (hk : k ∈ digits) (h0 : t.count k = 0)
    (h1 : (hiddenScan q cs t).count k = 1) :
    ∃ c ∈ cs, candidateAt q c.1 c.2.1 k ∧ (hiddenScan q cs t).pos k = c.2.2 ∧
      ∀ c2 ∈ cs, candidateAt q c2.1 c2.2.1 k → c2 = c := by
  rw [hiddenScan_count q cs t k hk, h0, Nat.zero_add, List.countP_eq_length_filter,
    List.length_eq_one] at h1
  obtain ⟨z, hz⟩ := h1
  have hmem : ∀ c2, (c2 ∈ cs ∧ candidateAt q c2.1 c2.2.1 k) ↔ c2 = z := by
    intro c2
    have hf : c2 ∈ List.filter (fun c => decide (candidateAt q c.1 c.2.1 k)) cs ↔
        c2 ∈ cs ∧ decide (candidateAt q c2.1 c2.2.1 k) = true := List.mem_filter
    rw [hz, List.mem_singleton, decide_eq_true_eq] at hf
    exact hf.symm
  have hzz := (hmem z).2 rfl
  obtain ⟨c, hc, hcand, hpos⟩ := hiddenScan_pos_of_some q cs t k hk ⟨z, hzz.1, hzz.2⟩
  have hcz : c = z := (hmem c).1 ⟨hc, hcand⟩
  subst hcz
  exact ⟨c, hc, hcand, hpos, fun c2 hc2 hcand2 => (hmem c2).1 ⟨hc2, hcand2⟩⟩

theorem lineScan_cons (q : Nat → Nat → Nat → Int) (c : Nat × Nat × Nat)
    (cs : List (Nat × Nat × Nat)) (t : Tally Int) :
    lineScan q (c :: cs) t
      = lineScan q cs (if q c.1 c.2.1 0 = 0 then tallyLine q c.1 c.2.1 c.2.2 t else t) := rfl

theorem lineStep_count (q : Nat → Nat → Nat → Int) (c : Nat × Nat × Nat)
    (t : Tally Int) (k : Nat) (hk : k ∈ digits) :
    (if q c.1 c.2.1 0 = 0 then tallyLine q c.1 c.2.1 c.2.2 t else t).count k
      = if candidateAt q c.1 c.2.1 k ∧ t.pos k ≠ (c.2.2 : Int) then t.count k + 1
        else t.count k := by
  unfold candidateAt
  by_cases h0 : q c.1 c.2.1 0 = 0
  · rw [if_pos h0, tallyLine_count]
    simp [hk, h0]
  · rw [if_neg h0]
    simp [h0]

theorem lineStep_pos (q : Nat → Nat → Nat → Int) (c : Nat × Nat × Nat)
    (t : Tally Int) (k : Nat) (hk : k ∈ digits) :
    (if q c.1 c.2.1 0 = 0 then tallyLine q c.1 c.2.1 c.2.2 t else t).pos k
      = if candidateAt q c.1 c.2.1 k ∧ t.pos k ≠ (c.2.2 : Int) then (c.2.2 : Int)
        else t.pos k := by
  unfold candidateAt
  by_cases h0 : q c.1 c.2.1 0 = 0
  · rw [if_pos h0, tallyLine_pos]
    simp [hk, h0]
  · rw [if_neg h0]
    simp [h0]

theorem lineScan_count_le (q : Nat → Nat → Nat → Int) (cs : List (Nat × Nat × Nat))
    (t : Tally Int) (k : Nat) (hk : k ∈ digits) :
    t.count k ≤ (lineScan q cs t).count k := by
  induction cs generalizing t with
  | nil => exact Nat.le_refl _
  | cons c cs ih =>
    rw [lineScan_cons]
    refine Nat.le_trans ?_ (ih _)
    rw [lineStep_count q c t k hk]
    split_ifs <;> omega

/-- A pointing scan leaves the count of digit `k` where it was exactly when
every candidate cell of the scan lies on the line already recorded. -/
theorem lineScan_count_eq_iff (q : Nat → Nat → Nat → Int) (cs : List (Nat × Nat × Nat))
    (t : Tally Int) (k : Nat) (hk : k ∈ digits) :
    (lineScan q cs t).count k = t.count k ↔
      ∀ c ∈ cs, candidateAt q c.1 c.2.1 k → (c.2.2 : Int) = t.pos k := by
  induction cs generalizing t with
  | nil => simp [lineScan]
  | cons c cs ih =>
    rw [lineScan_cons]
    by_cases hc : candidateAt q c.1 c.2.1 k ∧ t.pos k ≠ (c.2.2 : Int)
    · have hle := lineScan_count_le q cs
        (if q c.1 c.2.1 0 = 0 then tallyLine q c.1 c.2.1 c.2.2 t else t) k hk
      rw [lineStep_count q c t k hk, if_pos hc] at hle
      constructor
      · intro h; omega
      · intro h
        exact absurd (h c (List.mem_cons_self c cs) hc.1).symm hc.2
    · have e1 := lineStep_count q c t k hk
      have e2 := lineStep_pos q c t k hk
      rw [if_neg hc] at e1 e2
      rw [← e1, ih, e2]
      constructor
      · intro h c2 hc2 hcand
        rcases List.mem_cons.1 hc2 with rfl | hin
        · by_contra hne
          exact hc ⟨hcand, fun h2 => hne h2.symm⟩
        · exact h c2 hin hcand
      · intro h c2 hc2 hcand
        exact h c2 (List.mem_cons_of_mem c hc2) hcand

theorem lineScan_pos_of_eq (q : Nat → Nat → Nat → Int) (cs : List (Nat × Nat × Nat))
    (t : Tally Int) (k : Nat) (hk : k ∈ digits)
    (h : ∀ c ∈ cs, candidateAt q c.1 c.2.1 k → (c.2.2 : Int) = t.pos k) :
    (lineScan q cs t).pos k = t.pos k := by
  induction cs generalizing t with
  | nil => rfl
  | cons c cs ih =>
    rw [lineScan_cons]
    have hc : ¬ (candidateAt q c.1 c.2.1 k ∧ t.pos k ≠ (c.2.2 : Int)) := by
      rintro ⟨h1, h2⟩
      exact h2 (h c (List.mem_cons_self c cs) h1).symm
    have e2 := lineStep_pos q c t k hk
    rw [if_neg hc] at e2
    rw [ih, e2]
    intro c2 hc2 hcand
    rw [e2]
    exact h c2 (List.mem_cons_of_mem c hc2) hcand

/-- A pointing scan started from count 0 and the sentinel -1 counts digit `k`
exactly once when and only when some cell of the scan has `k` as a candidate
and all such cells lie on one line, which `pos k` then holds. -/
theorem lineScan_one_iff (q : Nat → Nat → Nat → Int) (cs : List (Nat × Nat × Nat))
    (t : Tally Int) (k : Nat) (hk : k ∈ digits) (h0 : t.count k = 0) (hneg : t.pos k < 0) :
    (lineScan q cs t).count k = 1 ↔
      (∃ c ∈ cs, candidateAt q c.1 c.2.1 k) ∧
      ∀ c ∈ cs, candidateAt q c.1 c.2.1 k → (c.2.2 : Int) = (lineScan q cs t).pos k := by
  induction cs generalizing t with
  | nil => simp [lineScan, h0]
  | cons c cs ih =>
    rw [lineScan_cons]
    have e1 := lineStep_count q c t k hk
    have e2 := lineStep_pos q c t k hk
    by_cases hc : candidateAt q c.1 c.2.1 k
    · have hne : t.pos k ≠ (c.2.2 : Int) := by omega
      have hcn : candidateAt q c.1 c.2.1 k ∧ t.pos k ≠ (c.2.2 : Int) := ⟨hc, hne⟩
      rw [if_pos hcn] at e1 e2
      rw [h0] at e1
      have key := lineScan_count_eq_iff q cs
        (if q c.1 c.2.1 0 = 0 then tallyLine q c.1 c.2.1 c.2.2 t else t) k hk
      rw [e1, e2] at key
      rw [key]
      constructor
      · intro h
        have hp := lineScan_pos_of_eq q cs
          (if q c.1 c.2.1 0 = 0 then tallyLine q c.1 c.2.1 c.2.2 t else t) k hk
          (by rw [e2]; exact h)
        rw [e2] at hp
        refine ⟨⟨c, List.mem_cons_self c cs, hc⟩, ?_⟩
        intro c2 hc2 hcand
        rw [hp]
        rcases List.mem_cons.1 hc2 with rfl | hin
        · rfl
        · exact h c2 hin hcand
      · rintro ⟨_, h⟩ c2 hc2 hcand
        rw [h c2 (List.mem_cons_of_mem c hc2) hcand, h c (List.mem_cons_self c cs) hc]
    · have hc2 : ¬ (candidateAt q c.1 c.2.1 k ∧ t.pos k ≠ (c.2.2 : Int)) := fun h => hc h.1
      rw [if_neg hc2] at e1 e2
      rw [ih _ (by rw [e1]; exact h0) (by rw [e2]; exact hneg)]
      constructor
      · rintro ⟨⟨c3, hc3, hcand3⟩, h⟩
        refine ⟨⟨c3, List.mem_cons_of_mem c hc3, hcand3⟩, ?_⟩
        intro c4 hc4 hcand4
        rcases List.mem_cons.1 hc4 with rfl | hin
        · exact absurd hcand4 hc
        · exact h c4 hin hcand4
      · rintro ⟨⟨c3, hc3, hcand3⟩, h⟩
        refine ⟨?_, fun c4 hc4 hcand4 => h c4 (List.mem_cons_of_mem c hc4) hcand4⟩
        rcases List.mem_cons.1 hc3 with rfl | hin
        · exact absurd hcand3 hc
        · exact ⟨c3, hin, hcand3⟩

/-! ## Invariants of the assignment primitive -/

theorem inBlock_symm (x y i j : Nat) (h : inBlock x y i j) : inBlock i j x y := by
  unfold inBlock at *
  simp only [STEP_eq] at *
  omega

theorem swept_of_peers (x y i j : Nat) (hi : i < MAX) (hj : j < MAX) (h : peers x y i j) :
    swept x y i j := by
  unfold peers at h
  unfold swept
  rcases h.2 with h1 | h1 | h1
  · exact Or.inl ⟨h1, hj⟩
  · exact Or.inr (Or.inl ⟨h1, hi⟩)
  · exact Or.inr (Or.inr h1)

theorem peers_symm (x y i j : Nat) (h : peers x y i j) : peers i j x y := by
  unfold peers at *
  refine ⟨?_, ?_⟩
  · rcases h.1 with h1 | h1
    · exact Or.inl (fun e => h1 e.symm)
    · exact Or.inr (fun e => h1 e.symm)
  · rcases h.2 with h1 | h1 | h1
    · exact Or.inl h1.symm
    · exact Or.inr (Or.inl h1.symm)
    · exact Or.inr (Or.inr (inBlock_symm _ _ _ _ h1))

theorem peers_of_swept (x y i j : Nat) (h : swept x y i j) (hne : i ≠ x ∨ j ≠ y) :
    peers x y i j := by
  unfold swept at h
  unfold peers
  refine ⟨hne, ?_⟩
  rcases h with h1 | h1 | h1
  · exact Or.inl h1.1
  · exact Or.inr (Or.inl h1.1)
  · exact Or.inr (Or.inr h1)

theorem set_q_zero (s : Grid) (x y n : Nat) (i j : Nat) (hne : i ≠ x ∨ j ≠ y) :
    (set s x y n).q i j 0 = s.q i j 0 := by
  by_cases hg : s.q x y n ≠ 0 ∧ s.q x y 0 = 0
  · rw [set_q_of_guard s x y n hg]
    have hn0 := guard_ne_zero s x y n hg
    have h1 : ¬ (i = x ∧ j = y) := by tauto
    have h2 : ¬ (0 = n) := fun e => hn0 e.symm
    simp [h1, h2]
  · rw [set_of_not_guard s x y n hg]

theorem set_exclusive : SetClosed Exclusive := by
  intro s x y n hx hy hn hE
  by_cases hg : s.q x y n ≠ 0 ∧ s.q x y 0 = 0
  swap
  · rw [set_of_not_guard s x y n hg]; exact hE
  have hn0 := guard_ne_zero s x y n hg
  intro i hi j hj hne0
  by_cases hxy : i = x ∧ j = y
  · obtain ⟨rfl, rfl⟩ := hxy
    refine ⟨n, by omega, hn, ?_, ?_, ?_⟩
    · rw [set_q_of_guard s i j n hg]; simp
    · rw [set_q_of_guard s i j n hg]; simp [hn0]
    · intro i2 hi2 j2 hj2 hp
      rw [set_q_of_guard s i j n hg]
      have hs := swept_of_peers i j i2 j2 hi2 hj2 hp
      have h1 : ¬ (i2 = i ∧ j2 = j) := by
        have := hp.1; tauto
      simp [h1, hs]
  · have hne : i ≠ x ∨ j ≠ y := by tauto
    rw [set_q_zero s x y n i j hne] at hne0
    obtain ⟨m, hm1, hm9, hm, hflag, hpeers⟩ := hE i hi j hj hne0
    have hnotboth : ¬ (m = n ∧ swept x y i j) := by
      rintro ⟨rfl, hs⟩
      have hp : peers i j x y := peers_symm _ _ _ _ (peers_of_swept x y i j hs hne)
      exact hg.1 (hpeers x hx y hy hp)
    refine ⟨m, hm1, hm9, ?_, ?_, ?_⟩
    · rw [set_q_zero s x y n i j hne]; exact hm
    · rw [set_q_of_guard s x y n hg]
      have e1 : ¬ (i = x ∧ j = y ∧ m = 0) := fun h => hxy ⟨h.1, h.2.1⟩
      have e2 : ¬ (i = x ∧ j = y ∧ m = n) := fun h => hxy ⟨h.1, h.2.1⟩
      rw [if_neg e1, if_neg e2, if_neg hnotboth]
      exact hflag
    · intro i2 hi2 j2 hj2 hp
      rw [set_q_of_guard s x y n hg]
      have hm0 : m ≠ 0 := by omega
      have hz := hpeers i2 hi2 j2 hj2 hp
      by_cases h2 : i2 = x ∧ j2 = y
      · obtain ⟨rfl, rfl⟩ := h2
        have hmn : m ≠ n := by
          rintro rfl
          exact hg.1 hz
        simp [hm0, hmn, hz]
      · have e1 : ¬ (i2 = x ∧ j2 = y ∧ m = 0) := fun h => h2 ⟨h.1, h.2.1⟩
        have e2 : ¬ (i2 = x ∧ j2 = y ∧ m = n) := fun h => h2 ⟨h.1, h.2.1⟩
        rw [if_neg e1, if_neg e2]
        split_ifs
        · rfl
        · exact hz

theorem cells_nodup : cells.Nodup := by
  unfold cells indices
  exact List.Nodup.product (List.nodup_range _) (List.nodup_range _)

theorem mem_cells (c : Nat × Nat) : c ∈ cells ↔ c.1 < MAX ∧ c.2 < MAX := by
  obtain ⟨a, b⟩ := c
  unfold cells
  rw [List.pair_mem_product, mem_indices, mem_indices, MAX_eq]

/-- Clearing a predicate at one element of a duplicate-free list lowers its
count by one. -/
theorem countP_flip {α : Type} (l : List α) (hnd : l.Nodup) (p p2 : α → Bool) (a : α)
    (ha : a ∈ l) (hpa : p a = true) (hp2a : p2 a = false)
    (hrest : ∀ b ∈ l, b ≠ a → p2 b = p b) :
    l.countP p = l.countP p2 + 1 := by
  induction l with
  | nil => simp at ha
  | cons b l ih =>
    have hnd2 := List.nodup_cons.1 hnd
    rw [List.countP_cons, List.countP_cons]
    rcases List.mem_cons.1 ha with rfl | hin
    · have hsame : l.countP p2 = l.countP p := by
        apply List.countP_congr
        intro c hc
        have hca : c ≠ a := fun e => hnd2.1 (e ▸ hc)
        rw [hrest c (List.mem_cons_of_mem a hc) hca]
      simp [hpa, hp2a, hsame]
    · have hba : b ≠ a := fun e => hnd2.1 (e ▸ hin)
      have := ih hnd2.2 hin (fun c hc hca => hrest c (List.mem_cons_of_mem b hc) hca)
      rw [this, hrest b (List.mem_cons_self b l) hba]
      omega

theorem unassigned_congr (s s2 : Grid) (h : ∀ i < MAX, ∀ j < MAX, s2.q i j 0 = s.q i j 0) :
    unassigned s2 = unassigned s := by
  unfold unassigned
  apply List.countP_congr
  intro c hc
  have hc2 := (mem_cells c).1 hc
  rw [h c.1 hc2.1 c.2 hc2.2]

theorem set_unassigned (s : Grid) (x y n : Nat) (hx : x < MAX) (hy : y < MAX)
    (hg : s.q x y n ≠ 0 ∧ s.q x y 0 = 0) :
    unassigned s = unassigned (set s x y n) + 1 := by
  unfold unassigned
  apply countP_flip cells cells_nodup _ _ (x, y) ((mem_cells (x, y)).2 ⟨hx, hy⟩)
  · simp [hg.2]
  · have h1 : (set s x y n).q x y 0 = (n : Int) := by
      rw [set_q_of_guard s x y n hg]; simp
    have hn0 := guard_ne_zero s x y n hg
    simp [h1, hn0]
  · intro b _ hb
    have hne : b.1 ≠ x ∨ b.2 ≠ y := by
      by_contra hcon
      push_neg at hcon
      exact hb (Prod.ext hcon.1 hcon.2)
    simp only [set_q_zero s x y n b.1 b.2 hne]

/-- The count invariant: `notdone` is the number of unassigned cells. -/
theorem set_count : SetClosed (fun s => s.notdone = (unassigned s : Int)) := by
  intro s x y n hx hy hn h
  by_cases hg : s.q x y n ≠ 0 ∧ s.q x y 0 = 0
  · rw [set_notdone_of_guard s x y n hg, h, set_unassigned s x y n hx hy hg]
    push_cast; ring
  · rw [set_of_not_guard s x y n hg]; exact h

/-! ## The pointing rule passes -/

theorem foldl_row_apply (l : List Nat) (q : Nat → Nat → Nat → Int) (r k i j k2 : Nat) :
    (l.foldl (fun q j2 => upd q r j2 k 0) q) i j k2
      = if k2 = k ∧ i = r ∧ j ∈ l then 0 else q i j k2 := by
  induction l generalizing q with
  | nil => simp
  | cons a l ih =>
    simp only [List.foldl_cons, ih, upd_apply, List.mem_cons]
    split_ifs <;> first | rfl | (exfalso; tauto)

theorem foldl_column_apply (l : List Nat) (q : Nat → Nat → Nat → Int) (c k i j k2 : Nat) :
    (l.foldl (fun q i2 => upd q i2 c k 0) q) i j k2
      = if k2 = k ∧ j = c ∧ i ∈ l then 0 else q i j k2 := by
  induction l generalizing q with
  | nil => simp
  | cons a l ih =>
    simp only [List.foldl_cons, ih, upd_apply, List.mem_cons]
    split_ifs <;> first | rfl | (exfalso; tauto)

/-- The clearing loops of the pointing rule along rows, over the digits `ks`. -/
theorem rowClear_fold (t : Tally Int) (j1 : Nat) (ks : List Nat) (s : Grid) :
    (ks.foldl (fun s k =>
        if t.count k = 1 then
          let r := (t.pos k).toNat
          let q1 := (List.range j1).foldl (fun q j2 => upd q r j2 k 0) s.q
          let q2 := (List.range' (j1 + STEP) (MAX - (j1 + STEP))).foldl
            (fun q j2 => upd q r j2 k 0) q1
          { q := q2, notdone := s.notdone }
        else s) s).notdone = s.notdone ∧
    ∀ i j k, (ks.foldl (fun s k =>
        if t.count k = 1 then
          let r := (t.pos k).toNat
          let q1 := (List.range j1).foldl (fun q j2 => upd q r j2 k 0) s.q
          let q2 := (List.range' (j1 + STEP) (MAX - (j1 + STEP))).foldl
            (fun q j2 => upd q r j2 k 0) q1
          { q := q2, notdone := s.notdone }
        else s) s).q i j k
      = if k ∈ ks ∧ t.count k = 1 ∧ i = (t.pos k).toNat ∧
            (j < j1 ∨ (j1 + STEP ≤ j ∧ j < MAX)) then 0
        else s.q i j k := by
  induction ks generalizing s with
  | nil => simp
  | cons k0 ks ih =>
    simp only [List.foldl_cons]
    by_cases hc : t.count k0 = 1
    · rw [if_pos hc]
      refine ⟨(ih _).1, ?_⟩
      intro i j k
      rw [(ih _).2]
      simp only [foldl_row_apply, List.mem_range, List.mem_range'_1, List.mem_cons, MAX_eq,
        STEP_eq]
      by_cases hk : k = k0
      · subst hk
        by_cases hin : k ∈ ks
        · simp only [hin, hc, true_and, or_true]
          split_ifs <;> first | rfl | (exfalso; omega)
        · simp only [hin, hc, false_and, if_false, true_and, or_false]
          split_ifs <;> first | rfl | (exfalso; omega)
      · simp only [hk, false_and, false_or, if_false]
    · rw [if_neg hc]
      refine ⟨(ih _).1, ?_⟩
      intro i j k
      rw [(ih _).2]
      simp only [List.mem_cons]
      by_cases hk : k = k0
      · subst hk
        simp only [hc, false_and, and_false, if_false]
      · simp only [hk, false_or]

/-- The clearing loops of the pointing rule along columns, over the digits
`ks`. -/
theorem columnClear_fold (t : Tally Int) (i1 : Nat) (ks : List Nat) (s : Grid) :
    (ks.foldl (fun s k =>
        if t.count k = 1 then
          let c := (t.pos k).toNat
          let q1 := (List.range i1).foldl (fun q i2 => upd q i2 c k 0) s.q
          let q2 := (List.range' (i1 + STEP) (MAX - (i1 + STEP))).foldl
            (fun q i2 => upd q i2 c k 0) q1
          { q := q2, notdone := s.notdone }
        else s) s).notdone = s.notdone ∧
    ∀ i j k, (ks.foldl (fun s k =>
        if t.count k = 1 then
          let c := (t.pos k).toNat
          let q1 := (List.range i1).foldl (fun q i2 => upd q i2 c k 0) s.q
          let q2 := (List.range' (i1 + STEP) (MAX - (i1 + STEP))).foldl
            (fun q i2 => upd q i2 c k 0) q1
          { q := q2, notdone := s.notdone }
        else s) s).q i j k
      = if k ∈ ks ∧ t.count k = 1 ∧ j = (t.pos k).toNat ∧
            (i < i1 ∨ (i1 + STEP ≤ i ∧ i < MAX)) then 0
        else s.q i j k := by
  induction ks generalizing s with
  | nil => simp
  | cons k0 ks ih =>
    simp only [List.foldl_cons]
    by_cases hc : t.count k0 = 1
    · rw [if_pos hc]
      refine ⟨(ih _).1, ?_⟩
      intro i j k
      rw [(ih _).2]
      simp only [foldl_column_apply, List.mem_range, List.mem_range'_1, List.mem_cons, MAX_eq,
        STEP_eq]
      by_cases hk : k = k0
      · subst hk
        by_cases hin : k ∈ ks
        · simp only [hin, hc, true_and, or_true]
          split_ifs <;> first | rfl | (exfalso; omega)
        · simp only [hin, hc, false_and, if_false, true_and, or_false]
          split_ifs <;> first | rfl | (exfalso; omega)
      · simp only [hk, false_and, false_or, if_false]
    · rw [if_neg hc]
      refine ⟨(ih _).1, ?_⟩
      intro i j k
      rw [(ih _).2]
      simp only [List.mem_cons]
      by_cases hk : k = k0
      · subst hk
        simp only [hc, false_and, and_false, if_false]
      · simp only [hk, false_or]

theorem lineScan_pos_confined (q : Nat → Nat → Nat → Int) (k r : Nat) (hk : k ∈ digits)
    (cs : List (Nat × Nat × Nat)) (t : Tally Int)
    (hcs : ∀ c ∈ cs, candidateAt q c.1 c.2.1 k → c.2.2 = r)
    (ht : t.pos k = (r : Int) ∨ t.pos k < 0) :
    (lineScan q cs t).pos k = (r : Int) ∨
      ((lineScan q cs t).pos k < 0 ∧ ∀ c ∈ cs, ¬ candidateAt q c.1 c.2.1 k) := by
  induction cs generalizing t with
  | nil =>
    rcases ht with ht | ht
    · exact Or.inl ht
    · exact Or.inr ⟨ht, by simp⟩
  | cons c cs ih =>
    rw [lineScan_cons]
    have e2 := lineStep_pos q c t k hk
    by_cases hc : candidateAt q c.1 c.2.1 k
    · have hv := hcs c (List.mem_cons_self c cs) hc
      have hnew : (if q c.1 c.2.1 0 = 0 then tallyLine q c.1 c.2.1 c.2.2 t else t).pos k
          = (r : Int) := by
        rw [e2]
        split_ifs with h
        · rw [hv]
        · rcases ht with ht | ht
          · exact ht
          · exfalso; apply h; exact ⟨hc, by omega⟩
      rcases ih _ (fun c2 hc2 => hcs c2 (List.mem_cons_of_mem c hc2)) (Or.inl hnew) with
        h | h
      · exact Or.inl h
      · exfalso
        have hp := lineScan_pos_of_eq q cs
          (if q c.1 c.2.1 0 = 0 then tallyLine q c.1 c.2.1 c.2.2 t else t) k hk
          (fun c2 hc2 hcand2 => absurd hcand2 (h.2 c2 hc2))
        rw [hp, hnew] at h
        omega
    · have hsame : (if q c.1 c.2.1 0 = 0 then tallyLine q c.1 c.2.1 c.2.2 t else t).pos k
          = t.pos k := by
        rw [e2, if_neg (fun h => hc h.1)]
      rcases ih _ (fun c2 hc2 => hcs c2 (List.mem_cons_of_mem c hc2))
        (by rw [hsame]; exact ht) with h | h
      · exact Or.inl h
      · refine Or.inr ⟨h.1, ?_⟩
        intro c2 hc2
        rcases List.mem_cons.1 hc2 with rfl | hin
        · exact hc
        · exact h.2 c2 hin

/-- A pointing scan started from count 0 and the sentinel -1 counts digit `k`
once and records the line `r` exactly when some cell of the scan has `k` as a
candidate and all such cells lie on line `r`. -/
theorem lineScan_confined_iff (q : Nat → Nat → Nat → Int) (k r : Nat) (hk : k ∈ digits)
    (cs : List (Nat × Nat × Nat)) (t : Tally Int) (h0 : t.count k = 0) (hneg : t.pos k < 0) :
    ((lineScan q cs t).count k = 1 ∧ (lineScan q cs t).pos k = (r : Int)) ↔
      ((∃ c ∈ cs, candidateAt q c.1 c.2.1 k) ∧
        ∀ c ∈ cs, candidateAt q c.1 c.2.1 k → c.2.2 = r) := by
  have key := lineScan_one_iff q cs t k hk h0 hneg
  constructor
  · rintro ⟨h1, hp⟩
    refine ⟨(key.1 h1).1, ?_⟩
    intro c hc hcand
    have := (key.1 h1).2 c hc hcand
    rw [hp] at this
    exact_mod_cast this
  · rintro ⟨⟨c0, hc0, hcand0⟩, hall⟩
    rcases lineScan_pos_confined q k r hk cs t hall (Or.inr hneg) with h | h
    · refine ⟨key.2 ⟨⟨c0, hc0, hcand0⟩, ?_⟩, h⟩
      intro c hc hcand
      rw [h, hall c hc hcand]
    · exact absurd hcand0 (h.2 c0 hc0)

/-- The row-pointing scan counts digit `k` exactly once, recording row `r`, when
and only when `k` is confined to row `r` of the sub-grid. -/
theorem rowGroupTally_one_iff (q : Nat → Nat → Nat → Int) (i1 j1 k r : Nat)
    (hk : k ∈ digits) :
    ((rowGroupTally q i1 j1).count k = 1 ∧ (rowGroupTally q i1 j1).pos k = (r : Int)) ↔
      rowConfined q i1 j1 k r := by
  rw [rowGroupTally_eq_scan, lineScan_confined_iff q k r hk _ _ rfl
    (by show (-1 : Int) < 0; decide)]
  unfold rowConfined
  simp only [STEP_eq]
  constructor
  · rintro ⟨⟨c, hc, hcand⟩, hall⟩
    have hcm := (mem_blockCells i1 j1 (fun i _ => i) c).1 hc
    refine ⟨⟨c.1, c.2.1, hcm.1.1, hcm.1.2.1, hcm.1.2.2.1, hcm.1.2.2.2, hcand⟩, ?_⟩
    intro a b ha1 ha2 hb1 hb2 hab
    exact hall (a, b, a)
      ((mem_blockCells i1 j1 (fun i _ => i) (a, b, a)).2 ⟨⟨ha1, ha2, hb1, hb2⟩, rfl⟩) hab
  · rintro ⟨⟨a, b, ha1, ha2, hb1, hb2, hab⟩, hall⟩
    refine ⟨⟨(a, b, a),
      (mem_blockCells i1 j1 (fun i _ => i) (a, b, a)).2 ⟨⟨ha1, ha2, hb1, hb2⟩, rfl⟩, hab⟩, ?_⟩
    intro c hc hcand
    have hcm := (mem_blockCells i1 j1 (fun i _ => i) c).1 hc
    rw [hcm.2]
    exact hall c.1 c.2.1 hcm.1.1 hcm.1.2.1 hcm.1.2.2.1 hcm.1.2.2.2 hcand

/-- The column-pointing scan counts digit `k` exactly once, recording column
`c`, when and only when `k` is confined to column `c` of the sub-grid. -/
theorem columnGroupTally_one_iff (q : Nat → Nat → Nat → Int) (i1 j1 k c : Nat)
    (hk : k ∈ digits) :
    ((columnGroupTally q i1 j1).count k = 1 ∧ (columnGroupTally q i1 j1).pos k = (c : Int)) ↔
      columnConfined q i1 j1 k c := by
  rw [columnGroupTally_eq_scan, lineScan_confined_iff q k c hk _ _ rfl
    (by show (-1 : Int) < 0; decide)]
  unfold columnConfined
  simp only [STEP_eq]
  constructor
  · rintro ⟨⟨x, hx, hcand⟩, hall⟩
    have hcm := (mem_blockCells i1 j1 (fun _ j => j) x).1 hx
    refine ⟨⟨x.1, x.2.1, hcm.1.1, hcm.1.2.1, hcm.1.2.2.1, hcm.1.2.2.2, hcand⟩, ?_⟩
    intro a b ha1 ha2 hb1 hb2 hab
    exact hall (a, b, b)
      ((mem_blockCells i1 j1 (fun _ j => j) (a, b, b)).2 ⟨⟨ha1, ha2, hb1, hb2⟩, rfl⟩) hab
  · rintro ⟨⟨a, b, ha1, ha2, hb1, hb2, hab⟩, hall⟩
    refine ⟨⟨(a, b, b),
      (mem_blockCells i1 j1 (fun _ j => j) (a, b, b)).2 ⟨⟨ha1, ha2, hb1, hb2⟩, rfl⟩, hab⟩, ?_⟩
    intro x hx hcand
    have hcm := (mem_blockCells i1 j1 (fun _ j => j) x).1 hx
    rw [hcm.2]
    exact hall x.1 x.2.1 hcm.1.1 hcm.1.2.1 hcm.1.2.2.1 hcm.1.2.2.2 hcand

/-- A count of one in a pointing scan comes with a recorded line that is one of
the scanned lines. -/
theorem lineScan_pos_nonneg (q : Nat → Nat → Nat → Int) (cs : List (Nat × Nat × Nat))
    (t : Tally Int) (k : Nat) (hk : k ∈ digits) (h0 : t.count k = 0) (hneg : t.pos k < 0)
    (h1 : (lineScan q cs t).count k = 1) :
    (lineScan q cs t).pos k = (((lineScan q cs t).pos k).toNat : Int) := by
  obtain ⟨⟨c, hc, hcand⟩, hall⟩ := (lineScan_one_iff q cs t k hk h0 hneg).1 h1
  rw [← hall c hc hcand]
  simp

theorem rowGroupTally_one (q : Nat → Nat → Nat → Int) (i1 j1 k : Nat) (hk : k ∈ digits)
    (h1 : (rowGroupTally q i1 j1).count k = 1) :
    rowConfined q i1 j1 k ((rowGroupTally q i1 j1).pos k).toNat := by
  apply (rowGroupTally_one_iff q i1 j1 k _ hk).1
  refine ⟨h1, ?_⟩
  rw [rowGroupTally_eq_scan] at h1 ⊢
  exact lineScan_pos_nonneg q _ _ k hk rfl (by show (-1 : Int) < 0; decide) h1

theorem columnGroupTally_one (q : Nat → Nat → Nat → Int) (i1 j1 k : Nat) (hk : k ∈ digits)
    (h1 : (columnGroupTally q i1 j1).count k = 1) :
    columnConfined q i1 j1 k ((columnGroupTally q i1 j1).pos k).toNat := by
  apply (columnGroupTally_one_iff q i1 j1 k _ hk).1
  refine ⟨h1, ?_⟩
  rw [columnGroupTally_eq_scan] at h1 ⊢
  exact lineScan_pos_nonneg q _ _ k hk rfl (by show (-1 : Int) < 0; decide) h1

/-- The pointing pass along rows, one sub-grid at a time. -/
theorem one_row_in_group_preserves (P : Grid → Prop)
    (hP : ∀ s s2 i1 j1, i1 ∈ blockStarts → j1 ∈ blockStarts → P s → RowPruned s i1 j1 s2 →
      P s2) (s : Grid) (h : P s) : P (rule_only_in_one_row_in_group s) := by
  unfold rule_only_in_one_row_in_group
  apply foldl_preserves P _ _ _ h
  intro s i1 hi1 h
  apply foldl_preserves P _ _ _ h
  intro s j1 hj1 h
  apply hP s _ i1 j1 hi1 hj1 h
  simp only
  have hf := rowClear_fold (rowGroupTally s.q i1 j1) j1 digits s
  refine ⟨hf.1, ?_⟩
  intro i j k
  rw [hf.2]
  split_ifs with hc
  · right
    obtain ⟨hk, h1, hi, hj⟩ := hc
    refine ⟨rfl, hk, ?_, ?_, ?_⟩
    · rcases hj with hj | hj
      · have := mem_blockStarts.1 hj1
        rw [MAX_eq]; omega
      · exact hj.2
    · rcases hj with hj | hj
      · exact Or.inl hj
      · exact Or.inr hj.1
    · rw [hi]
      exact rowGroupTally_one s.q i1 j1 k hk h1
  · left; rfl

/-- The pointing pass along columns, one sub-grid at a time. -/
theorem one_column_in_group_preserves (P : Grid → Prop)
    (hP : ∀ s s2 i1 j1, i1 ∈ blockStarts → j1 ∈ blockStarts → P s → ColumnPruned s i1 j1 s2 →
      P s2) (s : Grid) (h : P s) : P (rule_only_in_one_column_in_group s) := by
  unfold rule_only_in_one_column_in_group
  apply foldl_preserves P _ _ _ h
  intro s i1 hi1 h
  apply foldl_preserves P _ _ _ h
  intro s j1 hj1 h
  apply hP s _ i1 j1 hi1 hj1 h
  simp only
  have hf := columnClear_fold (columnGroupTally s.q i1 j1) i1 digits s
  refine ⟨hf.1, ?_⟩
  intro i j k
  rw [hf.2]
  split_ifs with hc
  · right
    obtain ⟨hk, h1, hj, hi⟩ := hc
    refine ⟨rfl, hk, ?_, ?_, ?_⟩
    · rcases hi with hi | hi
      · have := mem_blockStarts.1 hi1
        rw [MAX_eq]; omega
      · exact hi.2
    · rcases hi with hi | hi
      · exact Or.inl hi
      · exact Or.inr hi.1
    · rw [hj]
      exact columnGroupTally_one s.q i1 j1 k hk h1
  · left; rfl

/-! ## Complete valid grids -/

theorem valid_row_unique (S : Nat → Nat → Nat) (hS : ValidSolution S) (i j j2 d : Nat)
    (hi : i < MAX) (hj : j < MAX) (hj2 : j2 < MAX) (hd1 : 1 ≤ d) (hd9 : d ≤ MAX)
    (h1 : S i j = d) (h2 : S i j2 = d) : j = j2 := by
  obtain ⟨j0, _, _, hu⟩ := hS.1 i hi d (by omega) hd1
  rw [hu j hj h1, hu j2 hj2 h2]

theorem valid_column_unique (S : Nat → Nat → Nat) (hS : ValidSolution S) (i i2 j d : Nat)
    (hi : i < MAX) (hi2 : i2 < MAX) (hj : j < MAX) (hd1 : 1 ≤ d) (hd9 : d ≤ MAX)
    (h1 : S i j = d) (h2 : S i2 j = d) : i = i2 := by
  obtain ⟨i0, _, _, hu⟩ := hS.2.1 j hj d (by omega) hd1
  rw [hu i hi h1, hu i2 hi2 h2]

theorem valid_block_exists (S : Nat → Nat → Nat) (hS : ValidSolution S) (i1 j1 d : Nat)
    (hi1 : i1 ∈ blockStarts) (hj1 : j1 ∈ blockStarts) (hd1 : 1 ≤ d) (hd9 : d ≤ MAX) :
    ∃ a b, i1 ≤ a ∧ a < i1 + 3 ∧ j1 ≤ b ∧ b < j1 + 3 ∧ S a b = d := by
  have h1 := mem_blockStarts.1 hi1
  have h2 := mem_blockStarts.1 hj1
  obtain ⟨a, ha, b, hb, hab, _⟩ := hS.2.2 (i1 / 3) (by rw [STEP_eq]; omega) (j1 / 3)
    (by rw [STEP_eq]; omega) d (by omega) hd1
  simp only [STEP_eq] at ha hb hab
  have e1 : 3 * (i1 / 3) = i1 := by omega
  have e2 : 3 * (j1 / 3) = j1 := by omega
  rw [e1, e2] at hab
  exact ⟨i1 + a, j1 + b, by omega, by omega, by omega, by omega, hab⟩

theorem valid_block_unique (S : Nat → Nat → Nat) (hS : ValidSolution S) (i j i2 j2 d : Nat)
    (hi : i < MAX) (hj : j < MAX) (hb : inBlock i j i2 j2) (hd1 : 1 ≤ d) (hd9 : d ≤ MAX)
    (h1 : S i j = d) (h2 : S i2 j2 = d) : i = i2 ∧ j = j2 := by
  simp only [MAX_eq] at hi hj
  unfold inBlock at hb
  simp only [STEP_eq] at hb
  obtain ⟨a, _, b, _, _, hu⟩ := hS.2.2 (i / 3) (by rw [STEP_eq]; omega) (j / 3)
    (by rw [STEP_eq]; omega) d (by omega) hd1
  simp only [STEP_eq] at hu
  have u1 := hu (i % 3) (by omega) (j % 3) (by omega)
    (by rw [← h1]; congr 1 <;> omega)
  have u2 := hu (i2 - 3 * (i / 3)) (by omega) (j2 - 3 * (j / 3)) (by omega)
    (by rw [← h2]; congr 1 <;> omega)
  omega

/-- In a complete valid grid two distinct cells sharing a row, a column or a
sub-grid never hold the same digit of `1..MAX`. -/
theorem valid_peers_ne (S : Nat → Nat → Nat) (hS : ValidSolution S) (i j i2 j2 d : Nat)
    (hi : i < MAX) (hj : j < MAX) (hi2 : i2 < MAX) (hj2 : j2 < MAX)
    (hp : peers i j i2 j2) (hd1 : 1 ≤ d) (hd9 : d ≤ MAX) (h1 : S i j = d) :
    S i2 j2 ≠ d := by
  intro h2
  rcases hp.2 with h | h | h
  · subst h
    have := valid_row_unique S hS i2 j j2 d hi2 hj hj2 hd1 hd9 h1 h2
    have := hp.1
    omega
  · subst h
    have := valid_column_unique S hS i i2 j2 d hi hi2 hj2 hd1 hd9 h1 h2
    have := hp.1
    omega
  · have := valid_block_unique S hS i j i2 j2 d hi hj h hd1 hd9 h1 h2
    have := hp.1
    omega

/-- Every cell of a complete valid grid holds a digit of `1..MAX`: the nine
digits of a row occupy nine distinct cells, which are all the cells of the
row. -/
theorem valid_range (S : Nat → Nat → Nat) (hS : ValidSolution S) (i j : Nat)
    (hi : i < MAX) (hj : j < MAX) : 1 ≤ S i j ∧ S i j ≤ MAX := by
  have hex : ∀ d : Fin 9, ∃ c : Fin 9, S i c.1 = d.1 + 1 := by
    intro d
    obtain ⟨c, hc, hcd, _⟩ := hS.1 i hi (d.1 + 1) (by rw [MAX_eq]; omega) (by omega)
    exact ⟨⟨c, by rw [MAX_eq] at hc; exact hc⟩, hcd⟩
  choose f hf using hex
  have hinj : Function.Injective f := by
    intro d d2 h
    have h1 := hf d
    have h2 := hf d2
    rw [h] at h1
    apply Fin.ext
    omega
  have hsurj : Function.Surjective f := Finite.injective_iff_surjective.1 hinj
  obtain ⟨d, hd⟩ := hsurj ⟨j, by rw [MAX_eq] at hj; exact hj⟩
  have h1 := hf d
  rw [hd] at h1
  simp only at h1
  rw [h1, MAX_eq]
  omega

/-! ## Invariants of the pointing passes -/

theorem exclusive_of_cleared (s s2 : Grid) (hE : Exclusive s)
    (h : ∀ i j k, s2.q i j k = s.q i j k ∨
      (s2.q i j k = 0 ∧ 1 ≤ k ∧ (i < MAX → j < MAX → s.q i j 0 ≠ (k : Int)))) :
    Exclusive s2 := by
  have h0 : ∀ i j, s2.q i j 0 = s.q i j 0 := by
    intro i j
    rcases h i j 0 with e | e
    · exact e
    · omega
  intro i hi j hj hne
  rw [h0] at hne
  obtain ⟨n, hn1, hn9, hn, hflag, hpeers⟩ := hE i hi j hj hne
  refine ⟨n, hn1, hn9, by rw [h0]; exact hn, ?_, ?_⟩
  · rcases h i j n with e | e
    · rw [e]; exact hflag
    · exact absurd hn (e.2.2 hi hj)
  · intro i2 hi2 j2 hj2 hp
    rcases h i2 j2 n with e | e
    · rw [e]; exact hpeers i2 hi2 j2 hj2 hp
    · exact e.1

theorem compatible_of_cleared (s s2 : Grid) (S : Nat → Nat → Nat) (hC : Compatible s S)
    (h : ∀ i j k, s2.q i j k = s.q i j k ∨
      (s2.q i j k = 0 ∧ 1 ≤ k ∧ (i < MAX → j < MAX → S i j ≠ k))) :
    Compatible s2 S := by
  have h0 : ∀ i j, s2.q i j 0 = s.q i j 0 := by
    intro i j
    rcases h i j 0 with e | e
    · exact e
    · omega
  intro i hi j hj
  refine ⟨?_, ?_⟩
  · rw [h0]; exact (hC i hi j hj).1
  · rcases h i j (S i j) with e | e
    · rw [e]; exact (hC i hi j hj).2
    · exact absurd rfl (e.2.2 hi hj)

/-- The cell that witnesses a confined digit is not assigned, so no cell of its
row outside the sub-grid can hold that digit. -/
theorem rowPruned_safe (s s2 : Grid) (i1 j1 : Nat) (hi1 : i1 ∈ blockStarts)
    (hj1 : j1 ∈ blockStarts) (hE : Exclusive s) (h : RowPruned s i1 j1 s2) (i j k : Nat) :
    s2.q i j k = s.q i j k ∨
      (s2.q i j k = 0 ∧ 1 ≤ k ∧ (i < MAX → j < MAX → s.q i j 0 ≠ (k : Int))) := by
  rcases h.2 i j k with e | ⟨e, hk, hj, hout, hconf⟩
  · exact Or.inl e
  · refine Or.inr ⟨e, (mem_digits.1 hk).1, ?_⟩
    intro hi _ hass
    have hb1 := mem_blockStarts.1 hi1
    have hb2 := mem_blockStarts.1 hj1
    obtain ⟨⟨a, b, ha1, ha2, hb1', hb2', hcand⟩, hall⟩ := hconf
    simp only [STEP_eq] at ha2 hb2' hout hall
    have hai : a = i := hall a b ha1 ha2 hb1' hb2' hcand
    subst hai
    have hk0 : (k : Int) ≠ 0 := by
      have := (mem_digits.1 hk).1
      omega
    obtain ⟨n, _, _, hn, _, hpeers⟩ := hE a hi j hj (by rw [hass]; exact hk0)
    have hnk : n = k := by
      rw [hass] at hn
      exact_mod_cast hn.symm
    subst hnk
    have hp : peers a j a b := ⟨Or.inr (by omega), Or.inl rfl⟩
    exact hcand.2 (hpeers a hi b (by rw [MAX_eq]; omega) hp)

theorem columnPruned_safe (s s2 : Grid) (i1 j1 : Nat) (hi1 : i1 ∈ blockStarts)
    (hj1 : j1 ∈ blockStarts) (hE : Exclusive s) (h : ColumnPruned s i1 j1 s2) (i j k : Nat) :
    s2.q i j k = s.q i j k ∨
      (s2.q i j k = 0 ∧ 1 ≤ k ∧ (i < MAX → j < MAX → s.q i j 0 ≠ (k : Int))) := by
  rcases h.2 i j k with e | ⟨e, hk, hi, hout, hconf⟩
  · exact Or.inl e
  · refine Or.inr ⟨e, (mem_digits.1 hk).1, ?_⟩
    intro _ hj hass
    have hb1 := mem_blockStarts.1 hi1
    have hb2 := mem_blockStarts.1 hj1
    obtain ⟨⟨a, b, ha1, ha2, hb1', hb2', hcand⟩, hall⟩ := hconf
    simp only [STEP_eq] at ha2 hb2' hout hall
    have hbj : b = j := hall a b ha1 ha2 hb1' hb2' hcand
    subst hbj
    have hk0 : (k : Int) ≠ 0 := by
      have := (mem_digits.1 hk).1
      omega
    obtain ⟨n, _, _, hn, _, hpeers⟩ := hE i hi b hj (by rw [hass]; exact hk0)
    have hnk : n = k := by
      rw [hass] at hn
      exact_mod_cast hn.symm
    subst hnk
    have hp : peers i b a b := ⟨Or.inl (by omega), Or.inr (Or.inl rfl)⟩
    exact hcand.2 (hpeers a (by rw [MAX_eq]; omega) b hj hp)

theorem one_row_in_group_exclusive (s : Grid) (h : Exclusive s) :
    Exclusive (rule_only_in_one_row_in_group s) :=
  one_row_in_group_preserves Exclusive
    (fun s s2 i1 j1 hi1 hj1 hE hp =>
      exclusive_of_cleared s s2 hE (rowPruned_safe s s2 i1 j1 hi1 hj1 hE hp)) s h

theorem one_column_in_group_exclusive (s : Grid) (h : Exclusive s) :
    Exclusive (rule_only_in_one_column_in_group s) :=
  one_column_in_group_preserves Exclusive
    (fun s s2 i1 j1 hi1 hj1 hE hp =>
      exclusive_of_cleared s s2 hE (columnPruned_safe s s2 i1 j1 hi1 hj1 hE hp)) s h

theorem rowPruned_zero (s s2 : Grid) (i1 j1 : Nat) (h : RowPruned s i1 j1 s2) (i j : Nat) :
    s2.q i j 0 = s.q i j 0 := by
  rcases h.2 i j 0 with e | e
  · exact e
  · have := (mem_digits.1 e.2.1).1
    omega

theorem columnPruned_zero (s s2 : Grid) (i1 j1 : Nat) (h : ColumnPruned s i1 j1 s2)
    (i j : Nat) : s2.q i j 0 = s.q i j 0 := by
  rcases h.2 i j 0 with e | e
  · exact e
  · have := (mem_digits.1 e.2.1).1
    omega

theorem one_row_in_group_count (s : Grid) (h : s.notdone = (unassigned s : Int)) :
    (rule_only_in_one_row_in_group s).notdone
      = (unassigned (rule_only_in_one_row_in_group s) : Int) :=
  one_row_in_group_preserves (fun s => s.notdone = (unassigned s : Int))
    (fun s s2 i1 j1 _ _ hs hp => by
      show s2.notdone = (unassigned s2 : Int)
      have hs2 : s.notdone = (unassigned s : Int) := hs
      rw [hp.1, hs2, unassigned_congr s s2 (fun i _ j _ => rowPruned_zero s s2 i1 j1 hp i j)]) s h

theorem one_column_in_group_count (s : Grid) (h : s.notdone = (unassigned s : Int)) :
    (rule_only_in_one_column_in_group s).notdone
      = (unassigned (rule_only_in_one_column_in_group s) : Int) :=
  one_column_in_group_preserves (fun s => s.notdone = (unassigned s : Int))
    (fun s s2 i1 j1 _ _ hs hp => by
      show s2.notdone = (unassigned s2 : Int)
      have hs2 : s.notdone = (unassigned s : Int) := hs
      rw [hp.1, hs2,
        unassigned_congr s s2 (fun i _ j _ => columnPruned_zero s s2 i1 j1 hp i j)]) s h

/-! ## Invariants of the reachable states -/

theorem initGrid_exclusive : Exclusive initGrid := by
  intro i hi j hj h
  exfalso
  apply h
  simp [initGrid]

theorem initGrid_count : initGrid.notdone = (unassigned initGrid : Int) := by
  decide

theorem reachable_invariants (s : Grid) (h : Reachable s) :
    Exclusive s ∧ s.notdone = (unassigned s : Int) := by
  induction h with
  | init => exact ⟨initGrid_exclusive, initGrid_count⟩
  | assign s x y n _ hx hy hn ih =>
    exact ⟨set_exclusive s x y n hx hy hn ih.1, set_count s x y n hx hy hn ih.2⟩
  | digit_in_cell s _ ih =>
    exact ⟨digit_in_cell_closed _ set_exclusive s ih.1, digit_in_cell_closed _ set_count s ih.2⟩
  | place_in_row s _ ih =>
    exact ⟨place_in_row_closed _ set_exclusive s ih.1, place_in_row_closed _ set_count s ih.2⟩
  | place_in_column s _ ih =>
    exact ⟨place_in_column_closed _ set_exclusive s ih.1,
      place_in_column_closed _ set_count s ih.2⟩
  | one_row_in_group s _ ih =>
    exact ⟨one_row_in_group_exclusive s ih.1, one_row_in_group_count s ih.2⟩
  | one_column_in_group s _ ih =>
    exact ⟨one_column_in_group_exclusive s ih.1, one_column_in_group_count s ih.2⟩
  | one_sq_in_group s _ ih =>
    exact ⟨one_sq_in_group_closed _ set_exclusive s ih.1,
      one_sq_in_group_closed _ set_count s ih.2⟩

/-! ## Soundness of propagation -/

theorem set_compatible (S : Nat → Nat → Nat) (hS : ValidSolution S) (s : Grid) (x y n : Nat)
    (hx : x < MAX) (hy : y < MAX) (hn : S x y = n) (hC : Compatible s S) :
    Compatible (set s x y n) S := by
  by_cases hg : s.q x y n ≠ 0 ∧ s.q x y 0 = 0
  swap
  · rw [set_of_not_guard s x y n hg]; exact hC
  have hn0 := guard_ne_zero s x y n hg
  have hr := valid_range S hS x y hx hy
  intro i hi j hj
  by_cases hxy : i = x ∧ j = y
  · obtain ⟨rfl, rfl⟩ := hxy
    rw [set_q_of_guard s i j n hg, set_q_of_guard s i j n hg, hn]
    simp [hn0]
  · have hne : i ≠ x ∨ j ≠ y := by tauto
    refine ⟨?_, ?_⟩
    · rw [set_q_zero s x y n i j hne]; exact (hC i hi j hj).1
    · rw [set_q_of_guard s x y n hg]
      have e1 : ¬ (i = x ∧ j = y ∧ S i j = 0) := fun h => hxy ⟨h.1, h.2.1⟩
      have e2 : ¬ (i = x ∧ j = y ∧ S i j = n) := fun h => hxy ⟨h.1, h.2.1⟩
      have e3 : ¬ (S i j = n ∧ swept x y i j) := by
        rintro ⟨h1, h2⟩
        have hp := peers_of_swept x y i j h2 hne
        rw [hn] at hr
        exact valid_peers_ne S hS x y i j n hx hy hi hj hp hr.1 hr.2 hn h1
      rw [if_neg e1, if_neg e2, if_neg e3]
      exact (hC i hi j hj).2

/-- A hidden single is the digit of every compatible complete grid: if digit
`k` of the complete grid sits at `(a,b)`, a cell that is `(x,y)` or one of its
peers, and `(x,y)` is the only cell among them where `k` is still a candidate
of an unassigned cell, then the complete grid holds `k` at `(x,y)`. -/
theorem hidden_single_sound (s : Grid) (S : Nat → Nat → Nat) (k x y a b : Nat)
    (hE : Exclusive s) (hC : Compatible s S) (hk : k ∈ digits)
    (ha : a < MAX) (hb : b < MAX) (hx : x < MAX) (hy : y < MAX) (hSab : S a b = k)
    (hpeer : (a = x ∧ b = y) ∨ peers a b x y) (hcand : candidateAt s.q x y k)
    (huniq : candidateAt s.q a b k → a = x ∧ b = y) : S x y = k := by
  have hflag : s.q a b k ≠ 0 := by
    have := (hC a ha b hb).2
    rw [hSab] at this
    exact this
  by_cases h0 : s.q a b 0 = 0
  · obtain ⟨rfl, rfl⟩ := huniq ⟨h0, hflag⟩
    exact hSab
  · exfalso
    have hass := (hC a ha b hb).1 h0
    obtain ⟨n, _, _, hn, _, hpeers⟩ := hE a ha b hb h0
    have hnk : n = k := by
      rw [hass, hSab] at hn
      exact_mod_cast hn.symm
    subst hnk
    rcases hpeer with ⟨rfl, rfl⟩ | hp
    · exact h0 hcand.1
    · exact hcand.2 (hpeers x hx y hy hp)

theorem rowTally_one (q : Nat → Nat → Nat → Int) (i k : Nat) (hk : k ∈ digits)
    (h1 : (rowTally q i).count k = 1) :
    candidateAt q i ((rowTally q i).pos k) k ∧
      ∀ j < MAX, candidateAt q i j k → j = (rowTally q i).pos k := by
  rw [rowTally_eq_scan] at h1 ⊢
  obtain ⟨c, hc, hcand, hpos, huniq⟩ := hiddenScan_one q _ _ k hk rfl h1
  obtain ⟨j0, hj0, rfl⟩ := List.mem_map.1 hc
  rw [hpos]
  refine ⟨hcand, ?_⟩
  intro j hj hcj
  have := huniq (i, j, j) (List.mem_map.2 ⟨j, mem_indices.2 (by rw [MAX_eq] at hj; exact hj), rfl⟩)
    hcj
  simp only [Prod.mk.injEq] at this
  exact this.2.1

theorem columnTally_one (q : Nat → Nat → Nat → Int) (j k : Nat) (hk : k ∈ digits)
    (h1 : (columnTally q j).count k = 1) :
    candidateAt q ((columnTally q j).pos k) j k ∧
      ∀ i < MAX, candidateAt q i j k → i = (columnTally q j).pos k := by
  rw [columnTally_eq_scan] at h1 ⊢
  obtain ⟨c, hc, hcand, hpos, huniq⟩ := hiddenScan_one q _ _ k hk rfl h1
  obtain ⟨i0, hi0, rfl⟩ := List.mem_map.1 hc
  rw [hpos]
  refine ⟨hcand, ?_⟩
  intro i hi hci
  have := huniq (i, j, i) (List.mem_map.2 ⟨i, mem_indices.2 (by rw [MAX_eq] at hi; exact hi), rfl⟩)
    hci
  simp only [Prod.mk.injEq] at this
  exact this.1

theorem sqTally_one (q : Nat → Nat → Nat → Int) (i1 j1 k : Nat) (hk : k ∈ digits)
    (h1 : (sqTally q i1 j1).count k = 1) :
    (i1 ≤ ((sqTally q i1 j1).pos k).1 ∧ ((sqTally q i1 j1).pos k).1 < i1 + 3 ∧
      j1 ≤ ((sqTally q i1 j1).pos k).2 ∧ ((sqTally q i1 j1).pos k).2 < j1 + 3) ∧
    candidateAt q ((sqTally q i1 j1).pos k).1 ((sqTally q i1 j1).pos k).2 k ∧
      ∀ a b, i1 ≤ a → a < i1 + 3 → j1 ≤ b → b < j1 + 3 → candidateAt q a b k →
        a = ((sqTally q i1 j1).pos k).1 ∧ b = ((sqTally q i1 j1).pos k).2 := by
  rw [sqTally_eq_scan] at h1 ⊢
  obtain ⟨c, hc, hcand, hpos, huniq⟩ := hiddenScan_one q _ _ k hk rfl h1
  have hcm := (mem_blockCells i1 j1 (fun i j => (i, j)) c).1 hc
  rw [hpos, hcm.2]
  refine ⟨hcm.1, hcand, ?_⟩
  intro a b ha1 ha2 hb1 hb2 hab
  have := huniq (a, b, (a, b))
    ((mem_blockCells i1 j1 (fun i j => (i, j)) (a, b, (a, b))).2 ⟨⟨ha1, ha2, hb1, hb2⟩, rfl⟩) hab
  rw [← this]
  exact ⟨rfl, rfl⟩

theorem place_in_row_sound (S : Nat → Nat → Nat) (hS : ValidSolution S) (s : Grid)
    (h : Exclusive s ∧ Compatible s S) :
    Exclusive (rule_only_place_in_row s) ∧ Compatible (rule_only_place_in_row s) S := by
  unfold rule_only_place_in_row
  apply foldl_preserves (fun s => Exclusive s ∧ Compatible s S) _ _ _ h
  intro s i hi h
  have hi9 : i < MAX := by rw [MAX_eq]; exact mem_indices.1 hi
  simp only
  have hF : ∀ k ∈ digits, (rowTally s.q i).count k = 1 → S i ((rowTally s.q i).pos k) = k := by
    intro k hk h1
    have hd := mem_digits.1 hk
    obtain ⟨hcand, huniq⟩ := rowTally_one s.q i k hk h1
    obtain ⟨c, hc, hSc, _⟩ := hS.1 i hi9 k (by rw [MAX_eq]; omega) hd.1
    have hp := rowTally_pos_lt s.q i k
    apply hidden_single_sound s S k i _ i c h.1 h.2 hk hi9 hc hi9 hp hSc _ hcand
    · intro hcc
      exact ⟨rfl, huniq c hc hcc⟩
    · by_cases e : c = (rowTally s.q i).pos k
      · exact Or.inl ⟨rfl, e⟩
      · exact Or.inr ⟨Or.inr (fun e2 => e e2.symm), Or.inl rfl⟩
  apply foldl_preserves (fun s => Exclusive s ∧ Compatible s S) _ _ _ h
  intro s2 k hk h2
  split_ifs with h1
  · exact ⟨set_exclusive s2 i _ k hi9 (rowTally_pos_lt _ _ _)
        (by rw [MAX_eq]; exact (mem_digits.1 hk).2) h2.1,
      set_compatible S hS s2 i _ k hi9 (rowTally_pos_lt _ _ _) (hF k hk h1) h2.2⟩
  · exact h2

theorem place_in_column_sound (S : Nat → Nat → Nat) (hS : ValidSolution S) (s : Grid)
    (h : Exclusive s ∧ Compatible s S) :
    Exclusive (rule_only_place_in_column s) ∧ Compatible (rule_only_place_in_column s) S := by
  unfold rule_only_place_in_column
  apply foldl_preserves (fun s => Exclusive s ∧ Compatible s S) _ _ _ h
  intro s j hj h
  have hj9 : j < MAX := by rw [MAX_eq]; exact mem_indices.1 hj
  simp only
  have hF : ∀ k ∈ digits, (columnTally s.q j).count k = 1 →
      S ((columnTally s.q j).pos k) j = k := by
    intro k hk h1
    have hd := mem_digits.1 hk
    obtain ⟨hcand, huniq⟩ := columnTally_one s.q j k hk h1
    obtain ⟨c, hc, hSc, _⟩ := hS.2.1 j hj9 k (by rw [MAX_eq]; omega) hd.1
    have hp := columnTally_pos_lt s.q j k
    apply hidden_single_sound s S k _ j c j h.1 h.2 hk hc hj9 hp hj9 hSc _ hcand
    · intro hcc
      exact ⟨huniq c hc hcc, rfl⟩
    · by_cases e : c = (columnTally s.q j).pos k
      · exact Or.inl ⟨e, rfl⟩
      · exact Or.inr ⟨Or.inl (fun e2 => e e2.symm), Or.inr (Or.inl rfl)⟩
  apply foldl_preserves (fun s => Exclusive s ∧ Compatible s S) _ _ _ h
  intro s2 k hk h2
  split_ifs with h1
  · exact ⟨set_exclusive s2 _ j k (columnTally_pos_lt _ _ _) hj9
        (by rw [MAX_eq]; exact (mem_digits.1 hk).2) h2.1,
      set_compatible S hS s2 _ j k (columnTally_pos_lt _ _ _) hj9 (hF k hk h1) h2.2⟩
  · exact h2

theorem one_sq_in_group_sound (S : Nat → Nat → Nat) (hS : ValidSolution S) (s : Grid)
    (h : Exclusive s ∧ Compatible s S) :
    Exclusive (rule_only_in_one_sq_in_group s) ∧
      Compatible (rule_only_in_one_sq_in_group s) S := by
  unfold rule_only_in_one_sq_in_group
  apply foldl_preserves (fun s => Exclusive s ∧ Compatible s S) _ _ _ h
  intro s i1 hi1 h
  apply foldl_preserves (fun s => Exclusive s ∧ Compatible s S) _ _ _ h
  intro s j1 hj1 h
  simp only
  have hb1 := mem_blockStarts.1 hi1
  have hb2 := mem_blockStarts.1 hj1
  have hF : ∀ k ∈ digits, (sqTally s.q i1 j1).count k = 1 →
      S ((sqTally s.q i1 j1).pos k).1 ((sqTally s.q i1 j1).pos k).2 = k := by
    intro k hk h1
    have hd := mem_digits.1 hk
    obtain ⟨hin, hcand, huniq⟩ := sqTally_one s.q i1 j1 k hk h1
    obtain ⟨a, b, ha1, ha2, hb1', hb2', hSab⟩ :=
      valid_block_exists S hS i1 j1 k hi1 hj1 hd.1 (by rw [MAX_eq]; exact hd.2)
    have hp := sqTally_pos_lt s.q i1 j1 k hi1 hj1
    apply hidden_single_sound s S k _ _ a b h.1 h.2 hk (by rw [MAX_eq]; omega)
      (by rw [MAX_eq]; omega) hp.1 hp.2 hSab _ hcand
    · intro hcc
      exact huniq a b ha1 ha2 hb1' hb2' hcc
    · by_cases e : a = ((sqTally s.q i1 j1).pos k).1 ∧ b = ((sqTally s.q i1 j1).pos k).2
      · exact Or.inl e
      · refine Or.inr ⟨?_, Or.inr (Or.inr ?_)⟩
        · by_contra hcon
          push_neg at hcon
          exact e ⟨hcon.1.symm, hcon.2.symm⟩
        · unfold inBlock
          simp only [STEP_eq]
          omega
  apply foldl_preserves (fun s => Exclusive s ∧ Compatible s S) _ _ _ h
  intro s2 k hk h2
  split_ifs with h1
  · have hp := sqTally_pos_lt s.q i1 j1 k hi1 hj1
    exact ⟨set_exclusive s2 _ _ k hp.1 hp.2 (by rw [MAX_eq]; exact (mem_digits.1 hk).2) h2.1,
      set_compatible S hS s2 _ _ k hp.1 hp.2 (hF k hk h1) h2.2⟩
  · exact h2

theorem countCell_fold (q : Nat → Nat → Nat → Int) (i j : Nat) (ks : List Nat)
    (cn : Nat × Nat) :
    (ks.foldl (fun cn k => if q i j k ≠ 0 then (cn.1 + 1, k) else cn) cn).1
        = cn.1 + ks.countP (fun k => decide (q i j k ≠ 0)) ∧
    ((∃ k ∈ ks, q i j k ≠ 0) →
      (ks.foldl (fun cn k => if q i j k ≠ 0 then (cn.1 + 1, k) else cn) cn).2 ∈ ks ∧
      q i j (ks.foldl (fun cn k => if q i j k ≠ 0 then (cn.1 + 1, k) else cn) cn).2 ≠ 0) ∧
    ((∀ k ∈ ks, q i j k = 0) →
      (ks.foldl (fun cn k => if q i j k ≠ 0 then (cn.1 + 1, k) else cn) cn).2 = cn.2) := by
  induction ks generalizing cn with
  | nil => simp
  | cons k0 ks ih =>
    simp only [List.foldl_cons, List.countP_cons]
    have h := ih (if q i j k0 ≠ 0 then (cn.1 + 1, k0) else cn)
    refine ⟨?_, ?_, ?_⟩
    · rw [h.1]
      by_cases hq : q i j k0 ≠ 0
      · simp [hq]; omega
      · simp [hq]
    · intro hex
      by_cases hrest : ∃ k ∈ ks, q i j k ≠ 0
      · exact ⟨List.mem_cons_of_mem k0 (h.2.1 hrest).1, (h.2.1 hrest).2⟩
      · have hnone : ∀ k ∈ ks, q i j k = 0 := by
          intro k hk
          by_contra hne
          exact hrest ⟨k, hk, hne⟩
        have hq : q i j k0 ≠ 0 := by
          obtain ⟨k, hk, hne⟩ := hex
          rcases List.mem_cons.1 hk with rfl | hin
          · exact hne
          · exact absurd (hnone k hin) hne
        rw [h.2.2 hnone, if_pos hq]
        exact ⟨List.mem_cons_self k0 ks, hq⟩
    · intro hall
      rw [h.2.2 (fun k hk => hall k (List.mem_cons_of_mem k0 hk)),
        if_neg (by simpa using hall k0 (List.mem_cons_self k0 ks))]

/-- When the candidate count of a cell is 1, the recorded digit is the cell's
only candidate among `1..MAX`. -/
theorem countCell_one (q : Nat → Nat → Nat → Int) (i j : Nat)
    (h1 : (countCell q i j).1 = 1) :
    (countCell q i j).2 ∈ digits ∧ q i j (countCell q i j).2 ≠ 0 ∧
      ∀ k ∈ digits, q i j k ≠ 0 → k = (countCell q i j).2 := by
  unfold countCell at h1 ⊢
  have h := countCell_fold q i j digits (0, 0)
  rw [h.1, Nat.zero_add, List.countP_eq_length_filter, List.length_eq_one] at h1
  obtain ⟨z, hz⟩ := h1
  have hmem : ∀ k, (k ∈ digits ∧ q i j k ≠ 0) ↔ k = z := by
    intro k
    have hf : k ∈ List.filter (fun k => decide (q i j k ≠ 0)) digits ↔
        k ∈ digits ∧ decide (q i j k ≠ 0) = true := List.mem_filter
    rw [hz, List.mem_singleton, decide_eq_true_eq] at hf
    exact hf.symm
  have hzz := (hmem z).2 rfl
  have hlast := h.2.1 ⟨z, hzz.1, hzz.2⟩
  refine ⟨hlast.1, hlast.2, ?_⟩
  intro k hk hne
  rw [(hmem k).1 ⟨hk, hne⟩, (hmem _).1 hlast]

theorem digit_in_cell_sound (S : Nat → Nat → Nat) (hS : ValidSolution S) (s : Grid)
    (h : Exclusive s ∧ Compatible s S) :
    Exclusive (rule_only_digit_in_cell s) ∧ Compatible (rule_only_digit_in_cell s) S := by
  unfold rule_only_digit_in_cell
  apply foldl_preserves (fun s => Exclusive s ∧ Compatible s S) _ _ _ h
  intro s i hi h
  have hi9 : i < MAX := by rw [MAX_eq]; exact mem_indices.1 hi
  apply foldl_preserves (fun s => Exclusive s ∧ Compatible s S) _ _ _ h
  intro s j hj h
  have hj9 : j < MAX := by rw [MAX_eq]; exact mem_indices.1 hj
  simp only
  split_ifs with h0 h1
  · obtain ⟨_, _, huniq⟩ := countCell_one s.q i j h1
    have hr := valid_range S hS i j hi9 hj9
    have hSk : S i j = (countCell s.q i j).2 :=
      huniq (S i j) (mem_digits.2 (by rw [MAX_eq] at hr; exact hr)) (h.2 i hi9 j hj9).2
    exact ⟨set_exclusive s i j _ hi9 hj9 (countCell_snd_le _ _ _) h.1,
      set_compatible S hS s i j _ hi9 hj9 hSk h.2⟩
  · exact h
  · exact h

/-- A digit confined to one row of a sub-grid is, in every compatible complete
grid, placed in that row inside the sub-grid, so it is not the digit of a cell
of that row outside the sub-grid. -/
theorem rowPruned_sound (S : Nat → Nat → Nat) (hS : ValidSolution S) (s s2 : Grid)
    (i1 j1 : Nat) (hi1 : i1 ∈ blockStarts) (hj1 : j1 ∈ blockStarts) (hE : Exclusive s)
    (hC : Compatible s S) (h : RowPruned s i1 j1 s2) (i j k : Nat) :
    s2.q i j k = s.q i j k ∨
      (s2.q i j k = 0 ∧ 1 ≤ k ∧ (i < MAX → j < MAX → S i j ≠ k)) := by
  rcases h.2 i j k with e | ⟨e, hk, hj, hout, hconf⟩
  · exact Or.inl e
  · refine Or.inr ⟨e, (mem_digits.1 hk).1, ?_⟩
    intro hi _ hSij
    have hd := mem_digits.1 hk
    have hb1 := mem_blockStarts.1 hi1
    have hb2 := mem_blockStarts.1 hj1
    obtain ⟨⟨a0, b0, ha01, ha02, hb01, hb02, hcand0⟩, hall⟩ := hconf
    simp only [STEP_eq] at ha02 hb02 hout hall
    obtain ⟨a, b, ha1, ha2, hb1', hb2', hSab⟩ :=
      valid_block_exists S hS i1 j1 k hi1 hj1 hd.1 (by rw [MAX_eq]; exact hd.2)
    have ha9 : a < MAX := by rw [MAX_eq]; omega
    have hb9 : b < MAX := by rw [MAX_eq]; omega
    have hflag : s.q a b k ≠ 0 := by
      have := (hC a ha9 b hb9).2
      rw [hSab] at this
      exact this
    by_cases h0 : s.q a b 0 = 0
    · have hai : a = i := hall a b ha1 ha2 hb1' hb2' ⟨h0, hflag⟩
      subst hai
      have := valid_row_unique S hS a b j k ha9 hb9 hj hd.1 (by rw [MAX_eq]; exact hd.2)
        hSab hSij
      omega
    · have hass := (hC a ha9 b hb9).1 h0
      obtain ⟨n, _, _, hn, _, hpeers⟩ := hE a ha9 b hb9 h0
      have hnk : n = k := by
        rw [hass, hSab] at hn
        exact_mod_cast hn.symm
      subst hnk
      by_cases e2 : a0 = a ∧ b0 = b
      · obtain ⟨rfl, rfl⟩ := e2
        exact h0 hcand0.1
      · have hp : peers a b a0 b0 := by
          refine ⟨?_, Or.inr (Or.inr ?_)⟩
          · by_contra hcon
            push_neg at hcon
            exact e2 hcon
          · unfold inBlock
            simp only [STEP_eq]
            omega
        exact hcand0.2 (hpeers a0 (by rw [MAX_eq]; omega) b0 (by rw [MAX_eq]; omega) hp)

theorem columnPruned_sound (S : Nat → Nat → Nat) (hS : ValidSolution S) (s s2 : Grid)
    (i1 j1 : Nat) (hi1 : i1 ∈ blockStarts) (hj1 : j1 ∈ blockStarts) (hE : Exclusive s)
    (hC : Compatible s S) (h : ColumnPruned s i1 j1 s2) (i j k : Nat) :
    s2.q i j k = s.q i j k ∨
      (s2.q i j k = 0 ∧ 1 ≤ k ∧ (i < MAX → j < MAX → S i j ≠ k)) := by
  rcases h.2 i j k with e | ⟨e, hk, hi, hout, hconf⟩
  · exact Or.inl e
  · refine Or.inr ⟨e, (mem_digits.1 hk).1, ?_⟩
    intro _ hj hSij
    have hd := mem_digits.1 hk
    have hb1 := mem_blockStarts.1 hi1
    have hb2 := mem_blockStarts.1 hj1
    obtain ⟨⟨a0, b0, ha01, ha02, hb01, hb02, hcand0⟩, hall⟩ := hconf
    simp only [STEP_eq] at ha02 hb02 hout hall
    obtain ⟨a, b, ha1, ha2, hb1', hb2', hSab⟩ :=
      valid_block_exists S hS i1 j1 k hi1 hj1 hd.1 (by rw [MAX_eq]; exact hd.2)
    have ha9 : a < MAX := by rw [MAX_eq]; omega
    have hb9 : b < MAX := by rw [MAX_eq]; omega
    have hflag : s.q a b k ≠ 0 := by
      have := (hC a ha9 b hb9).2
      rw [hSab] at this
      exact this
    by_cases h0 : s.q a b 0 = 0
    · have hbj : b = j := hall a b ha1 ha2 hb1' hb2' ⟨h0, hflag⟩
      subst hbj
      have := valid_column_unique S hS a i b k ha9 hi hb9 hd.1 (by rw [MAX_eq]; exact hd.2)
        hSab hSij
      omega
    · have hass := (hC a ha9 b hb9).1 h0
      obtain ⟨n, _, _, hn, _, hpeers⟩ := hE a ha9 b hb9 h0
      have hnk : n = k := by
        rw [hass, hSab] at hn
        exact_mod_cast hn.symm
      subst hnk
      by_cases e2 : a0 = a ∧ b0 = b
      · obtain ⟨rfl, rfl⟩ := e2
        exact h0 hcand0.1
      · have hp : peers a b a0 b0 := by
          refine ⟨?_, Or.inr (Or.inr ?_)⟩
          · by_contra hcon
            push_neg at hcon
            exact e2 hcon
          · unfold inBlock
            simp only [STEP_eq]
            omega
        exact hcand0.2 (hpeers a0 (by rw [MAX_eq]; omega) b0 (by rw [MAX_eq]; omega) hp)

theorem one_row_in_group_sound (S : Nat → Nat → Nat) (hS : ValidSolution S) (s : Grid)
    (h : Exclusive s ∧ Compatible s S) :
    Exclusive (rule_only_in_one_row_in_group s) ∧
      Compatible (rule_only_in_one_row_in_group s) S :=
  one_row_in_group_preserves (fun s => Exclusive s ∧ Compatible s S)
    (fun s s2 i1 j1 hi1 hj1 hs hp =>
      ⟨exclusive_of_cleared s s2 hs.1 (rowPruned_safe s s2 i1 j1 hi1 hj1 hs.1 hp),
        compatible_of_cleared s s2 S hs.2
          (rowPruned_sound S hS s s2 i1 j1 hi1 hj1 hs.1 hs.2 hp)⟩) s h

theorem one_column_in_group_sound (S : Nat → Nat → Nat) (hS : ValidSolution S) (s : Grid)
    (h : Exclusive s ∧ Compatible s S) :
    Exclusive (rule_only_in_one_column_in_group s) ∧
      Compatible (rule_only_in_one_column_in_group s) S :=
  one_column_in_group_preserves (fun s => Exclusive s ∧ Compatible s S)
    (fun s s2 i1 j1 hi1 hj1 hs hp =>
      ⟨exclusive_of_cleared s s2 hs.1 (columnPruned_safe s s2 i1 j1 hi1 hj1 hs.1 hp),
        compatible_of_cleared s s2 S hs.2
          (columnPruned_sound S hS s s2 i1 j1 hi1 hj1 hs.1 hs.2 hp)⟩) s h

theorem apply_rules_sound (S : Nat → Nat → Nat) (hS : ValidSolution S) (s : Grid)
    (h : Exclusive s ∧ Compatible s S) :
    Exclusive (apply_rules s) ∧ Compatible (apply_rules s) S := by
  unfold apply_rules
  exact digit_in_cell_sound S hS _ (place_in_column_sound S hS _ (place_in_row_sound S hS _
    (one_sq_in_group_sound S hS _ (one_column_in_group_sound S hS _
      (one_row_in_group_sound S hS _ h)))))

/-! ## The driver -/

theorem reachable_apply_rules (s : Grid) (h : Reachable s) : Reachable (apply_rules s) := by
  unfold apply_rules
  exact Reachable.digit_in_cell _ (Reachable.place_in_column _ (Reachable.place_in_row _
    (Reachable.one_sq_in_group _ (Reachable.one_column_in_group _
      (Reachable.one_row_in_group _ h)))))

theorem readLoop_reachable (cs : List Int) (i : Nat) (j : Int) (s s2 : Grid)
    (hj : j ≤ ((MAX * MAX : Nat) : Int)) (h : Reachable s) (hr : readLoop cs i j s = some s2) :
    Reachable s2 := by
  induction cs generalizing i s with
  | nil =>
    unfold readLoop at hr
    split_ifs at hr
    rw [← Option.some.inj hr]; exact h
  | cons c cs ih =>
    unfold readLoop at hr
    split_ifs at hr with h1 h2
    · apply ih _ _ _ hr
      have hi : i < 81 := by
        simp only [MAX_eq] at hj
        push_cast at hj
        omega
      apply Reachable.assign _ _ _ _ h
      · rw [MAX_eq]; omega
      · rw [MAX_eq]; exact Nat.mod_lt _ (by decide)
      · have := char2num_range c
        rw [MAX_eq] at this ⊢
        omega
    · exact ih _ _ h hr
    · rw [← Option.some.inj hr]; exact h

theorem solveLoop_reachable (fuel : Nat) (s s2 : Grid) (h : Reachable s)
    (hr : solveLoop fuel s = some s2) : Reachable s2 := by
  induction fuel generalizing s with
  | zero => simp [solveLoop] at hr
  | succ fuel ih =>
    unfold solveLoop at hr
    simp only at hr
    split_ifs at hr with h1 h2
    · rw [← Option.some.inj hr]
      exact reachable_apply_rules _ (reachable_apply_rules _ h)
    · exact ih _ (reachable_apply_rules _ h) hr
    · rw [← Option.some.inj hr]; exact h

theorem solve_reachable (fuel : Nat) (cs : List Int) (s : Grid)
    (hr : solve fuel cs = some s) : Reachable s := by
  unfold solve at hr
  obtain ⟨s1, h1, h2⟩ := Option.bind_eq_some.1 hr
  unfold read_input at h1
  exact solveLoop_reachable fuel s1 s
    (readLoop_reachable cs 0 _ initGrid s1 (le_refl _) Reachable.init h1) h2

theorem solved_of_invariants (s : Grid) (hE : Exclusive s)
    (hc : s.notdone = (unassigned s : Int)) (h0 : s.notdone = 0) : Solved s := by
  have hu : unassigned s = 0 := by
    rw [hc] at h0
    exact_mod_cast h0
  have hall : ∀ i < MAX, ∀ j < MAX, s.q i j 0 ≠ 0 := by
    intro i hi j hj
    unfold unassigned at hu
    rw [List.countP_eq_zero] at hu
    have := hu (i, j) ((mem_cells (i, j)).2 ⟨hi, hj⟩)
    simpa using this
  refine ⟨?_, ?_⟩
  · intro i hi j hj
    obtain ⟨n, hn1, hn9, hn, _, _⟩ := hE i hi j hj (hall i hi j hj)
    rw [hn]
    exact ⟨by exact_mod_cast hn1, by exact_mod_cast hn9⟩
  · intro i hi j hj i2 hi2 j2 hj2 hp heq
    obtain ⟨n, _, _, hn, _, hpeers⟩ := hE i hi j hj (hall i hi j hj)
    obtain ⟨n2, _, _, hn2, hflag2, _⟩ := hE i2 hi2 j2 hj2 (hall i2 hi2 j2 hj2)
    have hnn : n = n2 := by
      rw [hn, hn2] at heq
      exact_mod_cast heq
    subst hnn
    exact hflag2 (hpeers i2 hi2 j2 hj2 hp)

/-! ## The claims -/

/-- Claim C1. Soundness of propagation: for every reachable grid state `g` and
every complete valid grid `S` compatible with `g`, the state after one
`apply_rules` pass on `g` is still compatible with `S`: every assigned cell
holds the digit of `S`, and the digit of `S` is still a candidate of every
cell. -/
theorem propagation_sound (g : Grid) (S : Nat → Nat → Nat) (hg : Reachable g)
    (hS : ValidSolution S) (hc : Compatible g S) : Compatible (apply_rules g) S :=
  (apply_rules_sound S hS g ⟨(reachable_invariants g hg).1, hc⟩).2

/-- Claim C2, as amended. In every reachable grid state an assigned cell holds a
digit of `1..MAX` that is still flagged as its candidate; and a successful
`set(x,y,n)` leaves the target cell with `assigned = n`, the flag of `n` at 1
and every other candidate flag of the cell as it was (they are not cleared). -/
theorem assigned_is_candidate (s : Grid) (h : Reachable s) :
    (∀ i < MAX, ∀ j < MAX, s.q i j 0 ≠ 0 →
      ∃ n : Nat, 1 ≤ n ∧ n ≤ MAX ∧ s.q i j 0 = (n : Int) ∧ s.q i j n ≠ 0) ∧
    (∀ x y n, s.q x y n ≠ 0 → s.q x y 0 = 0 →
      (set s x y n).q x y 0 = (n : Int) ∧ (set s x y n).q x y n = 1 ∧
      ∀ k, k ≠ 0 → k ≠ n → (set s x y n).q x y k = s.q x y k) := by
  refine ⟨?_, ?_⟩
  · intro i hi j hj hne
    obtain ⟨n, hn1, hn9, hn, hflag, _⟩ := (reachable_invariants s h).1 i hi j hj hne
    exact ⟨n, hn1, hn9, hn, hflag⟩
  · intro x y n h1 h2
    have hg : s.q x y n ≠ 0 ∧ s.q x y 0 = 0 := ⟨h1, h2⟩
    have hn0 := guard_ne_zero s x y n hg
    refine ⟨?_, ?_, ?_⟩
    · rw [set_q_of_guard s x y n hg]; simp
    · rw [set_q_of_guard s x y n hg]; simp [hn0]
    · intro k hk0 hkn
      rw [set_q_of_guard s x y n hg]
      simp [hk0, hkn]

/-- Claim C3. Count consistency: in every grid state reached from the initial
grid by in-range `set` calls (digit `0..MAX`) and rule passes, `notdone` is the
number of cells whose assigned field is 0. -/
theorem notdone_counts_unassigned (s : Grid) (h : Reachable s) :
    s.notdone = (unassigned s : Int) :=
  (reachable_invariants s h).2

/-- Claim C4. Peer exclusivity of a solved grid: when the solver, run on any
input, ends with `notdone = 0`, every cell is assigned a digit in `1..MAX` and
two distinct cells of one row, one column or one sub-grid hold different
digits. -/
theorem solved_grid_exclusive (fuel : Nat) (cs : List Int) (s : Grid)
    (hr : solve fuel cs = some s) (h0 : s.notdone = 0) : Solved s := by
  have hreach := solve_reachable fuel cs s hr
  exact solved_of_invariants s (reachable_invariants s hreach).1
    (reachable_invariants s hreach).2 h0

theorem digit_in_cell_notdone_le (s : Grid) : (rule_only_digit_in_cell s).notdone ≤ s.notdone :=
  digit_in_cell_closed (fun s2 => s2.notdone ≤ s.notdone)
    (fun s2 x y n _ _ _ h => le_trans (set_notdone_le s2 x y n) h) s (le_refl _)

theorem place_in_row_notdone_le (s : Grid) : (rule_only_place_in_row s).notdone ≤ s.notdone :=
  place_in_row_closed (fun s2 => s2.notdone ≤ s.notdone)
    (fun s2 x y n _ _ _ h => le_trans (set_notdone_le s2 x y n) h) s (le_refl _)

theorem place_in_column_notdone_le (s : Grid) :
    (rule_only_place_in_column s).notdone ≤ s.notdone :=
  place_in_column_closed (fun s2 => s2.notdone ≤ s.notdone)
    (fun s2 x y n _ _ _ h => le_trans (set_notdone_le s2 x y n) h) s (le_refl _)

theorem one_sq_in_group_notdone_le (s : Grid) :
    (rule_only_in_one_sq_in_group s).notdone ≤ s.notdone :=
  one_sq_in_group_closed (fun s2 => s2.notdone ≤ s.notdone)
    (fun s2 x y n _ _ _ h => le_trans (set_notdone_le s2 x y n) h) s (le_refl _)

theorem one_row_in_group_notdone (s : Grid) :
    (rule_only_in_one_row_in_group s).notdone = s.notdone :=
  one_row_in_group_preserves (fun s2 => s2.notdone = s.notdone)
    (fun s1 s2 _ _ _ _ h hp => hp.1.trans h) s rfl

theorem one_column_in_group_notdone (s : Grid) :
    (rule_only_in_one_column_in_group s).notdone = s.notdone :=
  one_column_in_group_preserves (fun s2 => s2.notdone = s.notdone)
    (fun s1 s2 _ _ _ _ h hp => hp.1.trans h) s rfl

theorem apply_rules_notdone_le (s : Grid) : (apply_rules s).notdone ≤ s.notdone := by
  unfold apply_rules
  refine le_trans (digit_in_cell_notdone_le _) ?_
  refine le_trans (place_in_column_notdone_le _) ?_
  refine le_trans (place_in_row_notdone_le _) ?_
  refine le_trans (one_sq_in_group_notdone_le _) ?_
  rw [one_column_in_group_notdone, one_row_in_group_notdone]

/-- Claim C7. Monotonicity of the unresolved count: for every grid state, `set`,
each of the six rule passes and `apply_rules` never increase `notdone`, and so
does any sequence of rule applications. -/
theorem notdone_monotone (s : Grid) :
    (∀ x y n, (set s x y n).notdone ≤ s.notdone) ∧
    (rule_only_digit_in_cell s).notdone ≤ s.notdone ∧
    (rule_only_place_in_row s).notdone ≤ s.notdone ∧
    (rule_only_place_in_column s).notdone ≤ s.notdone ∧
    (rule_only_in_one_row_in_group s).notdone ≤ s.notdone ∧
    (rule_only_in_one_column_in_group s).notdone ≤ s.notdone ∧
    (rule_only_in_one_sq_in_group s).notdone ≤ s.notdone ∧
    (apply_rules s).notdone ≤ s.notdone ∧
    (∀ passes : List (Grid → Grid),
      (∀ f ∈ passes, f ∈ [rule_only_digit_in_cell, rule_only_place_in_row,
        rule_only_place_in_column, rule_only_in_one_row_in_group,
        rule_only_in_one_column_in_group, rule_only_in_one_sq_in_group, apply_rules]) →
      (passes.foldl (fun s f => f s) s).notdone ≤ s.notdone) := by
  refine ⟨set_notdone_le s, digit_in_cell_notdone_le s, place_in_row_notdone_le s,
    place_in_column_notdone_le s, le_of_eq (one_row_in_group_notdone s),
    le_of_eq (one_column_in_group_notdone s), one_sq_in_group_notdone_le s,
    apply_rules_notdone_le s, ?_⟩
  intro passes hp
  apply foldl_preserves (fun s2 : Grid => s2.notdone ≤ s.notdone) _ _ _ (le_refl _)
  intro s2 f hf h
  have hmem := hp f hf
  simp only [List.mem_cons, List.mem_singleton, List.not_mem_nil, or_false] at hmem
  rcases hmem with rfl | rfl | rfl | rfl | rfl | rfl | rfl
  · exact le_trans (digit_in_cell_notdone_le s2) h
  · exact le_trans (place_in_row_notdone_le s2) h
  · exact le_trans (place_in_column_notdone_le s2) h
  · exact le_trans (le_of_eq (one_row_in_group_notdone s2)) h
  · exact le_trans (le_of_eq (one_column_in_group_notdone s2)) h
  · exact le_trans (one_sq_in_group_notdone_le s2) h
  · exact le_trans (apply_rules_notdone_le s2) h

/-- An in-range `set` call either lowers `notdone` or changes nothing. -/
theorem set_stalled : ∀ s0 : Grid,
    SetClosed (fun s2 => s2.notdone ≤ s0.notdone ∧ (s2.notdone = s0.notdone → s2 = s0)) := by
  intro s0 s2 x y n _ _ _ h
  by_cases hg : s2.q x y n ≠ 0 ∧ s2.q x y 0 = 0
  · rw [set_notdone_of_guard s2 x y n hg]
    refine ⟨by omega, ?_⟩
    intro he
    omega
  · rw [set_of_not_guard s2 x y n hg]; exact h

theorem digit_in_cell_stalled (s : Grid)
    (h : (rule_only_digit_in_cell s).notdone = s.notdone) : rule_only_digit_in_cell s = s :=
  (digit_in_cell_closed _ (set_stalled s) s ⟨le_refl _, fun _ => rfl⟩).2 h

theorem place_in_row_stalled (s : Grid)
    (h : (rule_only_place_in_row s).notdone = s.notdone) : rule_only_place_in_row s = s :=
  (place_in_row_closed _ (set_stalled s) s ⟨le_refl _, fun _ => rfl⟩).2 h

theorem place_in_column_stalled (s : Grid)
    (h : (rule_only_place_in_column s).notdone = s.notdone) : rule_only_place_in_column s = s :=
  (place_in_column_closed _ (set_stalled s) s ⟨le_refl _, fun _ => rfl⟩).2 h

theorem one_sq_in_group_stalled (s : Grid)
    (h : (rule_only_in_one_sq_in_group s).notdone = s.notdone) :
    rule_only_in_one_sq_in_group s = s :=
  (one_sq_in_group_closed _ (set_stalled s) s ⟨le_refl _, fun _ => rfl⟩).2 h

/-- A pointing pass along rows only clears candidate flags. -/
theorem one_row_in_group_clears (s : Grid) (i j k : Nat) :
    (rule_only_in_one_row_in_group s).q i j 0 = s.q i j 0 ∧
    ((rule_only_in_one_row_in_group s).q i j k = s.q i j k ∨
      (rule_only_in_one_row_in_group s).q i j k = 0) :=
  one_row_in_group_preserves
    (fun s2 => s2.q i j 0 = s.q i j 0 ∧ (s2.q i j k = s.q i j k ∨ s2.q i j k = 0))
    (fun s1 s2 i1 j1 _ _ h hp => by
      refine ⟨(rowPruned_zero s1 s2 i1 j1 hp i j).trans h.1, ?_⟩
      rcases hp.2 i j k with e | e
      · rw [e]; exact h.2
      · exact Or.inr e.1) s ⟨rfl, Or.inl rfl⟩

/-- A pointing pass along columns only clears candidate flags. -/
theorem one_column_in_group_clears (s : Grid) (i j k : Nat) :
    (rule_only_in_one_column_in_group s).q i j 0 = s.q i j 0 ∧
    ((rule_only_in_one_column_in_group s).q i j k = s.q i j k ∨
      (rule_only_in_one_column_in_group s).q i j k = 0) :=
  one_column_in_group_preserves
    (fun s2 => s2.q i j 0 = s.q i j 0 ∧ (s2.q i j k = s.q i j k ∨ s2.q i j k = 0))
    (fun s1 s2 i1 j1 _ _ h hp => by
      refine ⟨(columnPruned_zero s1 s2 i1 j1 hp i j).trans h.1, ?_⟩
      rcases hp.2 i j k with e | e
      · rw [e]; exact h.2
      · exact Or.inr e.1) s ⟨rfl, Or.inl rfl⟩

/-- A pass that leaves `notdone` unchanged is made of its two pointing passes
only: the four assigning passes changed nothing. -/
theorem apply_rules_stalled (g : Grid) (h : (apply_rules g).notdone = g.notdone) :
    apply_rules g = rule_only_in_one_column_in_group (rule_only_in_one_row_in_group g) := by
  have e2 : (rule_only_in_one_column_in_group (rule_only_in_one_row_in_group g)).notdone
      = g.notdone := by
    rw [one_column_in_group_notdone, one_row_in_group_notdone]
  unfold apply_rules at h ⊢
  have l6 := digit_in_cell_notdone_le (rule_only_place_in_column (rule_only_place_in_row
    (rule_only_in_one_sq_in_group (rule_only_in_one_column_in_group
      (rule_only_in_one_row_in_group g)))))
  have l5 := place_in_column_notdone_le (rule_only_place_in_row
    (rule_only_in_one_sq_in_group (rule_only_in_one_column_in_group
      (rule_only_in_one_row_in_group g))))
  have l4 := place_in_row_notdone_le
    (rule_only_in_one_sq_in_group (rule_only_in_one_column_in_group
      (rule_only_in_one_row_in_group g)))
  have l3 := one_sq_in_group_notdone_le (rule_only_in_one_column_in_group
      (rule_only_in_one_row_in_group g))
  have s3 := one_sq_in_group_stalled (rule_only_in_one_column_in_group
      (rule_only_in_one_row_in_group g)) (by omega)
  rw [s3] at l4 l5 l6 h ⊢
  have s4 := place_in_row_stalled (rule_only_in_one_column_in_group
      (rule_only_in_one_row_in_group g)) (by omega)
  rw [s4] at l5 l6 h ⊢
  have s5 := place_in_column_stalled (rule_only_in_one_column_in_group
      (rule_only_in_one_row_in_group g)) (by omega)
  rw [s5] at l6 h ⊢
  exact digit_in_cell_stalled _ (by omega)

/-- A pass that leaves `notdone` unchanged has, in particular, a sub-grid
hidden-single pass that assigns nothing. -/
theorem apply_rules_stalled_sq (g : Grid) (h : (apply_rules g).notdone = g.notdone) :
    (rule_only_in_one_sq_in_group (rule_only_in_one_column_in_group
      (rule_only_in_one_row_in_group g))).notdone = g.notdone := by
  have e2 : (rule_only_in_one_column_in_group (rule_only_in_one_row_in_group g)).notdone
      = g.notdone := by
    rw [one_column_in_group_notdone, one_row_in_group_notdone]
  unfold apply_rules at h
  have l6 := digit_in_cell_notdone_le (rule_only_place_in_column (rule_only_place_in_row
    (rule_only_in_one_sq_in_group (rule_only_in_one_column_in_group
      (rule_only_in_one_row_in_group g)))))
  have l5 := place_in_column_notdone_le (rule_only_place_in_row
    (rule_only_in_one_sq_in_group (rule_only_in_one_column_in_group
      (rule_only_in_one_row_in_group g))))
  have l4 := place_in_row_notdone_le
    (rule_only_in_one_sq_in_group (rule_only_in_one_column_in_group
      (rule_only_in_one_row_in_group g)))
  have l3 := one_sq_in_group_notdone_le (rule_only_in_one_column_in_group
      (rule_only_in_one_row_in_group g))
  omega

/-- A pass that leaves `notdone` unchanged assigned nothing: every assigned
field is as before and a candidate flag changes only by being cleared. -/
theorem apply_rules_stalled_clears (g : Grid) (h : (apply_rules g).notdone = g.notdone) :
    (∀ i j, (apply_rules g).q i j 0 = g.q i j 0) ∧
    (∀ i j k, (apply_rules g).q i j k = g.q i j k ∨ (apply_rules g).q i j k = 0) := by
  have hs := apply_rules_stalled g h
  refine ⟨?_, ?_⟩
  · intro i j
    rw [hs, (one_column_in_group_clears _ i j 0).1, (one_row_in_group_clears _ i j 0).1]
  · intro i j k
    rw [hs]
    rcases (one_column_in_group_clears (rule_only_in_one_row_in_group g) i j k).2 with e | e
    · rw [e]
      exact (one_row_in_group_clears g i j k).2
    · exact Or.inr e

/-! ## Seeding a complete valid grid -/

theorem initGrid_compatible (G : Nat → Nat → Nat) (hG : ValidSolution G) :
    Compatible initGrid G := by
  intro i hi j hj
  have hr := valid_range G hG i j hi hj
  refine ⟨?_, ?_⟩
  · intro h
    exfalso; apply h
    simp [initGrid]
  · simp only [initGrid]
    rw [if_pos ⟨hi, hj, hr.1, hr.2⟩]
    decide

/-- Reading the characters of a complete valid grid: every `set` call succeeds,
the loop ends with `notdone = 0` and every cell assigned its digit. -/
theorem readLoop_valid (G : Nat → Nat → Nat) (hG : ValidSolution G) (cs : List Int) (i : Nat)
    (s : Grid) (hlen : i + cs.length = 81) (hacc : ∀ c ∈ cs, accepted c = true)
    (hdec : ∀ m < cs.length, (char2num (cs.getD m 0)).toNat = G ((i + m) / MAX) ((i + m) % MAX))
    (hC : Compatible s G)
    (hun : ∀ m, i ≤ m → m < 81 → s.q (m / MAX) (m % MAX) 0 = 0)
    (hass : ∀ m < i, s.q (m / MAX) (m % MAX) 0 = (G (m / MAX) (m % MAX) : Int))
    (hnd : s.notdone = 81 - (i : Int)) :
    ∃ s2, readLoop cs i 81 s = some s2 ∧ s2.notdone = 0 ∧ Compatible s2 G ∧
      ∀ m < 81, s2.q (m / MAX) (m % MAX) 0 = (G (m / MAX) (m % MAX) : Int) := by
  induction cs generalizing i s with
  | nil =>
    simp only [List.length_nil, Nat.add_zero] at hlen
    subst hlen
    refine ⟨s, ?_, ?_, hC, hass⟩
    · unfold readLoop
      rw [if_neg (by omega)]
    · rw [hnd]; omega
  | cons c cs ih =>
    simp only [List.length_cons] at hlen
    have hi : i < 81 := by omega
    have hx : i / MAX < MAX := by rw [MAX_eq]; omega
    have hy : i % MAX < MAX := by rw [MAX_eq]; omega
    have hn : (char2num c).toNat = G (i / MAX) (i % MAX) := by
      have := hdec 0 (by simp)
      simpa using this
    have hguard : s.q (i / MAX) (i % MAX) (char2num c).toNat ≠ 0 ∧
        s.q (i / MAX) (i % MAX) 0 = 0 := by
      refine ⟨?_, hun i (le_refl _) hi⟩
      rw [hn]
      exact (hC _ hx _ hy).2
    unfold readLoop
    rw [if_pos (by omega), if_pos (hacc c (List.mem_cons_self c cs))]
    apply ih (i + 1) _ (by omega)
    · intro c2 hc2
      exact hacc c2 (List.mem_cons_of_mem c hc2)
    · intro m hm
      have := hdec (m + 1) (by simp; omega)
      simp only [List.getD_cons_succ] at this
      rw [this]
      congr 2 <;> omega
    · exact set_compatible G hG s _ _ _ hx hy hn.symm hC
    · intro m hm1 hm2
      have hne : m / MAX ≠ i / MAX ∨ m % MAX ≠ i % MAX := by
        rw [MAX_eq]; omega
      rw [set_q_zero s _ _ _ _ _ hne]
      exact hun m (by omega) hm2
    · intro m hm
      by_cases hmi : m = i
      · subst hmi
        rw [set_q_of_guard s _ _ _ hguard, hn]
        simp
      · have hne : m / MAX ≠ i / MAX ∨ m % MAX ≠ i % MAX := by
          rw [MAX_eq]; omega
        rw [set_q_zero s _ _ _ _ _ hne]
        exact hass m (by omega)
    · rw [set_notdone_of_guard s _ _ _ hguard, hnd]
      push_cast; ring

theorem fullSolution_valid : ValidSolution fullSolution := by
  decide!

theorem read_fullInput :
    read_input fullInput initGrid = some fullGrid ∧ fullGrid.notdone = 0 := by
  have h := readLoop_valid fullSolution fullSolution_valid fullInput 0 initGrid (by decide)
    (by decide) (by
      intro m _
      unfold fullSolution
      congr 3
      rw [MAX_eq]; omega)
    (initGrid_compatible fullSolution fullSolution_valid)
    (by intro m _ _; simp [initGrid]) (by intro m hm; omega) (by decide)
  obtain ⟨s2, h1, h2, _⟩ := h
  have hr : read_input fullInput initGrid = some s2 := h1
  have hf : fullGrid = s2 := by
    unfold fullGrid
    rw [hr]; rfl
  rw [hf]
  exact ⟨hr, h2⟩

/-- The main loop ends at once on a grid with `notdone = 0`. -/
theorem solveLoop_done (fuel : Nat) (s : Grid) (h : s.notdone = 0) :
    solveLoop (fuel + 1) s = some s := by
  simp [solveLoop, h]

/-! ## Passes that assign nothing -/

theorem foldl_notdone_le {β : Type} (f : Grid → β → Grid)
    (hle : ∀ s b, (f s b).notdone ≤ s.notdone) (l : List β) (s : Grid) :
    (l.foldl f s).notdone ≤ s.notdone := by
  induction l generalizing s with
  | nil => exact le_refl _
  | cons b l ih => exact le_trans (ih (f s b)) (hle s b)

theorem foldl_fixed_of_stalled {β : Type} (f : Grid → β → Grid)
    (hle : ∀ s b, (f s b).notdone ≤ s.notdone)
    (hfix : ∀ s b, (f s b).notdone = s.notdone → f s b = s) (l : List β) (s : Grid)
    (h : (l.foldl f s).notdone = s.notdone) : ∀ b ∈ l, f s b = s := by
  induction l with
  | nil => intro b hb; cases hb
  | cons b0 l ih =>
    have h1 := foldl_notdone_le f hle l (f s b0)
    have h2 := hle s b0
    rw [List.foldl_cons] at h
    have e : f s b0 = s := hfix s b0 (by omega)
    rw [e] at h
    intro b hb
    rcases List.mem_cons.1 hb with rfl | hb
    · exact e
    · exact ih h b hb

theorem foldl_fixed {β : Type} (f : Grid → β → Grid) (l : List β) (s : Grid)
    (h : ∀ b ∈ l, f s b = s) : l.foldl f s = s := by
  induction l with
  | nil => rfl
  | cons b0 l ih =>
    rw [List.foldl_cons, h b0 (List.mem_cons_self _ _)]
    exact ih (fun b hb => h b (List.mem_cons_of_mem _ hb))

theorem sqDigitStep_le (t : Tally (Nat × Nat)) (s : Grid) (k : Nat) :
    (sqDigitStep t s k).notdone ≤ s.notdone := by
  unfold sqDigitStep
  split_ifs
  · exact set_notdone_le s _ _ k
  · exact le_refl _

theorem set_fixed_of_stalled (s : Grid) (x y n : Nat)
    (h : (set s x y n).notdone = s.notdone) : set s x y n = s := by
  by_cases hg : s.q x y n ≠ 0 ∧ s.q x y 0 = 0
  · rw [set_notdone_of_guard s x y n hg] at h
    omega
  · exact set_of_not_guard s x y n hg

theorem sqDigitStep_fixed (t : Tally (Nat × Nat)) (s : Grid) (k : Nat)
    (h : (sqDigitStep t s k).notdone = s.notdone) : sqDigitStep t s k = s := by
  unfold sqDigitStep at h ⊢
  split_ifs with hc
  · rw [if_pos hc] at h
    exact set_fixed_of_stalled s _ _ k h
  · rfl

/-- When the sub-grid hidden-single pass leaves `notdone` unchanged, no sub-grid
has a digit with exactly one place that `set` would accept. -/
theorem one_sq_in_group_stalled_at (s : Grid)
    (h : (rule_only_in_one_sq_in_group s).notdone = s.notdone)
    (i1 j1 k : Nat) (hi : i1 ∈ blockStarts) (hj : j1 ∈ blockStarts) (hk : k ∈ digits)
    (hc : (sqTally s.q i1 j1).count k = 1) :
    ¬ (s.q ((sqTally s.q i1 j1).pos k).1 ((sqTally s.q i1 j1).pos k).2 k ≠ 0 ∧
       s.q ((sqTally s.q i1 j1).pos k).1 ((sqTally s.q i1 j1).pos k).2 0 = 0) := by
  have hleB : ∀ (i1 : Nat) (s : Grid) (j1 : Nat),
      (digits.foldl (sqDigitStep (sqTally s.q i1 j1)) s).notdone ≤ s.notdone :=
    fun i1 s j1 => foldl_notdone_le _ (sqDigitStep_le _) digits s
  have hfixB : ∀ (i1 : Nat) (s : Grid) (j1 : Nat),
      (digits.foldl (sqDigitStep (sqTally s.q i1 j1)) s).notdone = s.notdone →
      digits.foldl (sqDigitStep (sqTally s.q i1 j1)) s = s :=
    fun i1 s j1 h => foldl_fixed _ digits s
      (foldl_fixed_of_stalled _ (sqDigitStep_le _) (sqDigitStep_fixed _) digits s h)
  have hleI : ∀ (s : Grid) (i1 : Nat),
      (blockStarts.foldl (fun s j1 => digits.foldl (sqDigitStep (sqTally s.q i1 j1)) s) s).notdone
        ≤ s.notdone :=
    fun s i1 => foldl_notdone_le _ (hleB i1) blockStarts s
  have hfixI : ∀ (s : Grid) (i1 : Nat),
      (blockStarts.foldl (fun s j1 => digits.foldl (sqDigitStep (sqTally s.q i1 j1)) s) s).notdone
        = s.notdone →
      blockStarts.foldl (fun s j1 => digits.foldl (sqDigitStep (sqTally s.q i1 j1)) s) s = s :=
    fun s i1 h => foldl_fixed _ blockStarts s
      (foldl_fixed_of_stalled _ (hleB i1) (hfixB i1) blockStarts s h)
  have e1 := foldl_fixed_of_stalled
    (fun s i1 => blockStarts.foldl
      (fun s j1 => digits.foldl (sqDigitStep (sqTally s.q i1 j1)) s) s)
    hleI hfixI blockStarts s h i1 hi
  simp only at e1
  have e2 := foldl_fixed_of_stalled
    (fun s j1 => digits.foldl (sqDigitStep (sqTally s.q i1 j1)) s)
    (hleB i1) (hfixB i1) blockStarts s (by rw [e1]) j1 hj
  simp only at e2
  have e3 := foldl_fixed_of_stalled (sqDigitStep (sqTally s.q i1 j1))
    (sqDigitStep_le _) (sqDigitStep_fixed _) digits s (by rw [e2]) k hk
  intro hg
  unfold sqDigitStep at e3
  rw [if_pos hc] at e3
  have hn := set_notdone_of_guard s _ _ k hg
  rw [e3] at hn
  omega

/-! ## Witnesses and counterexamples -/

theorem reachable_first_clue : Reachable (set initGrid 0 0 5) :=
  Reachable.assign initGrid 0 0 5 Reachable.init (by decide) (by decide) (by decide)

/-- Witness for `propagation_sound`: the initial grid with the first clue of
`fullSolution` set. -/
theorem propagation_sound_witness :
    (Reachable (set initGrid 0 0 5) ∧ ValidSolution fullSolution ∧
      Compatible (set initGrid 0 0 5) fullSolution) ∧
    Compatible (apply_rules (set initGrid 0 0 5)) fullSolution :=
  have hc : Compatible (set initGrid 0 0 5) fullSolution :=
    set_compatible fullSolution fullSolution_valid initGrid 0 0 5 (by decide) (by decide)
      (by decide) (initGrid_compatible fullSolution fullSolution_valid)
  ⟨⟨reachable_first_clue, fullSolution_valid, hc⟩,
    propagation_sound (set initGrid 0 0 5) fullSolution reachable_first_clue
      fullSolution_valid hc⟩

/-- Counterexample to claim C2 as stated: after the successful `set(0,0,5)` on
the initial grid, cell `(0,0)` is assigned 5 while digit 1 is still flagged as
its candidate, so its candidate set is not `{5}`. -/
theorem set_keeps_other_candidates :
    Reachable (set initGrid 0 0 5) ∧
    (initGrid.q 0 0 5 ≠ 0 ∧ initGrid.q 0 0 0 = 0) ∧
    (set initGrid 0 0 5).q 0 0 0 = 5 ∧
    (set initGrid 0 0 5).q 0 0 1 ≠ 0 ∧
    ¬ CandidatesExact (set initGrid 0 0 5) 0 0 := by
  have h0 : (set initGrid 0 0 5).q 0 0 0 = 5 := by decide
  have h1 : (set initGrid 0 0 5).q 0 0 1 ≠ 0 := by decide
  refine ⟨reachable_first_clue, by decide, h0, h1, ?_⟩
  intro hex
  have h5 := (hex 1 (by decide) (by decide)).1 h1
  rw [h0] at h5
  exact absurd h5 (by decide)

/-- Witness for `assigned_is_candidate`: the initial grid after `set(0,0,5)`. -/
theorem assigned_is_candidate_witness :
    Reachable (set initGrid 0 0 5) ∧
    ((∀ i < MAX, ∀ j < MAX, (set initGrid 0 0 5).q i j 0 ≠ 0 →
      ∃ n : Nat, 1 ≤ n ∧ n ≤ MAX ∧ (set initGrid 0 0 5).q i j 0 = (n : Int) ∧
        (set initGrid 0 0 5).q i j n ≠ 0) ∧
    (∀ x y n, (set initGrid 0 0 5).q x y n ≠ 0 → (set initGrid 0 0 5).q x y 0 = 0 →
      (set (set initGrid 0 0 5) x y n).q x y 0 = (n : Int) ∧
      (set (set initGrid 0 0 5) x y n).q x y n = 1 ∧
      ∀ k, k ≠ 0 → k ≠ n →
        (set (set initGrid 0 0 5) x y n).q x y k = (set initGrid 0 0 5).q x y k)) :=
  ⟨reachable_first_clue, assigned_is_candidate (set initGrid 0 0 5) reachable_first_clue⟩

/-- Witness for `notdone_counts_unassigned`: the initial grid after
`set(0,0,5)` and one `apply_rules` pass. -/
theorem notdone_counts_unassigned_witness :
    Reachable (apply_rules (set initGrid 0 0 5)) ∧
    (apply_rules (set initGrid 0 0 5)).notdone
      = (unassigned (apply_rules (set initGrid 0 0 5)) : Int) :=
  ⟨reachable_apply_rules _ reachable_first_clue,
    notdone_counts_unassigned _ (reachable_apply_rules _ reachable_first_clue)⟩

theorem solve_fullInput : solve 1 fullInput = some fullGrid := by
  unfold solve
  rw [read_fullInput.1, Option.some_bind]
  exact solveLoop_done 0 fullGrid read_fullInput.2

/-- Witness for `solved_grid_exclusive`: on the 81 characters of a complete
valid grid the solver ends with `notdone = 0`. -/
theorem solved_grid_exclusive_witness :
    solve 1 fullInput = some fullGrid ∧ fullGrid.notdone = 0 ∧ Solved fullGrid :=
  ⟨solve_fullInput, read_fullInput.2,
    solved_grid_exclusive 1 fullInput fullGrid solve_fullInput read_fullInput.2⟩

/-! ## Frame of `set` and monotonicity of the grid -/

theorem advances_refl (s : Grid) : Advances s s :=
  ⟨fun _ _ _ _ h => h, fun _ _ => Or.inl rfl⟩

theorem advances_trans (s s2 s3 : Grid) (h1 : Advances s s2) (h2 : Advances s2 s3) :
    Advances s s3 := by
  refine ⟨fun i j k hk h => h2.1 i j k hk (h1.1 i j k hk h), ?_⟩
  intro i j
  rcases h1.2 i j with e1 | ⟨z1, n1, hn1, hn1m, e1, c1⟩
  · rcases h2.2 i j with e2 | ⟨z2, n2, hn2, hn2m, e2, c2⟩
    · exact Or.inl (e2.trans e1)
    · refine Or.inr ⟨e1 ▸ z2, n2, hn2, hn2m, e2, ?_⟩
      intro hz
      exact c2 (h1.1 i j n2 (by omega) hz)
  · rcases h2.2 i j with e2 | ⟨z2, _⟩
    · exact Or.inr ⟨z1, n1, hn1, hn1m, e2.trans e1, c1⟩
    · rw [e1] at z2
      exfalso
      have : (n1 : Int) ≠ 0 := by omega
      exact this z2

theorem set_flag_zero (s : Grid) (x y n i j k : Nat) (hk : k ≠ 0) (h : s.q i j k = 0) :
    (set s x y n).q i j k = 0 := by
  by_cases hg : s.q x y n ≠ 0 ∧ s.q x y 0 = 0
  · rw [set_q_of_guard s x y n hg]
    split_ifs with h1 h2 h3
    · exact absurd h1.2.2 hk
    · obtain ⟨rfl, rfl, rfl⟩ := h2
      exact absurd h hg.1
    · rfl
    · exact h
  · rw [set_of_not_guard s x y n hg]; exact h

theorem set_assigned_kept (s : Grid) (x y n i j : Nat) (h : s.q i j 0 ≠ 0) :
    (set s x y n).q i j 0 = s.q i j 0 := by
  by_cases hg : s.q x y n ≠ 0 ∧ s.q x y 0 = 0
  · by_cases hne : i ≠ x ∨ j ≠ y
    · exact set_q_zero s x y n i j hne
    · have hx : i = x := by by_contra hc; exact hne (Or.inl hc)
      have hy : j = y := by by_contra hc; exact hne (Or.inr hc)
      subst hx; subst hy
      exact absurd hg.2 h
  · rw [set_of_not_guard s x y n hg]

theorem set_assigned_change (s : Grid) (x y n i j : Nat)
    (h : (set s x y n).q i j 0 ≠ s.q i j 0) :
    (i = x ∧ j = y) ∧ s.q i j 0 = 0 ∧ 1 ≤ n ∧ (set s x y n).q i j 0 = (n : Int) ∧
      s.q i j n ≠ 0 := by
  by_cases hg : s.q x y n ≠ 0 ∧ s.q x y 0 = 0
  · by_cases hne : i ≠ x ∨ j ≠ y
    · exact absurd (set_q_zero s x y n i j hne) h
    · have hx : i = x := by by_contra hc; exact hne (Or.inl hc)
      have hy : j = y := by by_contra hc; exact hne (Or.inr hc)
      subst hx; subst hy
      have hn0 := guard_ne_zero s i j n hg
      refine ⟨⟨rfl, rfl⟩, hg.2, by omega, ?_, hg.1⟩
      rw [set_q_of_guard s i j n hg, if_pos ⟨rfl, rfl, rfl⟩]
  · rw [set_of_not_guard s x y n hg] at h
    exact absurd rfl h

theorem set_advances (s : Grid) (x y n : Nat) (hn : n ≤ MAX) : Advances s (set s x y n) := by
  refine ⟨fun i j k hk h => set_flag_zero s x y n i j k hk h, ?_⟩
  intro i j
  by_cases h : (set s x y n).q i j 0 = s.q i j 0
  · exact Or.inl h
  · obtain ⟨_, hz, h1, he, hc⟩ := set_assigned_change s x y n i j h
    exact Or.inr ⟨hz, n, h1, hn, he, hc⟩

theorem setClosed_advances (s0 : Grid) : SetClosed (fun s2 => Advances s0 s2) :=
  fun s x y n _ _ hn h => advances_trans s0 s _ h (set_advances s x y n hn)

theorem one_row_in_group_advances (s : Grid) :
    Advances s (rule_only_in_one_row_in_group s) := by
  refine ⟨?_, fun i j => Or.inl (one_row_in_group_clears s i j 0).1⟩
  intro i j k _ h
  rcases (one_row_in_group_clears s i j k).2 with e | e
  · rw [e]; exact h
  · exact e

theorem one_column_in_group_advances (s : Grid) :
    Advances s (rule_only_in_one_column_in_group s) := by
  refine ⟨?_, fun i j => Or.inl (one_column_in_group_clears s i j 0).1⟩
  intro i j k _ h
  rcases (one_column_in_group_clears s i j k).2 with e | e
  · rw [e]; exact h
  · exact e

theorem digit_in_cell_advances (s : Grid) : Advances s (rule_only_digit_in_cell s) :=
  digit_in_cell_closed _ (setClosed_advances s) s (advances_refl s)

theorem place_in_row_advances (s : Grid) : Advances s (rule_only_place_in_row s) :=
  place_in_row_closed _ (setClosed_advances s) s (advances_refl s)

theorem place_in_column_advances (s : Grid) : Advances s (rule_only_place_in_column s) :=
  place_in_column_closed _ (setClosed_advances s) s (advances_refl s)

theorem one_sq_in_group_advances (s : Grid) : Advances s (rule_only_in_one_sq_in_group s) :=
  one_sq_in_group_closed _ (setClosed_advances s) s (advances_refl s)

theorem apply_rules_advances (s : Grid) : Advances s (apply_rules s) := by
  unfold apply_rules
  refine advances_trans _ _ _ ?_ (digit_in_cell_advances _)
  refine advances_trans _ _ _ ?_ (place_in_column_advances _)
  refine advances_trans _ _ _ ?_ (place_in_row_advances _)
  refine advances_trans _ _ _ ?_ (one_sq_in_group_advances _)
  exact advances_trans _ _ _ (one_row_in_group_advances s) (one_column_in_group_advances _)

theorem advances_assigned (s s2 : Grid) (h : Advances s s2) (i j : Nat) (ha : s.q i j 0 ≠ 0) :
    s2.q i j 0 = s.q i j 0 := by
  rcases h.2 i j with e | ⟨z, _⟩
  · exact e
  · exact absurd z ha

theorem advances_change (s s2 : Grid) (h : Advances s s2) (i j : Nat)
    (hc : s2.q i j 0 ≠ s.q i j 0) :
    s.q i j 0 = 0 ∧ ∃ n : Nat, 1 ≤ n ∧ n ≤ MAX ∧ s2.q i j 0 = (n : Int) ∧ s.q i j n ≠ 0 := by
  rcases h.2 i j with e | e
  · exact absurd e hc
  · exact e

/-- Claim C17. Frame of `set`: for every grid state and all arguments, `set(x,y,n)`
leaves unchanged the assigned field of every cell other than `(x,y)`, the flag
of every digit other than `n` in every cell, the target cell included, and the
flag of `n` in every cell that is not in row `x`, column `y` or the sub-grid of
`(x,y)`. -/
theorem set_frame (s : Grid) (x y n : Nat) :
    (∀ i j, (i ≠ x ∨ j ≠ y) → (set s x y n).q i j 0 = s.q i j 0) ∧
    (∀ i j k, k ≠ 0 → k ≠ n → (set s x y n).q i j k = s.q i j k) ∧
    (∀ i j, i ≠ x → j ≠ y → ¬ inBlock x y i j → (set s x y n).q i j n = s.q i j n) := by
  refine ⟨fun i j hne => set_q_zero s x y n i j hne, ?_, ?_⟩
  · intro i j k hk hkn
    by_cases hg : s.q x y n ≠ 0 ∧ s.q x y 0 = 0
    · rw [set_q_of_guard s x y n hg]
      split_ifs with h1 h2 h3
      · exact absurd h1.2.2 hk
      · exact absurd h2.2.2 hkn
      · exact absurd h3.1 hkn
      · rfl
    · rw [set_of_not_guard s x y n hg]
  · intro i j hi hj hb
    by_cases hg : s.q x y n ≠ 0 ∧ s.q x y 0 = 0
    · rw [set_q_of_guard s x y n hg]
      split_ifs with h1 h2 h3
      · exact absurd h1.1 hi
      · exact absurd h2.1 hi
      · exfalso
        rcases h3.2 with h | h | h
        · exact hi h.1
        · exact hj h.1
        · exact hb h
      · rfl
    · rw [set_of_not_guard s x y n hg]

/-- Claim C18. Assignments are never overwritten: a cell whose assigned field is
non-zero keeps it through any `set` call, whatever the arguments, through each
of the six rule passes and through `apply_rules`; and when an assigned field
changes, it was 0 and becomes a digit `1..MAX` that was a candidate of the cell
(for a `set` call: the digit `n` of the call, at the cell of the call). -/
theorem assigned_never_overwritten (s : Grid) :
    (∀ x y n i j, s.q i j 0 ≠ 0 → (set s x y n).q i j 0 = s.q i j 0) ∧
    (∀ x y n i j, (set s x y n).q i j 0 ≠ s.q i j 0 →
      (i = x ∧ j = y) ∧ s.q i j 0 = 0 ∧ 1 ≤ n ∧ (set s x y n).q i j 0 = (n : Int) ∧
        s.q i j n ≠ 0) ∧
    (∀ f ∈ [rule_only_digit_in_cell, rule_only_place_in_row, rule_only_place_in_column,
        rule_only_in_one_row_in_group, rule_only_in_one_column_in_group,
        rule_only_in_one_sq_in_group, apply_rules],
      (∀ i j, s.q i j 0 ≠ 0 → (f s).q i j 0 = s.q i j 0) ∧
      (∀ i j, (f s).q i j 0 ≠ s.q i j 0 →
        s.q i j 0 = 0 ∧
          ∃ n : Nat, 1 ≤ n ∧ n ≤ MAX ∧ (f s).q i j 0 = (n : Int) ∧ s.q i j n ≠ 0)) := by
  refine ⟨fun x y n i j h => set_assigned_kept s x y n i j h,
    fun x y n i j h => set_assigned_change s x y n i j h, ?_⟩
  intro f hf
  have ha : Advances s (f s) := by
    simp only [List.mem_cons, List.mem_singleton, List.not_mem_nil, or_false] at hf
    rcases hf with rfl | rfl | rfl | rfl | rfl | rfl | rfl
    · exact digit_in_cell_advances s
    · exact place_in_row_advances s
    · exact place_in_column_advances s
    · exact one_row_in_group_advances s
    · exact one_column_in_group_advances s
    · exact one_sq_in_group_advances s
    · exact apply_rules_advances s
  exact ⟨fun i j h => advances_assigned s _ ha i j h, fun i j h => advances_change s _ ha i j h⟩

/-- Claim C19. Candidates only shrink: for every grid state, cell and digit
`k ≠ 0`, a flag `q[i][j][k]` that is 0 is still 0 after any `set` call, after
each of the six rule passes and after `apply_rules`. -/
theorem candidates_only_shrink (s : Grid) (i j k : Nat) (hk : k ≠ 0) (h : s.q i j k = 0) :
    (∀ x y n, (set s x y n).q i j k = 0) ∧
    (rule_only_digit_in_cell s).q i j k = 0 ∧
    (rule_only_place_in_row s).q i j k = 0 ∧
    (rule_only_place_in_column s).q i j k = 0 ∧
    (rule_only_in_one_row_in_group s).q i j k = 0 ∧
    (rule_only_in_one_column_in_group s).q i j k = 0 ∧
    (rule_only_in_one_sq_in_group s).q i j k = 0 ∧
    (apply_rules s).q i j k = 0 :=
  ⟨fun x y n => set_flag_zero s x y n i j k hk h,
    (digit_in_cell_advances s).1 i j k hk h, (place_in_row_advances s).1 i j k hk h,
    (place_in_column_advances s).1 i j k hk h, (one_row_in_group_advances s).1 i j k hk h,
    (one_column_in_group_advances s).1 i j k hk h, (one_sq_in_group_advances s).1 i j k hk h,
    (apply_rules_advances s).1 i j k hk h⟩

theorem exclusive_distinct (s : Grid) (hE : Exclusive s) (i j i2 j2 : Nat) (hi : i < MAX)
    (hj : j < MAX) (hi2 : i2 < MAX) (hj2 : j2 < MAX) (hp : peers i j i2 j2)
    (ha : s.q i j 0 ≠ 0) : s.q i j 0 ≠ s.q i2 j2 0 := by
  intro he
  obtain ⟨n, _, _, en, _, hpe⟩ := hE i hi j hj ha
  obtain ⟨n2, _, _, en2, hc2, _⟩ := hE i2 hi2 j2 hj2 (he ▸ ha)
  have hnn : n2 = n := by
    have : (n2 : Int) = (n : Int) := by rw [← en2, ← en, he]
    exact_mod_cast this
  rw [hnn] at hc2
  exact hc2 (hpe i2 hi2 j2 hj2 hp)

/-- Claim C20. Assigned digits stay excluded from peers: in every reachable grid
state, a cell assigned a non-zero digit `n` has `n` in `1..MAX` still flagged in
the cell itself, `n` is flagged in no other cell of its row, column or
sub-grid, and no two distinct cells that share a row, a column or a sub-grid
hold the same non-zero assigned digit. -/
theorem assigned_excluded_from_peers (s : Grid) (h : Reachable s) :
    (∀ i < MAX, ∀ j < MAX, s.q i j 0 ≠ 0 →
      ∃ n : Nat, 1 ≤ n ∧ n ≤ MAX ∧ s.q i j 0 = (n : Int) ∧ s.q i j n ≠ 0 ∧
        ∀ i2 < MAX, ∀ j2 < MAX, peers i j i2 j2 → s.q i2 j2 n = 0) ∧
    (∀ i < MAX, ∀ j < MAX, ∀ i2 < MAX, ∀ j2 < MAX, peers i j i2 j2 → s.q i j 0 ≠ 0 →
      s.q i j 0 ≠ s.q i2 j2 0) :=
  ⟨(reachable_invariants s h).1,
    fun i hi j hj i2 hi2 j2 hj2 hp ha =>
      exclusive_distinct s (reachable_invariants s h).1 i j i2 j2 hi hj hi2 hj2 hp ha⟩

/-! ## The pointing rule along columns -/

theorem one_column_in_group_eq_blocks (s : Grid) :
    rule_only_in_one_column_in_group s
      = blockStarts.foldl (fun s i1 =>
          blockStarts.foldl (fun s j1 => one_column_in_group_block s i1 j1) s) s := by
  rfl

theorem one_column_in_group_block_q (s : Grid) (i1 j1 : Nat) :
    (one_column_in_group_block s i1 j1).notdone = s.notdone ∧
    ∀ i j k, (one_column_in_group_block s i1 j1).q i j k
      = if k ∈ digits ∧ (columnGroupTally s.q i1 j1).count k = 1 ∧
            j = ((columnGroupTally s.q i1 j1).pos k).toNat ∧
            (i < i1 ∨ (i1 + STEP ≤ i ∧ i < MAX)) then 0
        else s.q i j k :=
  columnClear_fold (columnGroupTally s.q i1 j1) i1 digits s

theorem lineValues_cons (q : Nat → Nat → Nat → Int) (k : Nat) (c : Nat × Nat × Nat)
    (cs : List (Nat × Nat × Nat)) :
    lineValues q k (c :: cs)
      = if candidateAt q c.1 c.2.1 k then c.2.2 :: lineValues q k cs else lineValues q k cs := by
  unfold lineValues
  by_cases h : candidateAt q c.1 c.2.1 k
  · rw [if_pos h, List.filter_cons_of_pos (by simpa using h), List.map_cons]
  · rw [if_neg h, List.filter_cons_of_neg (by simpa using h)]

theorem mem_lineValues (q : Nat → Nat → Nat → Int) (k : Nat) (cs : List (Nat × Nat × Nat))
    (v : Nat) :
    v ∈ lineValues q k cs ↔ ∃ c ∈ cs, candidateAt q c.1 c.2.1 k ∧ c.2.2 = v := by
  unfold lineValues
  simp only [List.mem_map, List.mem_filter, decide_eq_true_eq]
  constructor
  · rintro ⟨c, ⟨h1, h2⟩, h3⟩
    exact ⟨c, h1, h2, h3⟩
  · rintro ⟨c, h1, h2, h3⟩
    exact ⟨c, ⟨h1, h2⟩, h3⟩

/-- The count of a pointing scan is at least the number of distinct lines that
hold a candidate cell. -/
theorem lineScan_distinct_le (q : Nat → Nat → Nat → Int) (k : Nat) (hk : k ∈ digits)
    (cs : List (Nat × Nat × Nat)) (t : Tally Int) :
    t.count k + (lineValues q k cs).toFinset.card
      ≤ (lineScan q cs t).count k +
        (if ∃ v ∈ lineValues q k cs, (v : Int) = t.pos k then 1 else 0) := by
  induction cs generalizing t with
  | nil => simp [lineScan, lineValues]
  | cons c cs ih =>
    rw [lineScan_cons, lineValues_cons]
    have e1 := lineStep_count q c t k hk
    have e2 := lineStep_pos q c t k hk
    have key := ih (if q c.1 c.2.1 0 = 0 then tallyLine q c.1 c.2.1 c.2.2 t else t)
    by_cases hc : candidateAt q c.1 c.2.1 k
    · rw [if_pos hc, List.toFinset_cons]
      by_cases hp : t.pos k = (c.2.2 : Int)
      · have hcn : ¬ (candidateAt q c.1 c.2.1 k ∧ t.pos k ≠ (c.2.2 : Int)) := fun h => h.2 hp
        rw [if_neg hcn] at e1 e2
        rw [e1, e2] at key
        have hex : ∃ v ∈ c.2.2 :: lineValues q k cs, (v : Int) = t.pos k :=
          ⟨c.2.2, List.mem_cons_self _ _, hp.symm⟩
        rw [if_pos hex]
        by_cases hv : c.2.2 ∈ (lineValues q k cs).toFinset
        · rw [Finset.card_insert_of_mem hv]
          have hex2 : ∃ v ∈ lineValues q k cs, (v : Int) = t.pos k :=
            ⟨c.2.2, List.mem_toFinset.1 hv, hp.symm⟩
          rw [if_pos hex2] at key
          exact key
        · rw [Finset.card_insert_of_not_mem hv]
          have hex2 : ¬ ∃ v ∈ lineValues q k cs, (v : Int) = t.pos k := by
            rintro ⟨v, hv1, hv2⟩
            have : v = c.2.2 := by
              have : (v : Int) = (c.2.2 : Int) := hv2.trans hp
              exact_mod_cast this
            rw [this] at hv1
            exact hv (List.mem_toFinset.2 hv1)
          rw [if_neg hex2] at key
          omega
      · have hcn : candidateAt q c.1 c.2.1 k ∧ t.pos k ≠ (c.2.2 : Int) := ⟨hc, hp⟩
        rw [if_pos hcn] at e1 e2
        rw [e1, e2] at key
        by_cases hv : c.2.2 ∈ (lineValues q k cs).toFinset
        · rw [Finset.card_insert_of_mem hv]
          have hex2 : ∃ v ∈ lineValues q k cs, (v : Int) = (c.2.2 : Int) :=
            ⟨c.2.2, List.mem_toFinset.1 hv, rfl⟩
          rw [if_pos hex2] at key
          omega
        · rw [Finset.card_insert_of_not_mem hv]
          have hex2 : ¬ ∃ v ∈ lineValues q k cs, (v : Int) = (c.2.2 : Int) := by
            rintro ⟨v, hv1, hv2⟩
            have : v = c.2.2 := by exact_mod_cast hv2
            rw [this] at hv1
            exact hv (List.mem_toFinset.2 hv1)
          rw [if_neg hex2] at key
          omega
    · rw [if_neg hc]
      have hcn : ¬ (candidateAt q c.1 c.2.1 k ∧ t.pos k ≠ (c.2.2 : Int)) := fun h => hc h.1
      rw [if_neg hcn] at e1 e2
      rw [e1, e2] at key
      exact key

theorem distinctColumns_eq_card (q : Nat → Nat → Nat → Int) (i1 j1 k : Nat) :
    distinctColumns q i1 j1 k
      = (lineValues q k (blockCells i1 j1 (fun _ j => j))).toFinset.card := by
  unfold distinctColumns
  rw [List.card_toFinset]

theorem columnConfined_iff_values (q : Nat → Nat → Nat → Int) (i1 j1 k c : Nat) :
    columnConfined q i1 j1 k c ↔
      (lineValues q k (blockCells i1 j1 (fun _ j => j))).toFinset = {c} := by
  rw [Finset.eq_singleton_iff_unique_mem]
  simp only [List.mem_toFinset, mem_lineValues, mem_blockCells]
  unfold columnConfined
  rw [STEP_eq]
  constructor
  · rintro ⟨⟨a, b, h1, h2, h3, h4, h5⟩, hall⟩
    refine ⟨⟨(a, b, b), ⟨⟨h1, h2, h3, h4⟩, rfl⟩, h5, hall a b h1 h2 h3 h4 h5⟩, ?_⟩
    rintro v ⟨⟨a2, b2, v2⟩, ⟨⟨g1, g2, g3, g4⟩, g5⟩, g6, g7⟩
    simp only at g1 g2 g3 g4 g5 g6 g7
    rw [← g7, g5]
    exact hall a2 b2 g1 g2 g3 g4 g6
  · rintro ⟨⟨⟨a, b, v⟩, ⟨⟨g1, g2, g3, g4⟩, g5⟩, g6, g7⟩, hall⟩
    simp only at g1 g2 g3 g4 g5 g6 g7
    refine ⟨⟨a, b, g1, g2, g3, g4, g6⟩, ?_⟩
    intro a2 b2 h1 h2 h3 h4 h5
    exact hall b2 ⟨(a2, b2, b2), ⟨⟨h1, h2, h3, h4⟩, rfl⟩, h5, rfl⟩

/-- What `count[k]` of the column scan does determine: it is 0 exactly when no
column of the sub-grid holds an unassigned cell with candidate `k`, it is 1
exactly when one column does, and it is never below the number of such
columns. -/
theorem column_count_single (q : Nat → Nat → Nat → Int) (i1 j1 k : Nat) (hk : k ∈ digits) :
    ((columnGroupTally q i1 j1).count k = 0 ↔ distinctColumns q i1 j1 k = 0) ∧
    ((columnGroupTally q i1 j1).count k = 1 ↔ distinctColumns q i1 j1 k = 1) ∧
    distinctColumns q i1 j1 k ≤ (columnGroupTally q i1 j1).count k := by
  have hle := lineScan_distinct_le q k hk (blockCells i1 j1 (fun _ j => j))
    { count := fun _ => 0, pos := fun _ => -1 }
  have hno : ¬ ∃ v ∈ lineValues q k (blockCells i1 j1 (fun _ j => j)),
      (v : Int) = ({ count := fun _ => 0, pos := fun _ => -1 } : Tally Int).pos k := by
    rintro ⟨v, _, hv⟩
    simp only at hv
    omega
  rw [if_neg hno, ← columnGroupTally_eq_scan, ← distinctColumns_eq_card] at hle
  simp only [zero_add, add_zero] at hle
  have h1 : (columnGroupTally q i1 j1).count k = 1 ↔ distinctColumns q i1 j1 k = 1 := by
    rw [distinctColumns_eq_card, Finset.card_eq_one]
    constructor
    · intro h
      exact ⟨_, (columnConfined_iff_values q i1 j1 k _).1 (columnGroupTally_one q i1 j1 k hk h)⟩
    · rintro ⟨c, hc⟩
      exact ((columnGroupTally_one_iff q i1 j1 k c hk).2
        ((columnConfined_iff_values q i1 j1 k c).2 hc)).1
  refine ⟨?_, h1, hle⟩
  constructor
  · intro h
    omega
  · intro h
    by_contra hne
    have hz := (lineScan_count_eq_iff q (blockCells i1 j1 (fun _ j => j))
      { count := fun _ => 0, pos := fun _ => -1 } k hk)
    rw [← columnGroupTally_eq_scan] at hz
    rw [distinctColumns_eq_card, Finset.card_eq_zero, List.toFinset_eq_empty_iff] at h
    apply hne
    apply hz.2
    intro c hc hcand
    exfalso
    have : c.2.2 ∈ lineValues q k (blockCells i1 j1 (fun _ j => j)) :=
      (mem_lineValues q k _ _).2 ⟨c, hc, hcand, rfl⟩
    rw [h] at this
    cases this

/-- Claim C16. Trigger and action of the pointing rule along columns at one
sub-grid: the step keeps `notdone` and every assigned field; for a digit `k`
that is a candidate of some unassigned cell of the sub-grid, with all such
cells in one column `c`, it clears `k` in the cells of column `c` outside the
sub-grid and changes no other flag of `k`; for a digit with no such column it
changes no flag. -/
theorem column_pointing_block (s : Grid) (i1 j1 : Nat) (hi1 : i1 ∈ blockStarts) :
    (one_column_in_group_block s i1 j1).notdone = s.notdone ∧
    (∀ i j, (one_column_in_group_block s i1 j1).q i j 0 = s.q i j 0) ∧
    (∀ k ∈ digits, ∀ c, columnConfined s.q i1 j1 k c →
      ∀ i j, (one_column_in_group_block s i1 j1).q i j k
        = if j = c ∧ i < MAX ∧ (i < i1 ∨ i1 + STEP ≤ i) then 0 else s.q i j k) ∧
    (∀ k ∈ digits, (¬ ∃ c, columnConfined s.q i1 j1 k c) →
      ∀ i j, (one_column_in_group_block s i1 j1).q i j k = s.q i j k) := by
  have hq := one_column_in_group_block_q s i1 j1
  have hb := mem_blockStarts.1 hi1
  refine ⟨hq.1, ?_, ?_, ?_⟩
  · intro i j
    rw [hq.2, if_neg]
    rintro ⟨h0, _⟩
    have := (mem_digits.1 h0).1
    omega
  · intro k hk c hc i j
    obtain ⟨h1, hp⟩ := (columnGroupTally_one_iff s.q i1 j1 k c hk).2 hc
    rw [hq.2, hp, Int.toNat_ofNat]
    rw [MAX_eq, STEP_eq]
    split_ifs with h2 h3 h3
    · rfl
    · exfalso; apply h3
      obtain ⟨_, _, h4, h5⟩ := h2
      refine ⟨h4, ?_, ?_⟩ <;> omega
    · exfalso; apply h2
      obtain ⟨h4, h5, h6⟩ := h3
      refine ⟨hk, h1, h4, ?_⟩
      omega
    · rfl
  · intro k hk hno i j
    rw [hq.2, if_neg]
    rintro ⟨_, h1, _⟩
    exact hno ⟨_, columnGroupTally_one s.q i1 j1 k hk h1⟩

theorem column_count_initGrid :
    (columnGroupTally initGrid.q 0 0).count 1 = 9 ∧ distinctColumns initGrid.q 0 0 1 = 3 := by
  decide!

/-! ## Reading the input -/

theorem readLoop_filter (cs : List Int) (i : Nat) (j : Int) (s : Grid) :
    readLoop cs i j s = readLoop (cs.filter accepted) i j s := by
  induction cs generalizing i s with
  | nil => rfl
  | cons c cs ih =>
    by_cases ha : accepted c = true
    · rw [List.filter_cons_of_pos ha]
      unfold readLoop
      by_cases hij : (i : Int) < j
      · rw [if_pos hij, if_pos hij, if_pos ha, if_pos ha]
        exact ih _ _
      · rw [if_neg hij, if_neg hij]
    · rw [List.filter_cons_of_neg ha]
      by_cases hij : (i : Int) < j
      · rw [readLoop, if_pos hij, if_neg ha]
        exact ih _ _
      · rw [readLoop, if_neg hij]
        cases hf : cs.filter accepted with
        | nil => rw [readLoop, if_neg hij]
        | cons c2 cs2 => rw [readLoop, if_neg hij]

theorem readLoop_accepted (cs : List Int) (i n : Nat) (s : Grid)
    (hacc : ∀ c ∈ cs, accepted c = true) (hlen : n ≤ i + cs.length) :
    readLoop cs i (n : Int) s = some (seedFrom (cs.take (n - i)) i s) := by
  induction cs generalizing i s with
  | nil =>
    simp only [List.length_nil, Nat.add_zero] at hlen
    rw [readLoop, if_neg (by omega), List.take_nil]
    rfl
  | cons c cs ih =>
    by_cases hij : i < n
    · rw [readLoop, if_pos (by omega), if_pos (hacc c (List.mem_cons_self c cs))]
      have e : n - i = (n - (i + 1)) + 1 := by omega
      rw [e, List.take_succ_cons]
      rw [ih (i + 1) _ (fun c2 h2 => hacc c2 (List.mem_cons_of_mem c h2))
        (by simp only [List.length_cons] at hlen; omega)]
      rfl
    · rw [readLoop, if_neg (by omega)]
      have e : n - i = 0 := by omega
      rw [e]
      rfl

/-- Claim C14. Input filter: on a list of characters with at least 81 accepted
ones, `read_input` gives the same state as on the list with the characters that
are not accepted removed, and that state is the one obtained by decoding the
`k`-th accepted character, for `k = 0..80`, and calling `set` on cell
`(k / 9, k % 9)` with it. -/
theorem read_input_filter (cs : List Int) (h : 81 ≤ (cs.filter accepted).length) :
    read_input cs initGrid = read_input (cs.filter accepted) initGrid ∧
    read_input cs initGrid = some (seedFrom ((cs.filter accepted).take 81) 0 initGrid) := by
  unfold read_input
  refine ⟨readLoop_filter cs 0 _ initGrid, ?_⟩
  rw [readLoop_filter]
  have hn : initGrid.notdone = ((81 : Nat) : Int) := by decide
  rw [hn]
  exact readLoop_accepted (cs.filter accepted) 0 81 initGrid
    (fun c hc => (List.mem_filter.1 hc).2) (by omega)

/-! ## Seeding a complete grid -/

theorem seedGrid_succ (G : Nat → Nat → Nat) (m : Nat) :
    seedGrid G (m + 1) = set (seedGrid G m) (m / MAX) (m % MAX) (G (m / MAX) (m % MAX)) := by
  unfold seedGrid
  rw [List.range_succ, List.foldl_append]
  rfl

/-- Invariant of the seeding of a valid grid: after `m` calls the first `m`
cells hold the digit of `G`, the other cells are unassigned, every digit of `G`
is still a candidate of its cell, and `notdone` is `81 - m`. -/
theorem seedGrid_invariant (G : Nat → Nat → Nat) (hG : ValidSolution G) (m : Nat)
    (hm : m ≤ 81) :
    Compatible (seedGrid G m) G ∧
    (∀ c, m ≤ c → c < 81 → (seedGrid G m).q (c / MAX) (c % MAX) 0 = 0) ∧
    (∀ c < m, (seedGrid G m).q (c / MAX) (c % MAX) 0 = (G (c / MAX) (c % MAX) : Int)) ∧
    (seedGrid G m).notdone = 81 - (m : Int) := by
  induction m with
  | zero =>
    refine ⟨initGrid_compatible G hG, ?_, ?_, ?_⟩
    · intro c _ _
      simp [seedGrid, initGrid]
    · intro c hc
      omega
    · show initGrid.notdone = 81 - ((0 : Nat) : Int)
      decide
  | succ m ih =>
    obtain ⟨hC, hun, hass, hnd⟩ := ih (by omega)
    have hx : m / MAX < MAX := by rw [MAX_eq]; omega
    have hy : m % MAX < MAX := by rw [MAX_eq]; omega
    have hguard : (seedGrid G m).q (m / MAX) (m % MAX) (G (m / MAX) (m % MAX)) ≠ 0 ∧
        (seedGrid G m).q (m / MAX) (m % MAX) 0 = 0 :=
      ⟨(hC _ hx _ hy).2, hun m (le_refl _) (by omega)⟩
    rw [seedGrid_succ]
    refine ⟨set_compatible G hG _ _ _ _ hx hy rfl hC, ?_, ?_, ?_⟩
    · intro c hc1 hc2
      have hne : c / MAX ≠ m / MAX ∨ c % MAX ≠ m % MAX := by
        rw [MAX_eq]; omega
      rw [set_q_zero _ _ _ _ _ _ hne]
      exact hun c (by omega) hc2
    · intro c hc
      by_cases hcm : c = m
      · subst hcm
        rw [set_q_of_guard _ _ _ _ hguard, if_pos ⟨rfl, rfl, rfl⟩]
      · have hne : c / MAX ≠ m / MAX ∨ c % MAX ≠ m % MAX := by
          rw [MAX_eq]; omega
        rw [set_q_zero _ _ _ _ _ _ hne]
        exact hass c (by omega)
    · rw [set_notdone_of_guard _ _ _ _ hguard, hnd]
      push_cast; ring

theorem seedFrom_eq_foldl (G : Nat → Nat → Nat) (cs : List Int) (i : Nat) (s : Grid)
    (hdec : ∀ m < cs.length,
      (char2num (cs.getD m 0)).toNat = G ((i + m) / MAX) ((i + m) % MAX)) :
    seedFrom cs i s
      = (List.range' i cs.length).foldl
          (fun s c => set s (c / MAX) (c % MAX) (G (c / MAX) (c % MAX))) s := by
  induction cs generalizing i s with
  | nil => rfl
  | cons c cs ih =>
    have h0 := hdec 0 (by simp)
    simp only [List.getD_cons_zero, Nat.add_zero] at h0
    rw [seedFrom, List.length_cons, List.range'_succ, List.foldl_cons, h0]
    apply ih
    intro m hm
    have := hdec (m + 1) (by simp; omega)
    simp only [List.getD_cons_succ] at this
    rw [this]
    congr 2 <;> omega

theorem solveIterations_done (fuel : Nat) (s : Grid) (h : s.notdone = 0) :
    solveIterations (fuel + 1) s = some 0 := by
  simp [solveIterations, h]

/-- Claim C12. Fully filled valid grid: for a complete grid `G` whose rows,
columns and sub-grids each hold every digit once, each of the 81 seeding calls
`set(r, c, G r c)`, made in row-major order from the initial grid, finds its
guard true; afterwards every cell is assigned the digit of `G` and `notdone`
is 0, so the main loop returns that state without executing its body; and
`read_input` on 81 accepted characters that spell `G` produces that state. -/
theorem full_grid_seeds (G : Nat → Nat → Nat) (hG : ValidSolution G) :
    (∀ m < 81, (seedGrid G m).q (m / MAX) (m % MAX) (G (m / MAX) (m % MAX)) ≠ 0 ∧
      (seedGrid G m).q (m / MAX) (m % MAX) 0 = 0 ∧
      (seedGrid G (m + 1)).notdone = (seedGrid G m).notdone - 1) ∧
    (∀ i < MAX, ∀ j < MAX, (seedGrid G 81).q i j 0 = (G i j : Int)) ∧
    (seedGrid G 81).notdone = 0 ∧
    (∀ fuel, solveLoop (fuel + 1) (seedGrid G 81) = some (seedGrid G 81) ∧
      solveIterations (fuel + 1) (seedGrid G 81) = some 0) ∧
    (∀ cs : List Int, cs.length = 81 → (∀ c ∈ cs, accepted c = true) →
      (∀ m < 81, (char2num (cs.getD m 0)).toNat = G (m / MAX) (m % MAX)) →
      read_input cs initGrid = some (seedGrid G 81)) := by
  have hfin := seedGrid_invariant G hG 81 (le_refl _)
  have hnd : (seedGrid G 81).notdone = 0 := by
    rw [hfin.2.2.2]; norm_num
  refine ⟨?_, ?_, hnd, fun fuel => ⟨solveLoop_done fuel _ hnd, solveIterations_done fuel _ hnd⟩,
    ?_⟩
  · intro m hm
    obtain ⟨hC, hun, _, _⟩ := seedGrid_invariant G hG m (by omega)
    have hx : m / MAX < MAX := by rw [MAX_eq]; omega
    have hy : m % MAX < MAX := by rw [MAX_eq]; omega
    have hguard : (seedGrid G m).q (m / MAX) (m % MAX) (G (m / MAX) (m % MAX)) ≠ 0 ∧
        (seedGrid G m).q (m / MAX) (m % MAX) 0 = 0 :=
      ⟨(hC _ hx _ hy).2, hun m (le_refl _) hm⟩
    refine ⟨hguard.1, hguard.2, ?_⟩
    rw [seedGrid_succ, set_notdone_of_guard _ _ _ _ hguard]
  · intro i hi j hj
    rw [MAX_eq] at hi hj
    have h := hfin.2.2.1 (MAX * i + j) (by rw [MAX_eq]; omega)
    have e1 : (MAX * i + j) / MAX = i := by rw [MAX_eq]; omega
    have e2 : (MAX * i + j) % MAX = j := by rw [MAX_eq]; omega
    rw [e1, e2] at h
    exact h
  · intro cs hlen hacc hdec
    unfold read_input
    have hn : initGrid.notdone = ((81 : Nat) : Int) := by decide
    rw [hn, readLoop_accepted cs 0 81 initGrid hacc (by omega)]
    have ht : cs.take (81 - 0) = cs := by
      rw [← hlen]
      exact List.take_length cs
    rw [ht, seedFrom_eq_foldl G cs 0 initGrid (by
      intro m hm
      rw [Nat.zero_add]
      exact hdec m (by omega)), hlen]
    unfold seedGrid
    rw [List.range_eq_range']

/-! ## The empty grid -/

theorem initGrid_candidate (i j k : Nat) (hi : i < MAX) (hj : j < MAX) (hk : k ∈ digits) :
    candidateAt initGrid.q i j k := by
  have h := mem_digits.1 hk
  constructor
  · show (if i < MAX ∧ j < MAX ∧ 1 ≤ 0 ∧ 0 ≤ MAX then (1 : Int) else 0) = 0
    rw [if_neg]
    rintro ⟨_, _, h0, _⟩
    omega
  · show (if i < MAX ∧ j < MAX ∧ 1 ≤ k ∧ k ≤ MAX then (1 : Int) else 0) ≠ 0
    rw [if_pos ⟨hi, hj, h.1, by rw [MAX_eq]; exact h.2⟩]
    decide

theorem initGrid_digit_in_cell : rule_only_digit_in_cell initGrid = initGrid := by
  unfold rule_only_digit_in_cell
  apply foldl_fixed
  intro i hi
  apply foldl_fixed
  intro j hj
  have hi9 : i < MAX := by rw [MAX_eq]; exact mem_indices.1 hi
  have hj9 : j < MAX := by rw [MAX_eq]; exact mem_indices.1 hj
  simp only
  rw [if_pos (initGrid_candidate i j 1 hi9 hj9 (by decide)).1, if_neg]
  intro h1
  have h := (countCell_one initGrid.q i j h1).2.2
  have e1 := h 1 (by decide) (initGrid_candidate i j 1 hi9 hj9 (by decide)).2
  have e2 := h 2 (by decide) (initGrid_candidate i j 2 hi9 hj9 (by decide)).2
  omega

theorem initGrid_place_in_row : rule_only_place_in_row initGrid = initGrid := by
  unfold rule_only_place_in_row
  apply foldl_fixed
  intro i hi
  have hi9 : i < MAX := by rw [MAX_eq]; exact mem_indices.1 hi
  simp only
  apply foldl_fixed
  intro k hk
  rw [if_neg]
  intro h1
  have h := (rowTally_one initGrid.q i k hk h1).2
  have e1 := h 0 (by decide) (initGrid_candidate i 0 k hi9 (by decide) hk)
  have e2 := h 1 (by decide) (initGrid_candidate i 1 k hi9 (by decide) hk)
  omega

theorem initGrid_place_in_column : rule_only_place_in_column initGrid = initGrid := by
  unfold rule_only_place_in_column
  apply foldl_fixed
  intro j hj
  have hj9 : j < MAX := by rw [MAX_eq]; exact mem_indices.1 hj
  simp only
  apply foldl_fixed
  intro k hk
  rw [if_neg]
  intro h1
  have h := (columnTally_one initGrid.q j k hk h1).2
  have e1 := h 0 (by decide) (initGrid_candidate 0 j k (by decide) hj9 hk)
  have e2 := h 1 (by decide) (initGrid_candidate 1 j k (by decide) hj9 hk)
  omega

theorem initGrid_one_sq_in_group : rule_only_in_one_sq_in_group initGrid = initGrid := by
  unfold rule_only_in_one_sq_in_group
  apply foldl_fixed
  intro i1 hi1
  apply foldl_fixed
  intro j1 hj1
  have hi := mem_blockStarts.1 hi1
  have hj := mem_blockStarts.1 hj1
  simp only
  apply foldl_fixed
  intro k hk
  rw [if_neg]
  intro h1
  have h := (sqTally_one initGrid.q i1 j1 k hk h1).2.2
  have e1 := h i1 j1 (by omega) (by omega) (by omega) (by omega)
    (initGrid_candidate i1 j1 k (by rw [MAX_eq]; omega) (by rw [MAX_eq]; omega) hk)
  have e2 := h i1 (j1 + 1) (by omega) (by omega) (by omega) (by omega)
    (initGrid_candidate i1 (j1 + 1) k (by rw [MAX_eq]; omega) (by rw [MAX_eq]; omega) hk)
  omega

theorem initGrid_one_row_in_group : rule_only_in_one_row_in_group initGrid = initGrid := by
  unfold rule_only_in_one_row_in_group
  apply foldl_fixed
  intro i1 hi1
  apply foldl_fixed
  intro j1 hj1
  have hi := mem_blockStarts.1 hi1
  have hj := mem_blockStarts.1 hj1
  simp only
  apply foldl_fixed
  intro k hk
  rw [if_neg]
  intro h1
  have h := (rowGroupTally_one initGrid.q i1 j1 k hk h1).2
  rw [STEP_eq] at h
  have e1 := h i1 j1 (by omega) (by omega) (by omega) (by omega)
    (initGrid_candidate i1 j1 k (by rw [MAX_eq]; omega) (by rw [MAX_eq]; omega) hk)
  have e2 := h (i1 + 1) j1 (by omega) (by omega) (by omega) (by omega)
    (initGrid_candidate (i1 + 1) j1 k (by rw [MAX_eq]; omega) (by rw [MAX_eq]; omega) hk)
  omega

theorem initGrid_one_column_in_group :
    rule_only_in_one_column_in_group initGrid = initGrid := by
  unfold rule_only_in_one_column_in_group
  apply foldl_fixed
  intro i1 hi1
  apply foldl_fixed
  intro j1 hj1
  have hi := mem_blockStarts.1 hi1
  have hj := mem_blockStarts.1 hj1
  simp only
  apply foldl_fixed
  intro k hk
  rw [if_neg]
  intro h1
  have h := (columnGroupTally_one initGrid.q i1 j1 k hk h1).2
  rw [STEP_eq] at h
  have e1 := h i1 j1 (by omega) (by omega) (by omega) (by omega)
    (initGrid_candidate i1 j1 k (by rw [MAX_eq]; omega) (by rw [MAX_eq]; omega) hk)
  have e2 := h i1 (j1 + 1) (by omega) (by omega) (by omega) (by omega)
    (initGrid_candidate i1 (j1 + 1) k (by rw [MAX_eq]; omega) (by rw [MAX_eq]; omega) hk)
  omega

theorem initGrid_apply_rules : apply_rules initGrid = initGrid := by
  unfold apply_rules
  rw [initGrid_one_row_in_group, initGrid_one_column_in_group, initGrid_one_sq_in_group,
    initGrid_place_in_row, initGrid_place_in_column, initGrid_digit_in_cell]

theorem seedFrom_blank (cs : List Int) (i : Nat) (s : Grid)
    (h : ∀ c ∈ cs, (char2num c).toNat = 0) : seedFrom cs i s = s := by
  induction cs generalizing i s with
  | nil => rfl
  | cons c cs ih =>
    rw [seedFrom, h c (List.mem_cons_self c cs),
      set_of_not_guard s _ _ 0 (fun hg => hg.1 hg.2)]
    exact ih _ _ (fun c2 h2 => h c2 (List.mem_cons_of_mem c h2))

/-- Claim C13. Empty grid: on the initial grid, with every cell unassigned, every
digit `1..MAX` a candidate of every cell and `notdone = 81`, an `apply_rules`
pass changes nothing, so the main loop leaves by its no-progress exit, after one
execution of its body, with the grid as it was; and that is how the solver ends
on 81 blank characters (`'.'`, `' '` or `'0'`). -/
theorem empty_grid_stuck :
    apply_rules initGrid = initGrid ∧
    (apply_rules initGrid).notdone = initGrid.notdone ∧
    (∀ fuel, solveLoop (fuel + 1) initGrid = some initGrid ∧
      solveIterations (fuel + 1) initGrid = some 1) ∧
    initGrid.notdone = 81 ∧
    (∀ i < MAX, ∀ j < MAX, initGrid.q i j 0 = 0 ∧ ∀ k, 1 ≤ k → k ≤ MAX → initGrid.q i j k ≠ 0) ∧
    (∀ cs : List Int, cs.length = 81 → (∀ c ∈ cs, c = 46 ∨ c = 32 ∨ c = 48) →
      read_input cs initGrid = some initGrid ∧ ∀ fuel, solve (fuel + 1) cs = some initGrid) := by
  have hloop : ∀ fuel, solveLoop (fuel + 1) initGrid = some initGrid := by
    intro fuel
    have hn : initGrid.notdone ≠ 0 := by decide
    rw [solveLoop, if_pos hn]
    simp only [initGrid_apply_rules, if_true]
  have hiter : ∀ fuel, solveIterations (fuel + 1) initGrid = some 1 := by
    intro fuel
    have hn : initGrid.notdone ≠ 0 := by decide
    rw [solveIterations, if_pos hn]
    simp only [initGrid_apply_rules, if_true]
  refine ⟨initGrid_apply_rules, by rw [initGrid_apply_rules],
    fun fuel => ⟨hloop fuel, hiter fuel⟩, by decide, ?_, ?_⟩
  · intro i hi j hj
    refine ⟨(initGrid_candidate i j 1 hi hj (by decide)).1, ?_⟩
    intro k h1 h9
    exact (initGrid_candidate i j k hi hj (mem_digits.2 ⟨h1, by rw [MAX_eq] at h9; exact h9⟩)).2
  · intro cs hlen hc
    have hr : read_input cs initGrid = some initGrid := by
      unfold read_input
      have hn : initGrid.notdone = ((81 : Nat) : Int) := by decide
      rw [hn, readLoop_accepted cs 0 81 initGrid (by
        intro c h
        rcases hc c h with rfl | rfl | rfl <;> decide) (by omega)]
      rw [seedFrom_blank]
      intro c h
      rcases hc c (List.mem_of_mem_take h) with rfl | rfl | rfl <;> decide
    refine ⟨hr, ?_⟩
    intro fuel
    unfold solve
    rw [hr, Option.some_bind]
    exact hloop fuel

/-! ## Termination of the main loop -/

theorem unassigned_le (s : Grid) : unassigned s ≤ 81 := by
  unfold unassigned
  refine le_trans (List.countP_le_length _) ?_
  decide

/-- An in-range `set` call keeps the difference between `notdone` and the
number of unassigned cells, and does not raise that number. -/
theorem set_balance (c : Int) (u : Nat) :
    SetClosed (fun s => s.notdone - (unassigned s : Int) = c ∧ unassigned s ≤ u) := by
  intro s x y n hx hy _ h
  by_cases hg : s.q x y n ≠ 0 ∧ s.q x y 0 = 0
  · have e := set_unassigned s x y n hx hy hg
    rw [set_notdone_of_guard s x y n hg]
    constructor
    · rw [← h.1, e]; push_cast; ring
    · omega
  · rw [set_of_not_guard s x y n hg]; exact h

theorem one_row_in_group_unassigned (s : Grid) :
    unassigned (rule_only_in_one_row_in_group s) = unassigned s :=
  unassigned_congr s _ (fun i _ j _ => (one_row_in_group_clears s i j 0).1)

theorem one_column_in_group_unassigned (s : Grid) :
    unassigned (rule_only_in_one_column_in_group s) = unassigned s :=
  unassigned_congr s _ (fun i _ j _ => (one_column_in_group_clears s i j 0).1)

/-- An `apply_rules` pass lowers `notdone` by the number of cells it assigns. -/
theorem apply_rules_balance (s : Grid) :
    (apply_rules s).notdone - (unassigned (apply_rules s) : Int)
      = s.notdone - (unassigned s : Int) ∧
    unassigned (apply_rules s) ≤ unassigned s := by
  unfold apply_rules
  apply digit_in_cell_closed _ (set_balance _ _)
  apply place_in_column_closed _ (set_balance _ _)
  apply place_in_row_closed _ (set_balance _ _)
  apply one_sq_in_group_closed _ (set_balance _ _)
  rw [one_column_in_group_notdone, one_row_in_group_notdone, one_column_in_group_unassigned,
    one_row_in_group_unassigned]
  exact ⟨rfl, le_refl _⟩

theorem solveLoop_terminates (fuel : Nat) (s : Grid) (hf : unassigned s < fuel) :
    ∃ r n, solveLoop fuel s = some r ∧ solveIterations fuel s = some n ∧
      n ≤ unassigned s + 1 ∧ (s.notdone = (unassigned s : Int) → n ≤ unassigned s) := by
  induction fuel generalizing s with
  | zero => omega
  | succ fuel ih =>
    by_cases h0 : s.notdone ≠ 0
    · by_cases hp : s.notdone = (apply_rules s).notdone
      · refine ⟨apply_rules (apply_rules s), 1, ?_, ?_, by omega, ?_⟩
        · rw [solveLoop, if_pos h0]
          simp only [hp, if_true]
        · rw [solveIterations, if_pos h0]
          simp only [hp, if_true]
        · intro hc
          omega
      · have hb := apply_rules_balance s
        have hlt : unassigned (apply_rules s) < unassigned s := by
          have h1 := hb.1
          have h2 := hb.2
          omega
        obtain ⟨r, n, e1, e2, e3, e4⟩ := ih (apply_rules s) (by omega)
        refine ⟨r, n + 1, ?_, ?_, by omega, ?_⟩
        · rw [solveLoop, if_pos h0]
          simp only [hp, if_false]
          exact e1
        · rw [solveIterations, if_pos h0]
          simp only [hp, if_false, e2, Option.map_some']
        · intro hc
          have h1 := hb.1
          have := e4 (by omega)
          omega
    · refine ⟨s, 0, ?_, ?_, by omega, fun _ => by omega⟩
      · rw [solveLoop, if_neg h0]
      · rw [solveIterations, if_neg h0]

theorem solveIterations_progress (fuel : Nat) (s : Grid) (h0 : s.notdone ≠ 0)
    (hp : (apply_rules s).notdone ≠ s.notdone) :
    solveIterations (fuel + 1) s
      = (solveIterations fuel (apply_rules s)).map (fun n => n + 1) := by
  rw [solveIterations, if_pos h0]
  have hp2 : ¬ s.notdone = (apply_rules s).notdone := fun h => hp h.symm
  simp only [hp2, if_false]

/-- Claim C11. Termination of the main loop: in every state the program can
reach `notdone` is non-negative and a pass never raises it; each execution of
the loop body either strictly lowers `notdone` and goes round again, or leaves
the loop; and the loop ends, within any bound above `notdone`, after at most
`notdone + 1` executions of its body. -/
theorem solver_terminates (s : Grid) (h : Reachable s) :
    0 ≤ s.notdone ∧
    (apply_rules s).notdone ≤ s.notdone ∧
    (s.notdone ≠ 0 → ∀ fuel,
      ((apply_rules s).notdone < s.notdone ∧
        solveLoop (fuel + 1) s = solveLoop fuel (apply_rules s)) ∨
      solveLoop (fuel + 1) s = some (apply_rules (apply_rules s))) ∧
    ∀ fuel, s.notdone.toNat < fuel →
      ∃ r n, solveLoop fuel s = some r ∧ solveIterations fuel s = some n ∧
        (n : Int) ≤ s.notdone + 1 := by
  have hc := (reachable_invariants s h).2
  have hle := apply_rules_notdone_le s
  refine ⟨by omega, hle, ?_, ?_⟩
  · intro h0 fuel
    by_cases hp : s.notdone = (apply_rules s).notdone
    · right
      rw [solveLoop, if_pos h0]
      simp only [hp, if_true]
    · left
      refine ⟨by omega, ?_⟩
      rw [solveLoop, if_pos h0]
      simp only [hp, if_false]
  · intro fuel hf
    obtain ⟨r, n, e1, e2, _, e4⟩ := solveLoop_terminates fuel s (by omega)
    have := e4 hc
    exact ⟨r, n, e1, e2, by omega⟩

/-! ## States given by codes -/

/-- A state reached from `flatGrid a c nd` without a flag coming back or an
assignment being overwritten is `flatGrid a2 c2 nd2` when it has that `notdone`
and passes the checks of `FlatStep`. -/
theorem flatGrid_eq_of_advances (r : Grid) (a c : Nat) (nd : Int) (a2 c2 : Nat) (nd2 : Int)
    (hadv : Advances (flatGrid a c nd) r)
    (hev : FlatStep r a c nd a2 c2 nd2) :
    r = flatGrid a2 c2 nd2 := by
  cases r with
  | mk q n =>
    unfold FlatStep at hev
    obtain ⟨hn, hcells⟩ := hev
    simp only at hn hcells
    have hflag : ∀ i j k, k ≠ 0 → (flatGrid a c nd).q i j k ≠ 0 →
        (i < MAX ∧ j < MAX) ∧ k ≤ MAX ∧ Nat.testBit c (10 * (MAX * i + j) + k) = true := by
      intro i j k hk h
      simp only [flatGrid] at h
      by_cases hr : i < MAX ∧ j < MAX
      · rw [if_pos hr, if_neg hk] at h
        by_cases hb : k ≤ MAX ∧ Nat.testBit c (10 * (MAX * i + j) + k) = true
        · exact ⟨hr, hb⟩
        · rw [if_neg hb] at h
          exact absurd rfl h
      · rw [if_neg hr] at h
        exact absurd rfl h
    have hq : q = (flatGrid a2 c2 nd2).q := by
      funext i j k
      by_cases hk : k = 0
      · subst hk
        by_cases hr : i < MAX ∧ j < MAX
        · have hc := (hcells i hr.1 j hr.2).2
          split_ifs at hc with hcond
          · exact hc
          · rw [hc]
            rcases hadv.2 i j with e | ⟨hz, m, hm1, hm9, _, hcand⟩
            · exact e
            · exfalso
              apply hcond
              obtain ⟨_, h9, hb⟩ := hflag i j m (by omega) hcand
              exact ⟨hz, m, by omega, hm1, hb⟩
        · have hs : (flatGrid a c nd).q i j 0 = 0 := by
            simp only [flatGrid]
            rw [if_neg hr]
          have ht : (flatGrid a2 c2 nd2).q i j 0 = 0 := by
            simp only [flatGrid]
            rw [if_neg hr]
          rw [ht]
          rcases hadv.2 i j with e | ⟨_, m, hm1, _, _, hcand⟩
          · exact e.trans hs
          · exact absurd (hflag i j m (by omega) hcand).1 hr
      · by_cases hb : (i < MAX ∧ j < MAX) ∧ k ≤ MAX ∧
            Nat.testBit c (10 * (MAX * i + j) + k) = true
        · obtain ⟨hr, h9, hbit⟩ := hb
          exact ((hcells i hr.1 j hr.2).1 k (by omega) (by omega)).2 hbit
        · have hs : (flatGrid a c nd).q i j k = 0 := by
            by_contra hne
            exact hb (hflag i j k hk hne)
          have hz : q i j k = 0 := hadv.1 i j k hk hs
          rw [hz]
          symm
          by_contra hne
          obtain ⟨hr, h9, hbit⟩ : (i < MAX ∧ j < MAX) ∧ k ≤ MAX ∧
              Nat.testBit c2 (10 * (MAX * i + j) + k) = true := by
            simp only [flatGrid] at hne
            by_cases hr : i < MAX ∧ j < MAX
            · rw [if_pos hr, if_neg hk] at hne
              by_cases hb2 : k ≤ MAX ∧ Nat.testBit c2 (10 * (MAX * i + j) + k) = true
              · exact ⟨hr, hb2⟩
              · rw [if_neg hb2] at hne
                exact absurd rfl hne
            · rw [if_neg hr] at hne
              exact absurd rfl hne
          exact hb ⟨hr, h9, ((hcells i hr.1 j hr.2).1 k (by omega) (by omega)).1 hbit⟩
    rw [hq, hn]
    rfl

theorem grid_eq (g h : Grid) (e1 : g.q = h.q) (e2 : g.notdone = h.notdone) : g = h := by
  cases g
  cases h
  simp only at e1 e2
  subst e1
  subst e2
  rfl

theorem initGrid_flat : initGrid = flatOf (0, initMask, 81) := by
  show initGrid = flatGrid 0 initMask 81
  have hb : ∀ i < MAX, ∀ j < MAX, ∀ k < MAX + 1, 1 ≤ k →
      Nat.testBit initMask (10 * (MAX * i + j) + k) = true := by decide!
  apply grid_eq
  · funext i j k
    simp only [initGrid, flatGrid]
    by_cases hr : i < MAX ∧ j < MAX
    · rw [if_pos hr]
      by_cases hk : k = 0
      · subst hk
        simp
      · rw [if_neg hk]
        by_cases h9 : k ≤ MAX
        · rw [if_pos ⟨hr.1, hr.2, by omega, h9⟩,
            if_pos ⟨h9, hb i hr.1 j hr.2 k (by omega) (by omega)⟩]
        · rw [if_neg (fun h => h9 h.2.2.2), if_neg (fun h => h9 h.1)]
    · rw [if_neg hr, if_neg (fun h => hr ⟨h.1, h.2.1⟩)]
  · rfl

theorem swept_lt (x y i j : Nat) (hx : x < MAX) (hy : y < MAX) (h : swept x y i j) :
    i < MAX ∧ j < MAX := by
  simp only [swept, inBlock, MAX_eq, STEP_eq] at *
  omega

/-- A successful `set` on a state given by codes is the state of the codes that
pass `SetCheck`. -/
theorem set_flatGrid (a c : Nat) (nd : Int) (x y n a2 c2 : Nat) (hx : x < MAX) (hy : y < MAX)
    (hn1 : 1 ≤ n) (hn9 : n ≤ MAX)
    (hbit : Nat.testBit c (10 * (MAX * x + y) + n) = true)
    (hfld : (a >>> (4 * (MAX * x + y))) % 16 = 0)
    (hchk : SetCheck a c x y n a2 c2) :
    set (flatGrid a c nd) x y n = flatGrid a2 c2 (nd - 1) := by
  have hg : (flatGrid a c nd).q x y n ≠ 0 ∧ (flatGrid a c nd).q x y 0 = 0 := by
    constructor
    · simp only [flatGrid]
      rw [if_pos ⟨hx, hy⟩, if_neg (by omega), if_pos ⟨hn9, hbit⟩]
      decide
    · simp only [flatGrid]
      rw [if_pos ⟨hx, hy⟩, if_pos trivial, hfld]
      rfl
  apply grid_eq
  · funext i j k
    rw [set_q_of_guard _ x y n hg]
    by_cases hr : i < MAX ∧ j < MAX
    · by_cases hk : k = 0
      · subst hk
        have h1 := hchk.1 i hr.1 j hr.2
        have e2 : (flatGrid a2 c2 (nd - 1)).q i j 0
            = (((a2 >>> (4 * (MAX * i + j))) % 16 : Nat) : Int) := by
          simp only [flatGrid]
          rw [if_pos hr, if_pos trivial]
        have e1 : (flatGrid a c nd).q i j 0
            = (((a >>> (4 * (MAX * i + j))) % 16 : Nat) : Int) := by
          simp only [flatGrid]
          rw [if_pos hr, if_pos trivial]
        rw [e2, h1, e1]
        by_cases hxy : i = x ∧ j = y
        · rw [if_pos ⟨hxy.1, hxy.2, rfl⟩, if_pos hxy]
        · rw [if_neg (fun h => hxy ⟨h.1, h.2.1⟩), if_neg (fun h => hxy ⟨h.1, h.2.1⟩),
            if_neg (fun h => by omega), if_neg hxy]
      · rw [if_neg (fun h => hk h.2.2)]
        by_cases h9 : k ≤ MAX
        · have h2 := hchk.2 i hr.1 j hr.2 k (by omega) (by omega)
          have e2 : (flatGrid a2 c2 (nd - 1)).q i j k
              = if Nat.testBit c2 (10 * (MAX * i + j) + k) = true then 1 else 0 := by
            simp only [flatGrid]
            rw [if_pos hr, if_neg hk]
            simp only [h9, true_and]
          have e1 : (flatGrid a c nd).q i j k
              = if Nat.testBit c (10 * (MAX * i + j) + k) = true then 1 else 0 := by
            simp only [flatGrid]
            rw [if_pos hr, if_neg hk]
            simp only [h9, true_and]
          rw [e2, h2, e1]
          split_ifs <;> first | rfl | (exfalso; simp_all)
        · have e2 : (flatGrid a2 c2 (nd - 1)).q i j k = 0 := by
            simp only [flatGrid]
            rw [if_pos hr, if_neg hk, if_neg (fun h => h9 h.1)]
          have e1 : (flatGrid a c nd).q i j k = 0 := by
            simp only [flatGrid]
            rw [if_pos hr, if_neg hk, if_neg (fun h => h9 h.1)]
          rw [e2, e1, if_neg (fun h => by omega)]
          split_ifs <;> rfl
    · have e2 : (flatGrid a2 c2 (nd - 1)).q i j k = 0 := by
        simp only [flatGrid]
        rw [if_neg hr]
      have e1 : (flatGrid a c nd).q i j k = 0 := by
        simp only [flatGrid]
        rw [if_neg hr]
      rw [e2, e1, if_neg (fun h => hr ⟨by omega, by omega⟩),
        if_neg (fun h => hr ⟨by omega, by omega⟩)]
      split_ifs <;> rfl
  · rw [set_notdone_of_guard _ x y n hg]
    rfl

/-- The seeding of a state given by codes, when every call passes its check, is
the state of the codes computed by `flatSeedFrom`. -/
theorem seedFrom_flat : ∀ (cs : List Int) (i : Nat) (st : Nat × Nat × Int),
    i + cs.length ≤ 81 → seedChecks cs i st = true →
    seedFrom cs i (flatOf st) = flatOf (flatSeedFrom cs i st)
  | [], _, _, _, _ => rfl
  | c :: cs, i, st, hlen, h => by
    simp only [List.length_cons] at hlen
    simp only [seedChecks, Bool.and_eq_true, Bool.or_eq_true, decide_eq_true_eq] at h
    obtain ⟨h1, h2⟩ := h
    have ih := seedFrom_flat cs (i + 1) (flatSet st (i / MAX) (i % MAX) (char2num c).toNat)
      (by omega) h2
    simp only [seedFrom, flatSeedFrom]
    rw [← ih]
    congr 1
    by_cases hn : (char2num c).toNat = 0
    · rw [hn]
      have e : flatSet st (i / MAX) (i % MAX) 0 = st := by
        unfold flatSet
        rw [if_neg (fun h => h.1 rfl)]
      rw [e]
      exact set_of_not_guard _ _ _ 0 (fun hg => hg.1 hg.2)
    · rcases h1 with h1 | ⟨h9, hbit, hfld, hchk⟩
      · exact absurd h1 hn
      · have e : (flatSet st (i / MAX) (i % MAX) (char2num c).toNat).2.2 = st.2.2 - 1 := by
          unfold flatSet
          rw [if_pos ⟨hn, hbit, hfld⟩]
        unfold flatOf
        rw [e]
        have hx : i / MAX < MAX := by
          simp only [MAX_eq]
          omega
        have hy : i % MAX < MAX := by
          simp only [MAX_eq]
          omega
        exact set_flatGrid st.1 st.2.1 st.2.2 _ _ _ _ _ hx hy (by omega) h9 hbit hfld hchk

theorem seedChecks_append : ∀ (cs1 cs2 : List Int) (i : Nat) (st : Nat × Nat × Int),
    seedChecks cs1 i st = true →
    seedChecks cs2 (i + cs1.length) (flatSeedFrom cs1 i st) = true →
    seedChecks (cs1 ++ cs2) i st = true
  | [], _, _, _, _, h2 => h2
  | c :: cs1, cs2, i, st, h1, h2 => by
    simp only [List.cons_append, seedChecks, Bool.and_eq_true] at h1 ⊢
    refine ⟨h1.1, seedChecks_append cs1 cs2 (i + 1) _ h1.2 ?_⟩
    simp only [flatSeedFrom, List.length_cons] at h2
    have e : i + 1 + cs1.length = i + (cs1.length + 1) := by omega
    rw [e]
    exact h2

/-- The check of the seeding calls `m .. m + d - 1` of the input `cs`, from the
codes reached by the calls before them. -/
theorem seedChecks_take (cs : List Int) (m d : Nat) (hm : m ≤ cs.length)
    (h1 : seedChecks (cs.take m) 0 (0, initMask, 81) = true)
    (h2 : seedChecks ((cs.drop m).take d) m (flatSeedFrom (cs.take m) 0 (0, initMask, 81))
      = true) :
    seedChecks (cs.take (m + d)) 0 (0, initMask, 81) = true := by
  rw [List.take_add]
  apply seedChecks_append _ _ _ _ h1
  rw [List.length_take, Nat.min_eq_left hm, Nat.zero_add]
  exact h2

/-! ## A puzzle on which a pass stalls and the next one does not -/

theorem stallInput_row0 : seedChecks (stallInput.take 9) 0 (0, initMask, 81) = true := by
  decide!

theorem stallInput_row1 :
    seedChecks ((stallInput.drop 9).take 9) 9
      (flatSeedFrom (stallInput.take 9) 0 (0, initMask, 81)) = true := by
  decide!

theorem stallInput_row2 :
    seedChecks ((stallInput.drop 18).take 9) 18
      (flatSeedFrom (stallInput.take 18) 0 (0, initMask, 81)) = true := by
  decide!

theorem stallInput_row3 :
    seedChecks ((stallInput.drop 27).take 9) 27
      (flatSeedFrom (stallInput.take 27) 0 (0, initMask, 81)) = true := by
  decide!

theorem stallInput_row4 :
    seedChecks ((stallInput.drop 36).take 9) 36
      (flatSeedFrom (stallInput.take 36) 0 (0, initMask, 81)) = true := by
  decide!

theorem stallInput_row5 :
    seedChecks ((stallInput.drop 45).take 9) 45
      (flatSeedFrom (stallInput.take 45) 0 (0, initMask, 81)) = true := by
  decide!

theorem stallInput_row6 :
    seedChecks ((stallInput.drop 54).take 9) 54
      (flatSeedFrom (stallInput.take 54) 0 (0, initMask, 81)) = true := by
  decide!

theorem stallInput_row7 :
    seedChecks ((stallInput.drop 63).take 9) 63
      (flatSeedFrom (stallInput.take 63) 0 (0, initMask, 81)) = true := by
  decide!

theorem stallInput_row8 :
    seedChecks ((stallInput.drop 72).take 9) 72
      (flatSeedFrom (stallInput.take 72) 0 (0, initMask, 81)) = true := by
  decide!

theorem stallInput_length : stallInput.length = 81 := by
  decide

theorem stallInput_checks : seedChecks stallInput 0 (0, initMask, 81) = true := by
  have hl := stallInput_length
  have h := seedChecks_take stallInput 72 9 (by omega)
    (seedChecks_take stallInput 63 9 (by omega)
      (seedChecks_take stallInput 54 9 (by omega)
        (seedChecks_take stallInput 45 9 (by omega)
          (seedChecks_take stallInput 36 9 (by omega)
            (seedChecks_take stallInput 27 9 (by omega)
              (seedChecks_take stallInput 18 9 (by omega)
                (seedChecks_take stallInput 9 9 (by omega) stallInput_row0 stallInput_row1)
                stallInput_row2) stallInput_row3) stallInput_row4) stallInput_row5)
        stallInput_row6) stallInput_row7) stallInput_row8
  rw [List.take_of_length_le (by omega)] at h
  exact h

/-- The program reads `stallInput` into `stallGrid`. -/
theorem read_stallInput : read_input stallInput initGrid = some stallGrid := by
  have hl := stallInput_length
  unfold read_input
  have hn : initGrid.notdone = ((81 : Nat) : Int) := by decide
  rw [hn, readLoop_accepted stallInput 0 81 initGrid (by decide) (by omega),
    List.take_of_length_le (by omega), initGrid_flat,
    seedFrom_flat stallInput 0 (0, initMask, 81) (by omega) stallInput_checks]
  rfl

theorem stallGrid_reachable : Reachable stallGrid :=
  readLoop_reachable stallInput 0 _ initGrid stallGrid (le_refl _) Reachable.init read_stallInput

theorem stallGrid_notdone : stallGrid.notdone = 38 := by
  decide!

/-- The row pointing pass on `stallGrid` clears the flags of `stallRow1`. -/
theorem stallGrid_row : rule_only_in_one_row_in_group stallGrid = stallWith [] stallRow1 38 :=
  flatGrid_eq_of_advances _ _ _ _ _ _ _ (one_row_in_group_advances stallGrid) (by decide!)

/-- The column pointing pass that follows clears the flags of `stallColumn1`. -/
theorem stallGrid_column :
    rule_only_in_one_column_in_group (stallWith [] stallRow1 38) = stallGrid1 :=
  flatGrid_eq_of_advances _ _ _ _ _ _ _
    (one_column_in_group_advances (stallWith [] stallRow1 38)) (by decide!)

/-- The four assigning passes that follow assign nothing. -/
theorem stallGrid1_assign :
    (rule_only_digit_in_cell (rule_only_place_in_column (rule_only_place_in_row
      (rule_only_in_one_sq_in_group stallGrid1)))).notdone = 38 := by
  decide!

/-- The first pass on `stallGrid` leaves `notdone` at 38. -/
theorem stallGrid_first_pass : (apply_rules stallGrid).notdone = stallGrid.notdone := by
  unfold apply_rules
  rw [stallGrid_row, stallGrid_column, stallGrid1_assign, stallGrid_notdone]

/-- The first pass on `stallGrid` clears the flags of `stallRow1` and of
`stallColumn1`, and nothing else. -/
theorem stallGrid_pass : apply_rules stallGrid = stallGrid1 := by
  rw [apply_rules_stalled stallGrid stallGrid_first_pass, stallGrid_row, stallGrid_column]

/-- The row pointing pass of the second round clears the flags of `stallRow2`. -/
theorem stallGrid1_row :
    rule_only_in_one_row_in_group stallGrid1
      = stallWith [] (stallRow1 ++ stallColumn1 ++ stallRow2) 38 :=
  flatGrid_eq_of_advances _ _ _ _ _ _ _ (one_row_in_group_advances stallGrid1) (by decide!)

/-- The column pointing pass of the second round clears the flags of
`stallColumn2`. -/
theorem stallGrid1_column :
    rule_only_in_one_column_in_group (stallWith [] (stallRow1 ++ stallColumn1 ++ stallRow2) 38)
      = stallWith [] stallPointed 38 :=
  flatGrid_eq_of_advances _ _ _ _ _ _ _
    (one_column_in_group_advances (stallWith [] (stallRow1 ++ stallColumn1 ++ stallRow2) 38))
    (by decide!)

/-- The sub-grid hidden-single pass of the second round assigns 3 to the cell
`(7,4)`, the one place left for it in the sub-grid at `(6,3)`. -/
theorem stallGrid1_sq :
    rule_only_in_one_sq_in_group (stallWith [] stallPointed 38)
      = stallWith [(7, 4, 3)] stallPointed 37 :=
  flatGrid_eq_of_advances _ _ _ _ _ _ _
    (one_sq_in_group_advances (stallWith [] stallPointed 38)) (by decide!)

/-- The row hidden-single pass of the second round assigns 8 to the cell
`(7,5)`. -/
theorem stallGrid1_place_row :
    rule_only_place_in_row (stallWith [(7, 4, 3)] stallPointed 37)
      = stallWith [(7, 4, 3), (7, 5, 8)]
          (stallPointed ++ [(0, 5, 8), (1, 5, 8), (7, 4, 8)]) 36 :=
  flatGrid_eq_of_advances _ _ _ _ _ _ _
    (place_in_row_advances (stallWith [(7, 4, 3)] stallPointed 37)) (by decide!)

/-- The column hidden-single pass of the second round assigns 8 to the cell
`(0,4)`. -/
theorem stallGrid1_place_column :
    rule_only_place_in_column (stallWith [(7, 4, 3), (7, 5, 8)]
        (stallPointed ++ [(0, 5, 8), (1, 5, 8), (7, 4, 8)]) 36) = stallGrid2 :=
  flatGrid_eq_of_advances _ _ _ _ _ _ _
    (place_in_column_advances (stallWith [(7, 4, 3), (7, 5, 8)]
      (stallPointed ++ [(0, 5, 8), (1, 5, 8), (7, 4, 8)]) 36)) (by decide!)

/-- The naked-single pass of the second round changes nothing. -/
theorem stallGrid2_cell : rule_only_digit_in_cell stallGrid2 = stallGrid2 :=
  flatGrid_eq_of_advances _ _ _ _ _ _ _ (digit_in_cell_advances stallGrid2) (by decide!)

/-- The second pass on `stallGrid` assigns three cells. -/
theorem stallGrid1_pass : apply_rules stallGrid1 = stallGrid2 := by
  unfold apply_rules
  rw [stallGrid1_row, stallGrid1_column, stallGrid1_sq, stallGrid1_place_row,
    stallGrid1_place_column, stallGrid2_cell]

/-- The row pointing pass of a third round changes nothing. -/
theorem stallGrid2_row : rule_only_in_one_row_in_group stallGrid2 = stallGrid2 :=
  flatGrid_eq_of_advances _ _ _ _ _ _ _ (one_row_in_group_advances stallGrid2) (by decide!)

/-- The column pointing pass of a third round changes nothing. -/
theorem stallGrid2_column : rule_only_in_one_column_in_group stallGrid2 = stallGrid2 :=
  flatGrid_eq_of_advances _ _ _ _ _ _ _ (one_column_in_group_advances stallGrid2) (by decide!)

/-- In `stallGrid2` the sub-grid at `(0,0)` has one place for digit 8, the cell
`(1,1)`, and `set` accepts it. -/
theorem stallGrid2_single :
    (sqTally stallGrid2.q 0 0).count 8 = 1 ∧
    (stallGrid2.q ((sqTally stallGrid2.q 0 0).pos 8).1 ((sqTally stallGrid2.q 0 0).pos 8).2 8 ≠ 0 ∧
      stallGrid2.q ((sqTally stallGrid2.q 0 0).pos 8).1 ((sqTally stallGrid2.q 0 0).pos 8).2 0
        = 0) ∧
    (sqTally stallGrid2.q 0 0).pos 8 = (1, 1) := by
  decide!

/-- A third pass on `stallGrid` would assign a cell. -/
theorem stallGrid2_progress : (apply_rules stallGrid2).notdone < stallGrid2.notdone := by
  have hle := apply_rules_notdone_le stallGrid2
  have hne : (apply_rules stallGrid2).notdone ≠ stallGrid2.notdone := by
    intro h
    have hsq := apply_rules_stalled_sq _ h
    rw [stallGrid2_row, stallGrid2_column] at hsq
    exact one_sq_in_group_stalled_at stallGrid2 hsq 0 0 8 (by decide) (by decide) (by decide)
      stallGrid2_single.1 stallGrid2_single.2.1
  omega

/-- The main loop on `stallGrid` makes two passes and stops. -/
theorem solveLoop_stallGrid (fuel : Nat) : solveLoop (fuel + 1) stallGrid = some stallGrid2 := by
  have h0 : stallGrid.notdone ≠ 0 := by
    rw [stallGrid_notdone]
    decide
  rw [solveLoop, if_pos h0]
  simp only [stallGrid_first_pass, if_true]
  rw [stallGrid_pass, stallGrid1_pass]

/-! ## Further witnesses and counterexamples -/

/-- Witness for `solver_terminates`: the state `stallGrid`, which the program
reads from the 43 clues of `stallInput`. -/
theorem solver_terminates_witness :
    Reachable stallGrid ∧
    (0 ≤ stallGrid.notdone ∧
    (apply_rules stallGrid).notdone ≤ stallGrid.notdone ∧
    (stallGrid.notdone ≠ 0 → ∀ fuel,
      ((apply_rules stallGrid).notdone < stallGrid.notdone ∧
        solveLoop (fuel + 1) stallGrid = solveLoop fuel (apply_rules stallGrid)) ∨
      solveLoop (fuel + 1) stallGrid = some (apply_rules (apply_rules stallGrid))) ∧
    ∀ fuel, stallGrid.notdone.toNat < fuel →
      ∃ r n, solveLoop fuel stallGrid = some r ∧ solveIterations fuel stallGrid = some n ∧
        (n : Int) ≤ stallGrid.notdone + 1) :=
  ⟨stallGrid_reachable, solver_terminates stallGrid stallGrid_reachable⟩

/-- Claim C8, evaluated at the puzzle `stallInput`. The program reads its 81
characters into `stallGrid`, with `notdone = 38`. A first `apply_rules` pass
leaves `notdone` at 38: it only clears candidates, by the two pointing rules.
A second pass on the resulting state lowers `notdone` to 35: the candidates
cleared by the column pointing rule of the first pass let the row pointing
rule of the second pass leave one place for digit 3 in the sub-grid at
`(6,3)`. The main loop stops after these two passes, with 35 cells unassigned,
although a third pass would assign one more cell. -/
theorem stalled_pass_then_progress :
    read_input stallInput initGrid = some stallGrid ∧
    Reachable stallGrid ∧
    stallGrid.notdone = 38 ∧
    (apply_rules stallGrid).notdone = stallGrid.notdone ∧
    (apply_rules (apply_rules stallGrid)).notdone = 35 ∧
    (apply_rules (apply_rules stallGrid)).notdone < (apply_rules stallGrid).notdone ∧
    (∀ fuel, solve (fuel + 1) stallInput = some (apply_rules (apply_rules stallGrid))) ∧
    (apply_rules (apply_rules (apply_rules stallGrid))).notdone
      < (apply_rules (apply_rules stallGrid)).notdone := by
  have h2 : apply_rules (apply_rules stallGrid) = stallGrid2 := by
    rw [stallGrid_pass, stallGrid1_pass]
  have h35 : stallGrid2.notdone = 35 := rfl
  refine ⟨read_stallInput, stallGrid_reachable, stallGrid_notdone, stallGrid_first_pass, ?_, ?_,
    ?_, ?_⟩
  · rw [h2, h35]
  · rw [h2, h35, stallGrid_first_pass, stallGrid_notdone]
    decide
  · intro fuel
    unfold solve
    rw [read_stallInput, Option.some_bind, solveLoop_stallGrid, h2]
  · rw [h2]
    exact stallGrid2_progress

/-- Witness for `full_grid_seeds`: the complete grid `fullSolution`. -/
theorem full_grid_seeds_witness :
    ValidSolution fullSolution ∧
    ((∀ m < 81,
      (seedGrid fullSolution m).q (m / MAX) (m % MAX) (fullSolution (m / MAX) (m % MAX)) ≠ 0 ∧
      (seedGrid fullSolution m).q (m / MAX) (m % MAX) 0 = 0 ∧
      (seedGrid fullSolution (m + 1)).notdone = (seedGrid fullSolution m).notdone - 1) ∧
    (∀ i < MAX, ∀ j < MAX, (seedGrid fullSolution 81).q i j 0 = (fullSolution i j : Int)) ∧
    (seedGrid fullSolution 81).notdone = 0 ∧
    (∀ fuel, solveLoop (fuel + 1) (seedGrid fullSolution 81)
        = some (seedGrid fullSolution 81) ∧
      solveIterations (fuel + 1) (seedGrid fullSolution 81) = some 0) ∧
    (∀ cs : List Int, cs.length = 81 → (∀ c ∈ cs, accepted c = true) →
      (∀ m < 81, (char2num (cs.getD m 0)).toNat = fullSolution (m / MAX) (m % MAX)) →
      read_input cs initGrid = some (seedGrid fullSolution 81))) :=
  ⟨fullSolution_valid, full_grid_seeds fullSolution fullSolution_valid⟩

theorem fullInput_accepted : 81 ≤ ((10 :: fullInput).filter accepted).length := by
  decide!

/-- Witness for `read_input_filter`: the characters of `fullInput` after a
newline. -/
theorem read_input_filter_witness :
    81 ≤ ((10 :: fullInput).filter accepted).length ∧
    (read_input (10 :: fullInput) initGrid
      = read_input ((10 :: fullInput).filter accepted) initGrid ∧
    read_input (10 :: fullInput) initGrid
      = some (seedFrom (((10 :: fullInput).filter accepted).take 81) 0 initGrid)) :=
  ⟨fullInput_accepted, read_input_filter (10 :: fullInput) fullInput_accepted⟩

theorem read_input_dots : read_input (List.replicate 81 46) initGrid = some initGrid := by
  unfold read_input
  have hn : initGrid.notdone = ((81 : Nat) : Int) := by decide
  rw [hn, readLoop_accepted (List.replicate 81 46) 0 81 initGrid
    (by
      intro c h
      rw [List.eq_of_mem_replicate h]
      decide)
    (le_of_eq (by rw [List.length_replicate])),
    seedFrom_blank]
  intro c h
  rw [List.eq_of_mem_replicate (List.mem_of_mem_take h)]
  decide

theorem row_count_initGrid : (rowGroupTally initGrid.q 0 0).count 1 = 3 := by
  decide!

/-- Claim C15, evaluated at the initial grid, which the program reads from 81
blank characters and on which the row pointing pass changes nothing: in the
sub-grid at `(0,0)` digit 1 is a candidate of all nine cells, which lie in three
columns, and the scan of `rule_only_in_one_column_in_group` ends with
`count[1] = 9`, while the scan of `rule_only_in_one_row_in_group` of the same
sub-grid ends with `count[1] = 3`. -/
theorem column_count_not_distinct :
    read_input (List.replicate 81 46) initGrid = some initGrid ∧
    rule_only_in_one_row_in_group initGrid = initGrid ∧
    (0 ∈ blockStarts ∧ 1 ∈ digits) ∧
    (columnGroupTally initGrid.q 0 0).count 1 = 9 ∧
    distinctColumns initGrid.q 0 0 1 = 3 ∧
    (columnGroupTally initGrid.q 0 0).count 1 ≠ distinctColumns initGrid.q 0 0 1 ∧
    (rowGroupTally initGrid.q 0 0).count 1 = 3 := by
  refine ⟨read_input_dots, initGrid_one_row_in_group, ⟨by decide, by decide⟩,
    column_count_initGrid.1, column_count_initGrid.2, ?_, row_count_initGrid⟩
  rw [column_count_initGrid.1, column_count_initGrid.2]
  decide

/-- Witness for `column_pointing_block`: the sub-grid at `(6,6)` of
`laggingGrid`, where the candidates are confined to column 8. -/
theorem column_pointing_block_witness :
    6 ∈ blockStarts ∧
    ((one_column_in_group_block laggingGrid 6 6).notdone = laggingGrid.notdone ∧
    (∀ i j, (one_column_in_group_block laggingGrid 6 6).q i j 0 = laggingGrid.q i j 0) ∧
    (∀ k ∈ digits, ∀ c, columnConfined laggingGrid.q 6 6 k c →
      ∀ i j, (one_column_in_group_block laggingGrid 6 6).q i j k
        = if j = c ∧ i < MAX ∧ (i < 6 ∨ 6 + STEP ≤ i) then 0 else laggingGrid.q i j k) ∧
    (∀ k ∈ digits, (¬ ∃ c, columnConfined laggingGrid.q 6 6 k c) →
      ∀ i j, (one_column_in_group_block laggingGrid 6 6).q i j k = laggingGrid.q i j k)) :=
  ⟨by decide, column_pointing_block laggingGrid 6 6 (by decide)⟩

/-- Witness for `candidates_only_shrink`: digit 5 at cell `(0,1)` after
`set(0,0,5)` on the initial grid. -/
theorem candidates_only_shrink_witness :
    (5 ≠ 0 ∧ (set initGrid 0 0 5).q 0 1 5 = 0) ∧
    ((∀ x y n, (set (set initGrid 0 0 5) x y n).q 0 1 5 = 0) ∧
    (rule_only_digit_in_cell (set initGrid 0 0 5)).q 0 1 5 = 0 ∧
    (rule_only_place_in_row (set initGrid 0 0 5)).q 0 1 5 = 0 ∧
    (rule_only_place_in_column (set initGrid 0 0 5)).q 0 1 5 = 0 ∧
    (rule_only_in_one_row_in_group (set initGrid 0 0 5)).q 0 1 5 = 0 ∧
    (rule_only_in_one_column_in_group (set initGrid 0 0 5)).q 0 1 5 = 0 ∧
    (rule_only_in_one_sq_in_group (set initGrid 0 0 5)).q 0 1 5 = 0 ∧
    (apply_rules (set initGrid 0 0 5)).q 0 1 5 = 0) :=
  ⟨⟨by decide, by decide⟩,
    candidates_only_shrink (set initGrid 0 0 5) 0 1 5 (by decide) (by decide)⟩

/-- Witness for `assigned_excluded_from_peers`: the initial grid after
`set(0,0,5)`. -/
theorem assigned_excluded_from_peers_witness :
    Reachable (set initGrid 0 0 5) ∧
    ((∀ i < MAX, ∀ j < MAX, (set initGrid 0 0 5).q i j 0 ≠ 0 →
      ∃ n : Nat, 1 ≤ n ∧ n ≤ MAX ∧ (set initGrid 0 0 5).q i j 0 = (n : Int) ∧
        (set initGrid 0 0 5).q i j n ≠ 0 ∧
        ∀ i2 < MAX, ∀ j2 < MAX, peers i j i2 j2 → (set initGrid 0 0 5).q i2 j2 n = 0) ∧
    (∀ i < MAX, ∀ j < MAX, ∀ i2 < MAX, ∀ j2 < MAX, peers i j i2 j2 →
      (set initGrid 0 0 5).q i j 0 ≠ 0 →
      (set initGrid 0 0 5).q i j 0 ≠ (set initGrid 0 0 5).q i2 j2 0)) :=
  ⟨reachable_first_clue, assigned_excluded_from_peers (set initGrid 0 0 5) reachable_first_clue⟩

end Sudoku
